import Mathlib

/-!
Verification development for the typjson core codec
(`typ/encoding.py`, `typ/json.py`, `typ/types/union.py`).

The Python data model is shallowly embedded:

* `Ty` models the type descriptors the codec dispatches on: Python's
  primitive classes (`int`, `float`, `str`, `bool`, `NoneType`), the extra
  scalar classes (`Decimal`, `char`, `date`, `datetime`, `time`, `UUID`),
  the parametric `typing` descriptors (`List[a]`, `Dict[k,v]`,
  `Tuple[...]`, `Set[a]`, `Union[...]`), dataclass (record) types, tagged
  union classes produced by the `@union` decorator, `Any`, and the four
  bare (erased-parameter) container classes `list`, `dict`, `tuple`, `set`.
  Dataclass descriptors carry their ordered field (name, type) pairs and
  tagged-union descriptors their ordered case (name, optional payload type)
  pairs, mirroring what `dataclasses.fields` and `union.members` return.

* `PyVal` models the runtime values flowing through the codec: both host
  values and the JSON interchange tree live in Python's single value
  universe, so one inductive covers both.  A dataclass instance carries its
  class name and ordered (field name, declared field type, value) triples
  (Python stores declared types on the class reachable from the instance);
  a tagged-union member mirrors `UnionMember` with its `_member_name`,
  `_member_type` and `value` attributes.

* Machine floats and `Decimal` objects are modelled as rational numbers.
  The only numeric conversions the modelled paths perform (`float` applied
  to an already-`float` value, identity passing) are exact, so binary64
  rounding is not load-bearing and is not modelled.

* Python `set` objects are modelled as the list of their elements in
  iteration order; `set(xs)` deduplicates with `==`, which is modelled by
  the executable equality `pyEqB`.

Enumeration types (`Enum` subclasses) are outside the modelled type
universe: `encode_enum`/`decode_enum` are the one pair of built-in rules
not carried over (no claim concerns enumerations, and their member tables
would force the type and value universes to be mutually inductive).
-/

/-- Type descriptors: the Python classes and `typing` descriptors the rule
chains of `typ/encoding.py` dispatch on. -/
inductive Ty : Type where
  | int : Ty
  | float : Ty
  | str : Ty
  | bool : Ty
  | NoneType : Ty
  | Decimal : Ty
  | char : Ty
  | date : Ty
  | datetime : Ty
  | time : Ty
  | UUID : Ty
  | List : Ty → Ty
  | Dict : Ty → Ty → Ty
  | Tuple : List Ty → Ty
  | Set : Ty → Ty
  | Union : List Ty → Ty
  | dataclass : String → List (String × Ty) → Ty
  | taggedUnion : String → List (String × Option Ty) → Ty
  | Any : Ty
  | list : Ty
  | dict : Ty
  | tuple : Ty
  | set : Ty
  deriving Repr

/-- Runtime Python values (host values and JSON interchange trees alike).
`datetime` and `time` carry their `tzinfo` as an optional whole-minute
UTC offset (`None` = naive).  Finite floats are exact rationals;
`floatNan` is `float("nan")`, the `float` instance that compares unequal
to everything including itself. -/
inductive PyVal : Type where
  | none : PyVal
  | bool : Bool → PyVal
  | int : Int → PyVal
  | float : ℚ → PyVal
  | dec : ℚ → PyVal
  | str : String → PyVal
  | char : String → PyVal
  | date : Nat → Nat → Nat → PyVal
  | datetime : Nat → Nat → Nat → Nat → Nat → Nat → Nat → Option Int → PyVal
  | time : Nat → Nat → Nat → Nat → Option Int → PyVal
  | uuid : String → PyVal
  | list : List PyVal → PyVal
  | tuple : List PyVal → PyVal
  | set : List PyVal → PyVal
  | dict : List (String × PyVal) → PyVal
  | record : String → List (String × Ty × PyVal) → PyVal
  | ucase : String → String → Option Ty → PyVal → PyVal
  | floatNan : PyVal
  deriving Repr

/-- Python's `type(value)`: the runtime class of a value, as a descriptor.
Bare containers map to the erased-parameter classes `list`, `dict`,
`tuple`, `set`.  A dataclass instance's class carries the declared field
types; a `UnionMember` instance's class is (a subclass of) its tagged
union class, whose case table is not reconstructed from the value (the
modelled engine paths never read it from a derived descriptor). -/
def rtypeTy : PyVal → Ty
  | .none => .NoneType
  | .bool _ => .bool
  | .int _ => .int
  | .float _ => .float
  | .dec _ => .Decimal
  | .str _ => .str
  | .char _ => .char
  | .date _ _ _ => .date
  | .datetime _ _ _ _ _ _ _ _ => .datetime
  | .time _ _ _ _ _ => .time
  | .uuid _ => .UUID
  | .list _ => .list
  | .tuple _ => .tuple
  | .set _ => .set
  | .dict _ => .dict
  | .record cls fs => .dataclass cls (fs.map fun f => (f.1, f.2.1))
  | .ucase cls _ _ _ => .taggedUnion cls []
  | .floatNan => .float

/-! ### Structural equality of type descriptors

Python compares classes and `typing` descriptors with `==`, which on this
universe coincides with structural equality.  Nested lists prevent a
derived instance, so equality is computed with an explicit fuel (any fuel
above the descriptor's size is enough). -/

def tyBeqF : Nat → Ty → Ty → Bool
  | 0, _, _ => false
  | f+1, a, b =>
    match a, b with
    | .int, .int => true
    | .float, .float => true
    | .str, .str => true
    | .bool, .bool => true
    | .NoneType, .NoneType => true
    | .Decimal, .Decimal => true
    | .char, .char => true
    | .date, .date => true
    | .datetime, .datetime => true
    | .time, .time => true
    | .UUID, .UUID => true
    | .List a1, .List a2 => tyBeqF f a1 a2
    | .Dict k1 v1, .Dict k2 v2 => tyBeqF f k1 k2 && tyBeqF f v1 v2
    | .Tuple as1, .Tuple as2 =>
        as1.length == as2.length && (as1.zip as2).all fun p => tyBeqF f p.1 p.2
    | .Set a1, .Set a2 => tyBeqF f a1 a2
    | .Union as1, .Union as2 =>
        as1.length == as2.length && (as1.zip as2).all fun p => tyBeqF f p.1 p.2
    | .dataclass c1 fs1, .dataclass c2 fs2 =>
        c1 == c2 && (fs1.length == fs2.length &&
          (fs1.zip fs2).all fun p => p.1.1 == p.2.1 && tyBeqF f p.1.2 p.2.2)
    | .taggedUnion c1 cs1, .taggedUnion c2 cs2 =>
        c1 == c2 && (cs1.length == cs2.length &&
          (cs1.zip cs2).all fun p => p.1.1 == p.2.1 &&
            match p.1.2, p.2.2 with
            | Option.none, Option.none => true
            | Option.some x, Option.some y => tyBeqF f x y
            | _, _ => false)
    | .Any, .Any => true
    | .list, .list => true
    | .dict, .dict => true
    | .tuple, .tuple => true
    | .set, .set => true
    | _, _ => false

/- Any fuel of at least `sizeOf a` makes `tyBeqF f a b` agree with `a = b`
(proved below); the engine threads its stack allowance through as fuel. -/

/-! ### Python `==` on values

`pyEqB` models Python's `==` on the value universe: numbers compare by
value across `bool`/`int`/`float`/`Decimal`, `char` is a `str` subclass so
the two compare by text, aware datetimes compare as instants, containers
compare elementwise, sets by mutual membership, dataclass instances by
class and field values, tagged-union members by case name and payload.
Nested containers again force an explicit fuel; any fuel above the sizes
of the compared values is sufficient. -/

/-- Numeric value of a Python number (`bool` counts: `True == 1`). -/
def numOfPy : PyVal → Option ℚ
  | .bool b => some (if b then 1 else 0)
  | .int n => some (n : ℚ)
  | .float q => some q
  | .dec q => some q
  | _ => Option.none

/-- Text of a Python string, including instances of the `char` subclass. -/
def strOfPy : PyVal → Option String
  | .str s => some s
  | .char s => some s
  | _ => Option.none

/-- Days from 1970-01-01 of a civil date (standard days-from-civil formula),
used to compare timezone-aware datetimes as instants. -/
def daysFromCivil (y m d : Nat) : Int :=
  let yi : Int := (y : Int) - (if m ≤ 2 then 1 else 0)
  let era : Int := (if 0 ≤ yi then yi else yi - 399) / 400
  let yoe : Int := yi - era * 400
  let mi : Int := (m : Int)
  let doy : Int := (153 * (mi + (if 2 < mi then -3 else 9)) + 2) / 5 + (d : Int) - 1
  let doe : Int := yoe * 365 + yoe / 4 - yoe / 100 + doy
  era * 146097 + doe - 719468

/-- Microseconds from the epoch of an aware datetime (offset in minutes). -/
def dtInstant (y mo d h mi s us : Nat) (off : Int) : Int :=
  ((((daysFromCivil y mo d * 24 + (h : Int)) * 60 + (mi : Int) - off) * 60
      + (s : Int)) * 1000000) + (us : Int)

def pyEqB : Nat → PyVal → PyVal → Bool
  | 0, _, _ => false
  | f+1, a, b =>
    match numOfPy a, numOfPy b with
    | some x, some y => decide (x = y)
    | _, _ =>
      match strOfPy a, strOfPy b with
      | some x, some y => x == y
      | _, _ =>
        match a, b with
        | .none, .none => true
        | .date y1 m1 d1, .date y2 m2 d2 => y1 == y2 && m1 == m2 && d1 == d2
        | .datetime y1 mo1 d1 h1 mi1 s1 u1 tz1, .datetime y2 mo2 d2 h2 mi2 s2 u2 tz2 =>
            match tz1, tz2 with
            | Option.none, Option.none =>
                y1 == y2 && mo1 == mo2 && d1 == d2 && h1 == h2 && mi1 == mi2
                  && s1 == s2 && u1 == u2
            | Option.some o1, Option.some o2 =>
                decide (dtInstant y1 mo1 d1 h1 mi1 s1 u1 o1
                  = dtInstant y2 mo2 d2 h2 mi2 s2 u2 o2)
            | _, _ => false
        | .time h1 mi1 s1 u1 z1, .time h2 mi2 s2 u2 z2 =>
            h1 == h2 && mi1 == mi2 && s1 == s2 && u1 == u2 && z1 == z2
        | .uuid x1, .uuid x2 => x1 == x2
        | .list xs, .list ys =>
            xs.length == ys.length && (xs.zip ys).all fun p => pyEqB f p.1 p.2
        | .tuple xs, .tuple ys =>
            xs.length == ys.length && (xs.zip ys).all fun p => pyEqB f p.1 p.2
        | .set xs, .set ys =>
            (xs.all fun x => ys.any fun y => pyEqB f x y)
              && (ys.all fun y => xs.any fun x => pyEqB f x y)
        | .dict xs, .dict ys =>
            (xs.all fun kv =>
              match ys.find? (fun kw => kw.1 == kv.1) with
              | Option.some kw => pyEqB f kv.2 kw.2
              | Option.none => false)
              && (ys.all fun kw => (xs.find? (fun kv => kv.1 == kw.1)).isSome)
        | .record c1 fs1, .record c2 fs2 =>
            c1 == c2 && (fs1.length == fs2.length &&
              (fs1.zip fs2).all fun p => p.1.1 == p.2.1 && pyEqB f p.1.2.2 p.2.2.2)
        | .ucase c1 n1 _ v1, .ucase c2 n2 _ v2 =>
            c1 == c2 && n1 == n2 && pyEqB f v1 v2
        | _, _ => false

/-- Construction of a Python `set` from a list: keep the first occurrence
of each `==`-equivalence class (`seen` accumulates the kept elements).
The fuel feeds `pyEqB` and is sufficient whenever it exceeds the sizes of
the compared elements. -/
def pyDedupAux (f : Nat) : List PyVal → List PyVal → List PyVal
  | _, [] => []
  | seen, x :: xs =>
    if seen.any fun y => pyEqB f y x then pyDedupAux f seen xs
    else x :: pyDedupAux f (x :: seen) xs

/-- Python's `set(xs)` on a list of values. -/
def pySetOf (f : Nat) (xs : List PyVal) : PyVal := .set (pyDedupAux f [] xs)

/-! ### Decimal digit strings

Python renders numbers with `%d`-style zero-padded decimal fields
(`isoformat`) and `strptime` reads them back.  Formatting uses an explicit
fuel (the number itself is always enough). -/

def digitChar (n : Nat) : Char := Char.ofNat (48 + n)

def digitVal (c : Char) : Nat := c.toNat - 48

def natCharsF : Nat → Nat → List Char
  | 0, _ => []
  | f+1, n => if n < 10 then [digitChar n] else natCharsF f (n / 10) ++ [digitChar (n % 10)]

/-- Decimal digits of `n`, most significant first (Python's `str(n)` for `n ≥ 0`). -/
def natChars (n : Nat) : List Char := natCharsF (n+1) n

/-- Zero-padded decimal field of width `w` (Python `"%0*d"`). -/
def padNum (w n : Nat) : List Char :=
  let ds := natChars n
  List.replicate (w - ds.length) '0' ++ ds

/-- Numeric value of a digit string. -/
def readNatChars (l : List Char) : Nat := l.foldl (fun a c => a * 10 + digitVal c) 0

/-! ### `strptime`-style field scanners

`_strptime` matches each directive with a regular expression; these
scanners reproduce the anchored behaviour of the directives used by
`typ/encoding.py` (`%Y` exactly four digits; `%m`, `%d`, `%H`, `%M`, `%S`
one or two digits, greedy, with the range bounds the regex and the
`datetime` constructor enforce between them; `%f` one to six digits padded
right to microseconds; `%z` a sign, two hour digits, an optional colon and
two minute digits, or `Z` — the sub-minute offset forms, which the canonical
encoder never emits, are not modelled). -/

def digits2 : List Char → Option (Nat × List Char)
  | c1 :: c2 :: rest =>
    if c1.isDigit && c2.isDigit then some (digitVal c1 * 10 + digitVal c2, rest)
    else Option.none
  | _ => Option.none

def digits4 : List Char → Option (Nat × List Char)
  | c1 :: c2 :: c3 :: c4 :: rest =>
    if c1.isDigit && c2.isDigit && c3.isDigit && c4.isDigit then
      some (((digitVal c1 * 10 + digitVal c2) * 10 + digitVal c3) * 10 + digitVal c4, rest)
    else Option.none
  | _ => Option.none

/-- Greedy one-or-two digit field. -/
def digits12 : List Char → Option (Nat × List Char)
  | [] => Option.none
  | c :: rest =>
    if c.isDigit then
      match rest with
      | c2 :: rest2 =>
        if c2.isDigit then some (digitVal c * 10 + digitVal c2, rest2)
        else some (digitVal c, c2 :: rest2)
      | [] => some (digitVal c, [])
    else Option.none

def expectChar (c : Char) : List Char → Option (List Char)
  | x :: rest => if x == c then some rest else Option.none
  | [] => Option.none

def takeDigitsUpTo : Nat → List Char → (List Char × List Char)
  | 0, l => ([], l)
  | _+1, [] => ([], [])
  | n+1, c :: rest =>
    if c.isDigit then
      let (ds, r) := takeDigitsUpTo n rest
      (c :: ds, r)
    else ([], c :: rest)

/-- The `%f` directive: one to six digits, padded right to microseconds. -/
def fracMicro (l : List Char) : Option (Nat × List Char) :=
  let (ds, r) := takeDigitsUpTo 6 l
  if ds.isEmpty then Option.none
  else some (readNatChars ds * 10 ^ (6 - ds.length), r)

def isLeapYear (y : Nat) : Bool := y % 4 == 0 && (y % 100 != 0 || y % 400 == 0)

def daysInMonth (y m : Nat) : Nat :=
  if m == 2 then (if isLeapYear y then 29 else 28)
  else if m == 4 || m == 6 || m == 9 || m == 11 then 30
  else 31

/-- The `%Y-%m-%d` prefix with the validity bounds `date` enforces. -/
def parseYmd (l : List Char) : Option ((Nat × Nat × Nat) × List Char) := do
  let (y, r) ← digits4 l
  let r ← expectChar '-' r
  let (m, r) ← digits12 r
  let r ← expectChar '-' r
  let (d, r) ← digits12 r
  if 1 ≤ y ∧ 1 ≤ m ∧ m ≤ 12 ∧ 1 ≤ d ∧ d ≤ daysInMonth y m then some ((y, m, d), r)
  else Option.none

/-- The `%H:%M:%S` prefix with the bounds the directive regexes enforce. -/
def parseHms (l : List Char) : Option ((Nat × Nat × Nat) × List Char) := do
  let (h, r) ← digits12 l
  let r ← expectChar ':' r
  let (mi, r) ← digits12 r
  let r ← expectChar ':' r
  let (s, r) ← digits12 r
  if h ≤ 23 ∧ mi ≤ 59 ∧ s ≤ 59 then some ((h, mi, s), r) else Option.none

/-- The optional colon inside the `%z` pattern. -/
def dropColon : List Char → List Char
  | ':' :: r => r
  | other => other

/-- The `%z` directive (offset in minutes); `timezone` rejects offsets of a
full day or more. -/
def parseOffset : List Char → Option (Int × List Char)
  | 'Z' :: r => some (0, r)
  | c :: r =>
    if c == '+' || c == '-' then do
      let (hh, r) ← digits2 r
      let (mm, r) ← digits2 (dropColon r)
      if mm ≤ 59 ∧ hh * 60 + mm < 1440 then
        some ((if c == '-' then -((hh * 60 + mm : Nat) : Int) else ((hh * 60 + mm : Nat) : Int)), r)
      else Option.none
    else Option.none
  | [] => Option.none

/-- `date.strptime(s, "%Y-%m-%d")`, anchored to the whole string. -/
def parseDateStr (l : List Char) : Option (Nat × Nat × Nat) := do
  let (ymd, r) ← parseYmd l
  match r with
  | [] => some ymd
  | _ => Option.none

/-- `datetime.strptime(s, "%H:%M:%S")`, anchored to the whole string. -/
def parseTimeStr (l : List Char) : Option (Nat × Nat × Nat) := do
  let (hms, r) ← parseHms l
  match r with
  | [] => some hms
  | _ => Option.none

/-- `datetime.strptime(s, "%Y-%m-%dT%H:%M:%S%z")`. -/
def parseDatetimeNoFrac (l : List Char) :
    Option ((Nat × Nat × Nat) × (Nat × Nat × Nat) × Int) := do
  let (ymd, r) ← parseYmd l
  let r ← expectChar 'T' r
  let (hms, r) ← parseHms r
  let (off, r) ← parseOffset r
  match r with
  | [] => some (ymd, hms, off)
  | _ => Option.none

/-- `datetime.strptime(s, "%Y-%m-%dT%H:%M:%S.%f%z")`. -/
def parseDatetimeFrac (l : List Char) :
    Option ((Nat × Nat × Nat) × (Nat × Nat × Nat) × Nat × Int) := do
  let (ymd, r) ← parseYmd l
  let r ← expectChar 'T' r
  let (hms, r) ← parseHms r
  let r ← expectChar '.' r
  let (us, r) ← fracMicro r
  let (off, r) ← parseOffset r
  match r with
  | [] => some (ymd, hms, us, off)
  | _ => Option.none

/-! ### `isoformat` renderings -/

def fmtYmd (y m d : Nat) : List Char :=
  padNum 4 y ++ '-' :: (padNum 2 m ++ '-' :: padNum 2 d)

def fmtHms (h mi s : Nat) : List Char :=
  padNum 2 h ++ ':' :: (padNum 2 mi ++ ':' :: padNum 2 s)

/-- Fractional-second part: empty when the microsecond field is zero, six
zero-padded digits otherwise (the `timespec='auto'` default). -/
def fmtFrac (us : Nat) : List Char := if us == 0 then [] else '.' :: padNum 6 us

/-- UTC-offset suffix: empty for a naive value, signed `HH:MM` otherwise. -/
def fmtOffset : Option Int → List Char
  | Option.none => []
  | Option.some off =>
    (if off < 0 then '-' else '+') ::
      (padNum 2 (off.natAbs / 60) ++ ':' :: padNum 2 (off.natAbs % 60))

/-- `date.isoformat()`. -/
def dateIso (y m d : Nat) : String := ⟨fmtYmd y m d⟩

/-- `datetime.isoformat()`. -/
def datetimeIso (y mo d h mi s us : Nat) (tz : Option Int) : String :=
  ⟨fmtYmd y mo d ++ 'T' :: (fmtHms h mi s ++ fmtFrac us ++ fmtOffset tz)⟩

/-- `time.isoformat()`: `HH:MM:SS[.ffffff][±HH:MM]` — like the datetime
rendering, the offset suffix appears exactly for timezone-aware values. -/
def timeIso (h mi s us : Nat) (tz : Option Int) : String :=
  ⟨fmtHms h mi s ++ fmtFrac us ++ fmtOffset tz⟩

/-! ### UUID strings -/

def isHexChar (c : Char) : Bool :=
  c.isDigit || ('a' ≤ c && c ≤ 'f') || ('A' ≤ c && c ≤ 'F')

/-- Case folding of a hex digit (what `int(hex, 16)` makes irrelevant and
`str(uuid)` normalizes): uppercase hex letters map down, everything else
is unchanged. -/
def hexToLower (c : Char) : Char :=
  if 'A' ≤ c && c ≤ 'F' then Char.ofNat (c.toNat + 32) else c

/-- `str(uuid)`: the canonical 8-4-4-4-12 hyphenation of the 32 stored
hex digits. -/
def uuidDashes (cs : List Char) : List Char :=
  cs.take 8 ++ '-' :: ((cs.drop 8).take 4 ++ '-' :: ((cs.drop 12).take 4
    ++ '-' :: ((cs.drop 16).take 4 ++ '-' :: (cs.drop 20).take 12)))

/-- The `UUID(hex=s)` constructor: hyphens are removed wherever they occur,
the rest must be exactly 32 hex digits, and the stored value is
case-insensitive (kept here as the lowercased digit string).  The `urn:`
and brace-delimited forms, which nothing in the codec produces, are not
modelled. -/
def pyUUIDOfStr (s : String) : Option String :=
  let cs := s.data.filter fun c => c != '-'
  if cs.length == 32 && cs.all isHexChar then some ⟨cs.map hexToLower⟩
  else Option.none

/-! ### Errors

`typ/encoding.py` raises a single exception class `JsonError`; each raise
site carries a distinct message shape, modelled as a distinct constructor.
Failures of foreign origin (exceptions that are not `JsonError`) get their
own constructors: `decode_union`/`encode_union` catch only `JsonError`, so
the distinction is observable, and the top-level entry points wrap both
kinds. -/
inductive Err : Type where
  | typeMismatch : List Ty → Ty → Err
  | charLen : String → Err
  | badDatetime : String → Err
  | dictKeyNotStr : Ty → Err
  | tupleArity : Nat → Nat → Err
  | unionNoMatch : Ty → Err
  | taggedNotSingle : Ty → Err
  | unsupportedType : Ty → Err
  | wrapDecoding : Err → Err
  | wrapEncoding : Err → Err
  | keyError : Option String → Err
  | valueError : String → Err
  | typeErrorIsinstance : Ty → Err
  | assertionError : Err
  | recursionLimit : Err
  deriving Repr

/-- Which failures are `JsonError` instances (`except JsonError` catches
exactly these; `keyError`, `valueError`, `typeErrorIsinstance`,
`assertionError` and `recursionLimit` model foreign exception classes). -/
def Err.isJsonError : Err → Bool
  | .typeMismatch _ _ | .charLen _ | .badDatetime _ | .dictKeyNotStr _
  | .tupleArity _ _ | .unionNoMatch _ | .taggedNotSingle _
  | .unsupportedType _ | .wrapDecoding _ | .wrapEncoding _ => true
  | _ => false

/-- `check_type(expected_type, value)` for a single expected class.  The
fuel (shifted by one so that bare classes are always decided) feeds the
structural class comparison; the engine passes its stack allowance. -/
def check_type (f : Nat) (expected : Ty) (value : PyVal) : Except Err Unit :=
  if tyBeqF (f+1) (rtypeTy value) expected then .ok ()
  else .error (.typeMismatch [expected] (rtypeTy value))

/-- `check_type(expected_type, value)` for a list of accepted classes. -/
def check_type_in (f : Nat) (expected : List Ty) (value : PyVal) : Except Err Unit :=
  if expected.any (fun t => tyBeqF (f+1) (rtypeTy value) t) then .ok ()
  else .error (.typeMismatch expected (rtypeTy value))

/-! ### The codec engine

A rule receives the engine object (`Decoder`/`Encoder` in the source),
which carries the recursive entry point, the field-name case converter and
the remaining stack allowance (the fuel Python's call stack provides
implicitly; exhausting it models `RecursionError`). -/

/-- The `Decoder` object as a rule sees it. -/
structure DecSelf : Type where
  stack : Nat
  decode : Ty → PyVal → Except Err PyVal
  to_json_case : String → String

/-- The `Encoder` object as a rule sees it; `encode` takes the optional
declared type exactly like `Encoder.encode(value, typ=None)`. -/
structure EncSelf : Type where
  stack : Nat
  encode : PyVal → Option Ty → Except Err PyVal
  to_json_case : String → String

def DecodeFunc : Type := DecSelf → Ty → PyVal → Except Err (Option PyVal)

def EncodeFunc : Type := EncSelf → Ty → PyVal → Except Err (Option PyVal)

/-- `dict.get(key)`: `None` when the key is absent. -/
def dictGet (kvs : List (String × PyVal)) (k : String) : PyVal :=
  match kvs.find? fun kv => kv.1 == k with
  | Option.some kv => kv.2
  | Option.none => .none

/-- Python's `float(x)` on a number (exact on the modelled rationals). -/
def pyFloat (v : PyVal) : PyVal :=
  match numOfPy v with
  | Option.some q => .float q
  | Option.none => v

/-- Python `isinstance(value, t)` for the descriptors a tagged-union case
can declare: bare classes check the runtime class, honouring the
`bool ≤ int`, `char ≤ str` and `datetime ≤ date` subclass relations and
class identity (by name) for dataclass, tagged-union and enumeration-free
classes; subscripted generics, `Union[...]` and `Any` raise `TypeError`. -/
def pyIsinstance (value : PyVal) (t : Ty) : Except Err Bool :=
  match t with
  | .List _ | .Dict _ _ | .Tuple _ | .Set _ | .Union _ | .Any =>
      .error (.typeErrorIsinstance t)
  | .int => .ok (match value with | .int _ => true | .bool _ => true | _ => false)
  | .float => .ok (match value with
      | .float _ => true | .floatNan => true | _ => false)
  | .str => .ok (match value with | .str _ => true | .char _ => true | _ => false)
  | .bool => .ok (match value with | .bool _ => true | _ => false)
  | .NoneType => .ok (match value with | .none => true | _ => false)
  | .Decimal => .ok (match value with | .dec _ => true | _ => false)
  | .char => .ok (match value with | .char _ => true | _ => false)
  | .date => .ok (match value with
      | .date _ _ _ => true | .datetime _ _ _ _ _ _ _ _ => true | _ => false)
  | .datetime => .ok (match value with | .datetime _ _ _ _ _ _ _ _ => true | _ => false)
  | .time => .ok (match value with | .time _ _ _ _ _ => true | _ => false)
  | .UUID => .ok (match value with | .uuid _ => true | _ => false)
  | .dataclass cls _ => .ok (match value with | .record c _ => c == cls | _ => false)
  | .taggedUnion cls _ => .ok (match value with | .ucase c _ _ _ => c == cls | _ => false)
  | .list => .ok (match value with | .list _ => true | _ => false)
  | .dict => .ok (match value with | .dict _ => true | _ => false)
  | .tuple => .ok (match value with | .tuple _ => true | _ => false)
  | .set => .ok (match value with | .set _ => true | _ => false)

/-! In the rule bodies below, every `match` on a value that follows a
successful `check_type` keeps an unreachable fallback arm repeating the
same `typeMismatch` failure, so the rule is total without changing the
behaviour the source exhibits. -/

/-- Rule `decode_primitive` (`typ/encoding.py` lines 47-51). -/
def decode_primitive (decoder : DecSelf) (typ : Ty) (json_value : PyVal) :
    Except Err (Option PyVal) :=
  match typ with
  | .int | .Decimal | .str | .bool | .NoneType => do
    let _ ← check_type decoder.stack typ json_value
    pure (some json_value)
  | _ => pure Option.none

/-- Rule `decode_char` (lines 61-67). -/
def decode_char (decoder : DecSelf) (typ : Ty) (json_value : PyVal) :
    Except Err (Option PyVal) :=
  match typ with
  | .char => do
    let _ ← check_type decoder.stack .str json_value
    match json_value with
    | .str s =>
      if s.length != 1 then throw (.charLen s) else pure (some (.str s))
    | v => throw (.typeMismatch [.str] (rtypeTy v))
  | _ => pure Option.none

/-- Rule `decode_float` (lines 70-74). -/
def decode_float (decoder : DecSelf) (typ : Ty) (json_value : PyVal) :
    Except Err (Option PyVal) :=
  match typ with
  | .float => do
    let _ ← check_type_in decoder.stack [.int, .float, .Decimal] json_value
    pure (some (pyFloat json_value))
  | _ => pure Option.none

/-- Rule `decode_date` (lines 91-96); an unparsable string lets the
`strptime` `ValueError` escape. -/
def decode_date (decoder : DecSelf) (typ : Ty) (json_value : PyVal) :
    Except Err (Option PyVal) :=
  match typ with
  | .date => do
    let _ ← check_type decoder.stack .str json_value
    match json_value with
    | .str s =>
      match parseDateStr s.data with
      | Option.some (y, m, d) => pure (some (.date y m d))
      | Option.none => throw (.valueError "strptime")
    | v => throw (.typeMismatch [.str] (rtypeTy v))
  | _ => pure Option.none

/-- Rule `decode_datetime` (lines 106-116): the offset-only format is tried
first, then the fractional-seconds format; each attempt's failure is
swallowed by the bare `except`, and exhaustion raises `JsonError`. -/
def decode_datetime (decoder : DecSelf) (typ : Ty) (json_value : PyVal) :
    Except Err (Option PyVal) :=
  match typ with
  | .datetime => do
    let _ ← check_type decoder.stack .str json_value
    match json_value with
    | .str s =>
      match parseDatetimeNoFrac s.data with
      | Option.some ((y, mo, d), (h, mi, sec), off) =>
          pure (some (.datetime y mo d h mi sec 0 (some off)))
      | Option.none =>
        match parseDatetimeFrac s.data with
        | Option.some ((y, mo, d), (h, mi, sec), us, off) =>
            pure (some (.datetime y mo d h mi sec us (some off)))
        | Option.none => throw (.badDatetime s)
    | v => throw (.typeMismatch [.str] (rtypeTy v))
  | _ => pure Option.none

/-- Rule `decode_time` (lines 126-131). -/
def decode_time (decoder : DecSelf) (typ : Ty) (json_value : PyVal) :
    Except Err (Option PyVal) :=
  match typ with
  | .time => do
    let _ ← check_type decoder.stack .str json_value
    match json_value with
    | .str s =>
      match parseTimeStr s.data with
      | Option.some (h, mi, sec) => pure (some (.time h mi sec 0 Option.none))
      | Option.none => throw (.valueError "strptime")
    | v => throw (.typeMismatch [.str] (rtypeTy v))
  | _ => pure Option.none

/-- Rule `decode_uuid` (lines 141-145); a malformed string lets the `UUID`
constructor's `ValueError` escape. -/
def decode_uuid (decoder : DecSelf) (typ : Ty) (json_value : PyVal) :
    Except Err (Option PyVal) :=
  match typ with
  | .UUID => do
    let _ ← check_type decoder.stack .str json_value
    match json_value with
    | .str s =>
      match pyUUIDOfStr s with
      | Option.some h => pure (some (.uuid h))
      | Option.none => throw (.valueError "UUID")
    | v => throw (.typeMismatch [.str] (rtypeTy v))
  | _ => pure Option.none

/-- Rule `decode_generic_list` (lines 198-203). -/
def decode_generic_list (decoder : DecSelf) (typ : Ty) (json_value : PyVal) :
    Except Err (Option PyVal) :=
  match typ with
  | .List item_type => do
    let _ ← check_type decoder.stack .list json_value
    match json_value with
    | .list xs => do
      let ys ← xs.mapM fun item => decoder.decode item_type item
      pure (some (.list ys))
    | v => throw (.typeMismatch [.list] (rtypeTy v))
  | _ => pure Option.none

/-- Rule `decode_generic_dict` (lines 216-223). -/
def decode_generic_dict (decoder : DecSelf) (typ : Ty) (json_value : PyVal) :
    Except Err (Option PyVal) :=
  match typ with
  | .Dict key_type value_type => do
    let _ ← check_type decoder.stack .dict json_value
    match key_type with
    | .str =>
      match json_value with
      | .dict kvs => do
        let ys ← kvs.mapM fun kv => do
          let w ← decoder.decode value_type kv.2
          pure (kv.1, w)
        pure (some (.dict ys))
      | v => throw (.typeMismatch [.dict] (rtypeTy v))
    | _ => throw (.dictKeyNotStr key_type)
  | _ => pure Option.none

/-- Rule `decode_generic_tuple` (lines 236-243): the wire form is a JSON
array (a Python `list`). -/
def decode_generic_tuple (decoder : DecSelf) (typ : Ty) (json_value : PyVal) :
    Except Err (Option PyVal) :=
  match typ with
  | .Tuple items_types => do
    let _ ← check_type decoder.stack .list json_value
    match json_value with
    | .list xs =>
      if items_types.length != xs.length then
        throw (.tupleArity items_types.length xs.length)
      else do
        let ys ← (items_types.zip xs).mapM fun p => decoder.decode p.1 p.2
        pure (some (.tuple ys))
    | v => throw (.typeMismatch [.list] (rtypeTy v))
  | _ => pure Option.none

/-- Rule `decode_generic_set` (lines 254-259): `set(...)` over the decoded
items. -/
def decode_generic_set (decoder : DecSelf) (typ : Ty) (json_value : PyVal) :
    Except Err (Option PyVal) :=
  match typ with
  | .Set item_type => do
    let _ ← check_type decoder.stack .list json_value
    match json_value with
    | .list xs => do
      let ys ← xs.mapM fun item => decoder.decode item_type item
      pure (some (pySetOf decoder.stack ys))
    | v => throw (.typeMismatch [.list] (rtypeTy v))
  | _ => pure Option.none

/-- The alternative loop of `decode_union`: each `JsonError` is swallowed
and the next alternative tried; any other exception escapes. -/
def decode_union_alts (decoder : DecSelf) (typ : Ty) (json_value : PyVal) :
    List Ty → Except Err (Option PyVal)
  | [] => throw (.unionNoMatch typ)
  | union_type :: rest =>
    match decoder.decode union_type json_value with
    | .ok v => pure (some v)
    | .error e =>
      if e.isJsonError then decode_union_alts decoder typ json_value rest
      else throw e

/-- Rule `decode_union` (lines 274-283). -/
def decode_union (decoder : DecSelf) (typ : Ty) (json_value : PyVal) :
    Except Err (Option PyVal) :=
  match typ with
  | .Union union_types => decode_union_alts decoder typ json_value union_types
  | _ => pure Option.none

/-- Rule `decode_dataclass` (lines 156-163): each declared field is looked
up with `dict.get` (absent keys become `None`) and decoded against its
declared type; the constructed instance carries the declared field types. -/
def decode_dataclass (decoder : DecSelf) (typ : Ty) (json_value : PyVal) :
    Except Err (Option PyVal) :=
  match typ with
  | .dataclass cls fields => do
    let _ ← check_type decoder.stack .dict json_value
    match json_value with
    | .dict kvs => do
      let ctor_params ← fields.mapM fun fld => do
        let w ← decoder.decode fld.2 (dictGet kvs (decoder.to_json_case fld.1))
        pure (fld.1, fld.2, w)
      pure (some (.record cls ctor_params))
    | v => throw (.typeMismatch [.dict] (rtypeTy v))
  | _ => pure Option.none

/-- Rule `decode_tagged_union` (lines 294-307) together with
`union.create_member`: a single-key object is demanded; the key is matched
against the case-converted case names with `next(..., None)`, so a key
matching no case makes the subsequent `union.members(typ)[None]` subscript
raise `KeyError`; a payload is decoded against the declared case type and
the `UnionMemberCreator` call asserts `isinstance` on it. -/
def decode_tagged_union (decoder : DecSelf) (typ : Ty) (json_value : PyVal) :
    Except Err (Option PyVal) :=
  match typ with
  | .taggedUnion cls cases => do
    let _ ← check_type decoder.stack .dict json_value
    match json_value with
    | .dict kvs =>
      match kvs with
      | [kv] =>
        match cases.find? fun m => decoder.to_json_case m.1 == kv.1 with
        | Option.none => throw (.keyError Option.none)
        | Option.some m =>
          match m.2 with
          | Option.none => pure (some (.ucase cls m.1 Option.none .none))
          | Option.some member_type => do
            let w ← decoder.decode member_type kv.2
            match pyIsinstance w member_type with
            | .error e => throw e
            | .ok true => pure (some (.ucase cls m.1 (some member_type) w))
            | .ok false => throw .assertionError
      | _ => throw (.taggedNotSingle typ)
    | v => throw (.typeMismatch [.dict] (rtypeTy v))
  | _ => pure Option.none

/-- Rule `decode_any` (lines 316-319): re-dispatch on the interchange
value's own runtime class. -/
def decode_any (decoder : DecSelf) (typ : Ty) (json_value : PyVal) :
    Except Err (Option PyVal) :=
  match typ with
  | .Any => do
    let v ← decoder.decode (rtypeTy json_value) json_value
    pure (some v)
  | _ => pure Option.none

/-- Rule `encode_primitive` (lines 40-44). -/
def encode_primitive (encoder : EncSelf) (typ : Ty) (value : PyVal) :
    Except Err (Option PyVal) :=
  match typ with
  | .int | .float | .str | .bool | .NoneType => do
    let _ ← check_type encoder.stack typ value
    pure (some value)
  | _ => pure Option.none

/-- Rule `encode_char` (lines 54-58): `str(value)` demotes the `char`
instance to a plain string. -/
def encode_char (encoder : EncSelf) (typ : Ty) (value : PyVal) :
    Except Err (Option PyVal) :=
  match typ with
  | .char => do
    let _ ← check_type encoder.stack .char value
    match value with
    | .char s => pure (some (.str s))
    | v => throw (.typeMismatch [.char] (rtypeTy v))
  | _ => pure Option.none

/-- Rule `encode_decimal` (lines 77-81): the wire value is `float(value)`. -/
def encode_decimal (encoder : EncSelf) (typ : Ty) (value : PyVal) :
    Except Err (Option PyVal) :=
  match typ with
  | .Decimal => do
    let _ ← check_type encoder.stack .Decimal value
    pure (some (pyFloat value))
  | _ => pure Option.none

/-- Rule `encode_date` (lines 84-88). -/
def encode_date (encoder : EncSelf) (typ : Ty) (value : PyVal) :
    Except Err (Option PyVal) :=
  match typ with
  | .date => do
    let _ ← check_type encoder.stack .date value
    match value with
    | .date y m d => pure (some (.str (dateIso y m d)))
    | v => throw (.typeMismatch [.date] (rtypeTy v))
  | _ => pure Option.none

/-- Rule `encode_datetime` (lines 99-103): bare `isoformat()`, which only
carries an offset for aware values. -/
def encode_datetime (encoder : EncSelf) (typ : Ty) (value : PyVal) :
    Except Err (Option PyVal) :=
  match typ with
  | .datetime => do
    let _ ← check_type encoder.stack .datetime value
    match value with
    | .datetime y mo d h mi s us tz =>
        pure (some (.str (datetimeIso y mo d h mi s us tz)))
    | v => throw (.typeMismatch [.datetime] (rtypeTy v))
  | _ => pure Option.none

/-- Rule `encode_time` (lines 119-123): bare `isoformat()`, which appends
the fractional part when the microsecond field is nonzero. -/
def encode_time (encoder : EncSelf) (typ : Ty) (value : PyVal) :
    Except Err (Option PyVal) :=
  match typ with
  | .time => do
    let _ ← check_type encoder.stack .time value
    match value with
    | .time h mi s us tz => pure (some (.str (timeIso h mi s us tz)))
    | v => throw (.typeMismatch [.time] (rtypeTy v))
  | _ => pure Option.none

/-- Rule `encode_uuid` (lines 134-138). -/
def encode_uuid (encoder : EncSelf) (typ : Ty) (value : PyVal) :
    Except Err (Option PyVal) :=
  match typ with
  | .UUID => do
    let _ ← check_type encoder.stack .UUID value
    match value with
    | .uuid h => pure (some (.str ⟨uuidDashes h.data⟩))
    | v => throw (.typeMismatch [.UUID] (rtypeTy v))
  | _ => pure Option.none

/-- Rule `encode_generic_list` (lines 190-195). -/
def encode_generic_list (encoder : EncSelf) (typ : Ty) (value : PyVal) :
    Except Err (Option PyVal) :=
  match typ with
  | .List item_type => do
    let _ ← check_type encoder.stack .list value
    match value with
    | .list xs => do
      let ys ← xs.mapM fun item => encoder.encode item (some item_type)
      pure (some (.list ys))
    | v => throw (.typeMismatch [.list] (rtypeTy v))
  | _ => pure Option.none

/-- Rule `encode_generic_dict` (lines 206-213). -/
def encode_generic_dict (encoder : EncSelf) (typ : Ty) (value : PyVal) :
    Except Err (Option PyVal) :=
  match typ with
  | .Dict key_type value_type => do
    let _ ← check_type encoder.stack .dict value
    match key_type with
    | .str =>
      match value with
      | .dict kvs => do
        let ys ← kvs.mapM fun kv => do
          let w ← encoder.encode kv.2 (some value_type)
          pure (kv.1, w)
        pure (some (.dict ys))
      | v => throw (.typeMismatch [.dict] (rtypeTy v))
    | _ => throw (.dictKeyNotStr key_type)
  | _ => pure Option.none

/-- Rule `encode_generic_tuple` (lines 226-233): the produced wire value is
a Python `tuple` (not a `list`). -/
def encode_generic_tuple (encoder : EncSelf) (typ : Ty) (value : PyVal) :
    Except Err (Option PyVal) :=
  match typ with
  | .Tuple items_types => do
    let _ ← check_type encoder.stack .tuple value
    match value with
    | .tuple xs =>
      if items_types.length != xs.length then
        throw (.tupleArity items_types.length xs.length)
      else do
        let ys ← (items_types.zip xs).mapM fun p => encoder.encode p.2 (some p.1)
        pure (some (.tuple ys))
    | v => throw (.typeMismatch [.tuple] (rtypeTy v))
  | _ => pure Option.none

/-- Rule `encode_generic_set` (lines 246-251): the wire value is a list. -/
def encode_generic_set (encoder : EncSelf) (typ : Ty) (value : PyVal) :
    Except Err (Option PyVal) :=
  match typ with
  | .Set item_type => do
    let _ ← check_type encoder.stack .set value
    match value with
    | .set xs => do
      let ys ← xs.mapM fun item => encoder.encode item (some item_type)
      pure (some (.list ys))
    | v => throw (.typeMismatch [.set] (rtypeTy v))
  | _ => pure Option.none

/-- The alternative loop of `encode_union` (mirror of the decode side). -/
def encode_union_alts (encoder : EncSelf) (typ : Ty) (value : PyVal) :
    List Ty → Except Err (Option PyVal)
  | [] => throw (.unionNoMatch typ)
  | union_type :: rest =>
    match encoder.encode value (some union_type) with
    | .ok v => pure (some v)
    | .error e =>
      if e.isJsonError then encode_union_alts encoder typ value rest
      else throw e

/-- Rule `encode_union` (lines 262-271). -/
def encode_union (encoder : EncSelf) (typ : Ty) (value : PyVal) :
    Except Err (Option PyVal) :=
  match typ with
  | .Union union_types => encode_union_alts encoder typ value union_types
  | _ => pure Option.none

/-- Rule `encode_dataclass` (lines 148-153): the declared fields drive the
iteration; each field's value is fetched from `value.__dict__` (a missing
attribute raises `KeyError`) and encoded against the declared field type
under the case-converted key. -/
def encode_dataclass (encoder : EncSelf) (typ : Ty) (value : PyVal) :
    Except Err (Option PyVal) :=
  match typ with
  | .dataclass cls fields => do
    let _ ← check_type encoder.stack (.dataclass cls fields) value
    match value with
    | .record _ vfs => do
      let ys ← fields.mapM fun fld => do
        let x ←
          match vfs.find? fun e => e.1 == fld.1 with
          | Option.some e => pure e.2.2
          | Option.none => throw (.keyError (some fld.1))
        let w ← encoder.encode x (some fld.2)
        pure (encoder.to_json_case fld.1, w)
      pure (some (.dict ys))
    | v => throw (.typeMismatch [.dataclass cls fields] (rtypeTy v))
  | _ => pure Option.none

/-- Rule `encode_tagged_union` (lines 286-291): no `check_type` — the
member name and declared member type are read off the value itself
(`union.member_name` / `union.member_type` raise `ValueError` when the
value is not a `UnionMember`), and the payload is encoded against the
stored member type, which is `None` for payload-less cases. -/
def encode_tagged_union (encoder : EncSelf) (typ : Ty) (value : PyVal) :
    Except Err (Option PyVal) :=
  match typ with
  | .taggedUnion _ _ =>
    match value with
    | .ucase _ nm mt pv => do
      let w ← encoder.encode pv mt
      pure (some (.dict [(encoder.to_json_case nm, w)]))
    | _ => throw (.valueError "member_name")
  | _ => pure Option.none

/-- Rule `encode_any` (lines 310-313): re-dispatch on the value's own
runtime class. -/
def encode_any (encoder : EncSelf) (typ : Ty) (value : PyVal) :
    Except Err (Option PyVal) :=
  match typ with
  | .Any => do
    let r ← encoder.encode value (some (rtypeTy value))
    pure (some r)
  | _ => pure Option.none

/-- Rule `encode_list` (lines 322-326): untyped list, each element
re-dispatched on its own runtime class. -/
def encode_list (encoder : EncSelf) (typ : Ty) (value : PyVal) :
    Except Err (Option PyVal) :=
  match typ with
  | .list => do
    let _ ← check_type encoder.stack .list value
    match value with
    | .list xs => do
      let ys ← xs.mapM fun item => encoder.encode item Option.none
      pure (some (.list ys))
    | v => throw (.typeMismatch [.list] (rtypeTy v))
  | _ => pure Option.none

/-- Rule `encode_dict` (lines 329-333). -/
def encode_dict (encoder : EncSelf) (typ : Ty) (value : PyVal) :
    Except Err (Option PyVal) :=
  match typ with
  | .dict => do
    let _ ← check_type encoder.stack .dict value
    match value with
    | .dict kvs => do
      let ys ← kvs.mapM fun kv => do
        let w ← encoder.encode kv.2 Option.none
        pure (kv.1, w)
      pure (some (.dict ys))
    | v => throw (.typeMismatch [.dict] (rtypeTy v))
  | _ => pure Option.none

/-- Rule `encode_tuple` (lines 336-340): an untyped tuple encodes to a
list. -/
def encode_tuple (encoder : EncSelf) (typ : Ty) (value : PyVal) :
    Except Err (Option PyVal) :=
  match typ with
  | .tuple => do
    let _ ← check_type encoder.stack .tuple value
    match value with
    | .tuple xs => do
      let ys ← xs.mapM fun item => encoder.encode item Option.none
      pure (some (.list ys))
    | v => throw (.typeMismatch [.tuple] (rtypeTy v))
  | _ => pure Option.none

/-- Rule `encode_set` (lines 343-347): an untyped set encodes to a list. -/
def encode_set (encoder : EncSelf) (typ : Ty) (value : PyVal) :
    Except Err (Option PyVal) :=
  match typ with
  | .set => do
    let _ ← check_type encoder.stack .set value
    match value with
    | .set xs => do
      let ys ← xs.mapM fun item => encoder.encode item Option.none
      pure (some (.list ys))
    | v => throw (.typeMismatch [.set] (rtypeTy v))
  | _ => pure Option.none

/-! ### The dispatch loop and the engines -/

/-- The loop of `Decoder.decode` / `Encoder.encode` (lines 363-368 and
381-387) over already-applied rules: first rule not signalling
`Unsupported` wins, a raised error propagates immediately, and an
exhausted chain raises the `Unsupported type` `JsonError`. -/
def runRules (rules : List (Ty → PyVal → Except Err (Option PyVal)))
    (typ : Ty) (value : PyVal) : Except Err PyVal :=
  match rules with
  | [] => .error (.unsupportedType typ)
  | r :: rest =>
    match r typ value with
    | .error e => .error e
    | .ok (Option.some x) => .ok x
    | .ok Option.none => runRules rest typ value

/-- `Decoder.to_json_case` / `Encoder.to_json_case`: identity when no case
converter is configured. -/
def to_json_case_of (conv : Option (String → String)) (name : String) : String :=
  match conv with
  | Option.none => name
  | Option.some f => f name

/-- The recursive decode engine: `Decoder(decoders, case).decode` at a
given stack allowance.  Each nested `decoder.decode` call runs one level
deeper; an exhausted allowance models Python's `RecursionError`. -/
def decoderF (decoders : List DecodeFunc) (conv : Option (String → String)) :
    Nat → Ty → PyVal → Except Err PyVal
  | 0, _, _ => .error .recursionLimit
  | f+1, typ, json_value =>
    runRules
      (decoders.map fun d => d ⟨f, decoderF decoders conv f, to_json_case_of conv⟩)
      typ json_value

/-- The recursive encode engine: `Encoder(encoders, case).encode`; a
missing declared type is replaced by the value's runtime class (line 382). -/
def encoderF (encoders : List EncodeFunc) (conv : Option (String → String)) :
    Nat → PyVal → Option Ty → Except Err PyVal
  | 0, _, _ => .error .recursionLimit
  | f+1, value, otyp =>
    let typ := match otyp with
      | Option.some t => t
      | Option.none => rtypeTy value
    runRules
      (encoders.map fun e => fun t v =>
        e ⟨f, encoderF encoders conv f, to_json_case_of conv⟩ t v)
      typ value

/-- The built-in decoder chain `json_decoders` (lines 430-447), in source
order; `decode_enum` is outside the modelled universe (see the header). -/
def json_decoders : List DecodeFunc :=
  [decode_primitive, decode_char, decode_float, decode_date,
   decode_datetime, decode_time, decode_uuid, decode_generic_list,
   decode_generic_dict, decode_generic_tuple, decode_generic_set,
   decode_union, decode_dataclass, decode_tagged_union, decode_any]

/-- The built-in encoder chain `json_encoders` (lines 407-428), in source
order; `encode_enum` is outside the modelled universe. -/
def json_encoders : List EncodeFunc :=
  [encode_primitive, encode_char, encode_decimal, encode_date,
   encode_datetime, encode_time, encode_uuid, encode_generic_list,
   encode_generic_dict, encode_generic_tuple, encode_generic_set,
   encode_union, encode_dataclass, encode_tagged_union, encode_any,
   encode_list, encode_dict, encode_tuple, encode_set]

/-- Top-level `decode` (lines 390-396).  The `except` clause tests
`error is JsonError` — identity of an instance against the class object,
which is never true — so every failure, `JsonError` or foreign, is
rewrapped in `JsonError(f'Error during decoding: ...')`. -/
def decode (stack : Nat) (typ : Ty) (json_value : PyVal)
    (case : Option (String → String)) (decoders : List DecodeFunc) :
    Except Err PyVal :=
  match decoderF decoders case stack typ json_value with
  | .ok v => .ok v
  | .error e => .error (.wrapDecoding e)

/-- Top-level `encode` (lines 399-405), wrapping like `decode`. -/
def encode (stack : Nat) (value : PyVal) (typ : Option Ty)
    (case : Option (String → String)) (encoders : List EncodeFunc) :
    Except Err PyVal :=
  match encoderF encoders case stack value typ with
  | .ok v => .ok v
  | .error e => .error (.wrapEncoding e)

/-- `typ/json.py`'s own module-level `json_decoders` (lines 27-42), which
shadows the `typ/encoding.py` list of the same name: it omits
`decode_enum` and `decode_tagged_union`. -/
def json_py_decoders : List DecodeFunc :=
  [decode_primitive, decode_char, decode_float, decode_date,
   decode_datetime, decode_time, decode_uuid, decode_generic_list,
   decode_generic_dict, decode_generic_tuple, decode_generic_set,
   decode_union, decode_dataclass, decode_any]

/-- `typ/json.py`'s own module-level `json_encoders` (lines 6-25),
shadowing the `typ/encoding.py` list: it omits `encode_enum` and
`encode_tagged_union` but keeps the raw-container rules. -/
def json_py_encoders : List EncodeFunc :=
  [encode_primitive, encode_char, encode_decimal, encode_date,
   encode_datetime, encode_time, encode_uuid, encode_generic_list,
   encode_generic_dict, encode_generic_tuple, encode_generic_set,
   encode_union, encode_dataclass, encode_any,
   encode_list, encode_dict, encode_tuple, encode_set]

/-- `typ/json.py` `loads` from the parsed interchange tree on (the
text-to-tree step `json.loads(..., parse_float=Decimal)` is the delegated
external parser): the caller-supplied decoders are concatenated in front
of that module's own built-in chain. -/
def loads (stack : Nat) (typ : Ty) (json_value : PyVal)
    (decoders : List DecodeFunc) : Except Err PyVal :=
  decode stack typ json_value Option.none (decoders ++ json_py_decoders)

/-- `typ/json.py` `dumps` up to the tree-to-text step: caller-supplied
encoders are concatenated in front of that module's own built-in chain. -/
def dumps (stack : Nat) (value : PyVal) (typ : Option Ty)
    (encoders : List EncodeFunc) : Except Err PyVal :=
  encode stack value typ Option.none (encoders ++ json_py_encoders)

/-! ### The custom integer rules of the extension test

`src/tests/test_json.py` (lines 233-249) installs an encoder mapping `int`
to its decimal string and a matching decoder; they are carried over for
the extension-override claim. -/

/-- Python `str(n)` on an integer. -/
def intStr (n : Int) : String :=
  if n < 0 then ⟨'-' :: natChars n.natAbs⟩ else ⟨natChars n.natAbs⟩

/-- Python `int(s)` on a string: an optional sign followed by digits (the
whitespace and underscore allowances are never exercised here). -/
def pyIntOfStr (s : String) : Option Int :=
  match s.data with
  | '-' :: ds =>
    if ds ≠ [] ∧ ds.all Char.isDigit then some (-(readNatChars ds : Int))
    else Option.none
  | '+' :: ds =>
    if ds ≠ [] ∧ ds.all Char.isDigit then some ((readNatChars ds : Int))
    else Option.none
  | ds =>
    if ds ≠ [] ∧ ds.all Char.isDigit then some ((readNatChars ds : Int))
    else Option.none

/-- `encode_int_custom` from the test suite. -/
def encode_int_custom (encoder : EncSelf) (typ : Ty) (value : PyVal) :
    Except Err (Option PyVal) :=
  match typ with
  | .int => do
    let _ ← check_type encoder.stack .int value
    match value with
    | .int n => pure (some (.str (intStr n)))
    | v => throw (.typeMismatch [.int] (rtypeTy v))
  | _ => pure Option.none

/-- `decode_int_custom` from the test suite; an unparsable string would let
the `int(...)` `ValueError` escape. -/
def decode_int_custom (decoder : DecSelf) (typ : Ty) (json_value : PyVal) :
    Except Err (Option PyVal) :=
  match typ with
  | .int => do
    let _ ← check_type decoder.stack .str json_value
    match json_value with
    | .str s =>
      match pyIntOfStr s with
      | Option.some n => pure (some (.int n))
      | Option.none => throw (.valueError "int")
    | v => throw (.typeMismatch [.str] (rtypeTy v))
  | _ => pure Option.none

/-! ### Wire-format shape checkers

These formalize the spec's wording for the temporal wire formats
(section 6: date as `YYYY-MM-DD`, time as `HH:MM:SS`, date-time as
ISO-8601 with an explicit UTC offset), independently of the encoder. -/

/-- The spec's `"YYYY-MM-DD"` shape. -/
def specDateShapeB (cs : List Char) : Bool :=
  match cs with
  | [y1, y2, y3, y4, a, m1, m2, b, d1, d2] =>
    y1.isDigit && y2.isDigit && y3.isDigit && y4.isDigit && a == '-' &&
      m1.isDigit && m2.isDigit && b == '-' && d1.isDigit && d2.isDigit
  | _ => false

/-- The spec's `"HH:MM:SS"` shape. -/
def specHmsShapeB (cs : List Char) : Bool :=
  match cs with
  | [h1, h2, a, m1, m2, b, s1, s2] =>
    h1.isDigit && h2.isDigit && a == ':' && m1.isDigit && m2.isDigit &&
      b == ':' && s1.isDigit && s2.isDigit
  | _ => false

/-- The spec's "explicit UTC offset": the string ends in a signed
`HH:MM` field. -/
def specOffsetSuffixB (cs : List Char) : Bool :=
  match cs.reverse with
  | m2 :: m1 :: c :: h2 :: h1 :: sg :: _ =>
    (sg == '+' || sg == '-') && h1.isDigit && h2.isDigit && c == ':' &&
      m1.isDigit && m2.isDigit
  | _ => false

/-! ### Well-formedness, the wire relation and the round-trip universe -/

/-- Payload descriptors a tagged-union case can safely declare: decoding
reconstructs the case with `UnionMemberCreator.__call__`, whose
`assert isinstance(arg, member_type)` raises `TypeError` on subscripted
generics and fails for `char` (the decoded payload is a plain `str`). -/
def SimplePayload : Ty → Bool
  | .int | .float | .str | .bool | .NoneType | .date | .datetime | .time
  | .UUID | .dataclass _ _ | .taggedUnion _ _ => true
  | _ => false

/-- Types that may sit inside an `Optional`: their decoder rejects `null`
and their encoder rejects `None`, in both cases with a `JsonError` that
`decode_union`/`encode_union` can swallow.  Tagged unions are excluded:
`encode_tagged_union` raises a foreign `ValueError` on `None`, which
aborts the whole union instead of falling through to the `NoneType`
alternative. -/
def optInner : Ty → Bool
  | .int | .float | .str | .bool | .char | .date | .datetime | .time
  | .UUID | .List _ | .Dict _ _ | .Set _ | .dataclass _ _ => true
  | _ => false

/-- Types whose decoder rejects `null`.  Every supported declared type
rejects `null` except `NoneType` and `Any` (both decode it successfully)
and unions (whose outcome depends on the alternatives): `check_type`
fails for the class-checked rules, `Unsupported type` — itself a
`JsonError` — is raised for the raw container classes that no decoder
rule claims, and `decode_tagged_union`'s leading `check_type(dict, ...)`
fires before its single-key inspection. -/
def nullRejecting : Ty → Bool
  | .NoneType | .Any | .Union _ => false
  | _ => true

/-- Element types whose decoded values Python can hold in a `set`:
`decode_generic_set` calls `set(...)`, which raises `TypeError` on
unhashable elements (`list`, `dict`, `set`, and `@dataclass` instances,
whose default `eq=True` sets `__hash__` to `None`), so only scalar
element types survive a round trip through a `Set[...]` field. -/
def ScalarTy : Ty → Bool
  | .int | .float | .str | .bool | .NoneType | .char | .date | .datetime
  | .time | .UUID => true
  | _ => false

/-- Values of scalar runtime class (hashable, no containers). -/
def isScalarVal : PyVal → Bool
  | .none | .bool _ | .int _ | .float _ | .dec _ | .str _ | .char _
  | .date _ _ _ | .datetime _ _ _ _ _ _ _ _ | .time _ _ _ _ _
  | .uuid _ | .floatNan => true
  | _ => false


/-! Python `==` as a relation.  `pyEq` is a sound underapproximation of
`==` (dictionaries and dataclass instances are compared fieldwise in
order, which is all the codec's outputs require); sets compare by mutual
membership through the mutually defined `pyEqMem`/`pyEqIncl`. -/

mutual

/-- Python `==` on two values (relational form). -/
inductive pyEq : PyVal → PyVal → Prop where
  | num : ∀ a b q, numOfPy a = some q → numOfPy b = some q → pyEq a b
  | strv : ∀ a b s, strOfPy a = some s → strOfPy b = some s → pyEq a b
  | noneEq : pyEq .none .none
  | dateEq : ∀ y m d, pyEq (.date y m d) (.date y m d)
  | dtNaive : ∀ y mo d h mi s us,
      pyEq (.datetime y mo d h mi s us Option.none)
        (.datetime y mo d h mi s us Option.none)
  | dtAware : ∀ y1 mo1 d1 h1 mi1 s1 u1 o1 y2 mo2 d2 h2 mi2 s2 u2 o2,
      dtInstant y1 mo1 d1 h1 mi1 s1 u1 o1 = dtInstant y2 mo2 d2 h2 mi2 s2 u2 o2 →
      pyEq (.datetime y1 mo1 d1 h1 mi1 s1 u1 (some o1))
        (.datetime y2 mo2 d2 h2 mi2 s2 u2 (some o2))
  | timeEq : ∀ h mi s us tz, pyEq (.time h mi s us tz) (.time h mi s us tz)
  | uuidEq : ∀ h, pyEq (.uuid h) (.uuid h)
  | listEq : ∀ xs ys, xs.length = ys.length →
      (∀ p ∈ xs.zip ys, pyEq p.1 p.2) → pyEq (.list xs) (.list ys)
  | tupleEq : ∀ xs ys, xs.length = ys.length →
      (∀ p ∈ xs.zip ys, pyEq p.1 p.2) → pyEq (.tuple xs) (.tuple ys)
  | setEq : ∀ xs ys, pyEqIncl xs ys → pyEqIncl ys xs → pyEq (.set xs) (.set ys)
  | dictEq : ∀ xs ys, xs.length = ys.length →
      (∀ p ∈ xs.zip ys, p.1.1 = p.2.1) →
      (∀ p ∈ xs.zip ys, pyEq p.1.2 p.2.2) → pyEq (.dict xs) (.dict ys)
  | recordEq : ∀ c fs1 fs2, fs1.length = fs2.length →
      (∀ p ∈ fs1.zip fs2, p.1.1 = p.2.1) →
      (∀ p ∈ fs1.zip fs2, pyEq p.1.2.2 p.2.2.2) →
      pyEq (.record c fs1) (.record c fs2)
  | ucaseEq : ∀ c n mt1 mt2 v1 v2, pyEq v1 v2 →
      pyEq (.ucase c n mt1 v1) (.ucase c n mt2 v2)

/-- Some element of the list is `==` to `x`. -/
inductive pyEqMem : PyVal → List PyVal → Prop where
  | head : ∀ x y ys, pyEq x y → pyEqMem x (y :: ys)
  | tail : ∀ x y ys, pyEqMem x ys → pyEqMem x (y :: ys)

/-- Every element of the first list has a `==`-partner in the second. -/
inductive pyEqIncl : List PyVal → List PyVal → Prop where
  | nil : ∀ ys, pyEqIncl [] ys
  | cons : ∀ x xs ys, pyEqMem x ys → pyEqIncl xs ys → pyEqIncl (x :: xs) ys

end

/-- The types for which the built-in chains round-trip (the universe of
the amended round-trip claim): every listed category except `Decimal`
(encoded to a `float` its own decoder rejects), `Tuple` (encoded to a
Python `tuple` its own decoder rejects), general unions (first-match
ambiguity can rewrite values), tagged-union cases with `char`, generic or
union payload types (the reconstruction `assert isinstance` fails),
optionals of tagged unions (see `optInner`), and sets of unhashable
element types (see `ScalarTy`). -/
inductive SafeTy : Ty → Prop where
  | int : SafeTy .int
  | float : SafeTy .float
  | str : SafeTy .str
  | bool : SafeTy .bool
  | NoneType : SafeTy .NoneType
  | char : SafeTy .char
  | date : SafeTy .date
  | datetime : SafeTy .datetime
  | time : SafeTy .time
  | UUID : SafeTy .UUID
  | List : ∀ a, SafeTy a → SafeTy (.List a)
  | Dict : ∀ a, SafeTy a → SafeTy (.Dict .str a)
  | Set : ∀ a, SafeTy a → ScalarTy a = true → SafeTy (.Set a)
  | opt : ∀ a, SafeTy a → optInner a = true → SafeTy (.Union [a, .NoneType])
  | dataclass : ∀ cls fields, (∀ p ∈ fields, SafeTy p.2) →
      (fields.map Prod.fst).Nodup → SafeTy (.dataclass cls fields)
  | taggedUnion : ∀ cls cases,
      (∀ p ∈ cases, ∀ u, p.2 = some u → SafeTy u) →
      (∀ p ∈ cases, ∀ u, p.2 = some u → SimplePayload u = true) →
      (cases.map Prod.fst).Nodup → SafeTy (.taggedUnion cls cases)

/-- Well-formed host instances of a type: runtime classes match, floats
are finite (`float("nan")` compares unequal to itself, so it cannot
round-trip up to `==`), temporal fields are in the ranges `date`, `time`
and `timezone` enforce, datetimes are timezone-aware with whole-minute
offsets, times are naive with no microseconds (the decoder's
`"%H:%M:%S"` format could read back neither an offset suffix nor a
fractional tail), UUIDs store
their canonical lowercase digits, set elements are pairwise distinct under
`==` (as in any Python set), a dataclass instance's stored field types
agree with its class, and a tagged-union member carries a declared case. -/
inductive WF : Ty → PyVal → Prop where
  | int : ∀ n, WF .int (.int n)
  | float : ∀ q, WF .float (.float q)
  | str : ∀ s, WF .str (.str s)
  | bool : ∀ b, WF .bool (.bool b)
  | noneV : WF .NoneType .none
  | char : ∀ s, s.length = 1 → WF .char (.char s)
  | date : ∀ y m d, 1 ≤ y → y ≤ 9999 → 1 ≤ m → m ≤ 12 → 1 ≤ d →
      d ≤ daysInMonth y m → WF .date (.date y m d)
  | datetime : ∀ y mo d h mi s us off, 1 ≤ y → y ≤ 9999 → 1 ≤ mo → mo ≤ 12 →
      1 ≤ d → d ≤ daysInMonth y mo → h ≤ 23 → mi ≤ 59 → s ≤ 59 →
      us ≤ 999999 → off.natAbs ≤ 1439 →
      WF .datetime (.datetime y mo d h mi s us (some off))
  | time : ∀ h mi s, h ≤ 23 → mi ≤ 59 → s ≤ 59 →
      WF .time (.time h mi s 0 Option.none)
  | uuid : ∀ h : String, h.length = 32 → h.data.all isHexChar = true →
      (h.data.all fun c => c != '-') = true → h.data.map hexToLower = h.data →
      WF .UUID (.uuid h)
  | list : ∀ a xs, (∀ x ∈ xs, WF a x) → WF (.List a) (.list xs)
  | dict : ∀ a kvs, (∀ kv ∈ kvs, WF a kv.2) → WF (.Dict .str a) (.dict kvs)
  | set : ∀ a xs, (∀ x ∈ xs, WF a x) →
      xs.Pairwise (fun x y => ¬ pyEq x y) → WF (.Set a) (.set xs)
  | optNone : ∀ a, WF (.Union [a, .NoneType]) .none
  | optSome : ∀ a v, WF a v → WF (.Union [a, .NoneType]) v
  | record : ∀ cls fields vfs, (vfs.map fun e => (e.1, e.2.1)) = fields →
      (∀ e ∈ vfs, WF e.2.1 e.2.2) → WF (.dataclass cls fields) (.record cls vfs)
  | ucase : ∀ cls cases nm mt pv, (nm, mt) ∈ cases →
      (mt = Option.none → pv = PyVal.none) → (∀ u, mt = some u → WF u pv) →
      WF (.taggedUnion cls cases) (.ucase cls nm mt pv)

/-- The wire value the built-in encoder chain produces for a well-formed
instance under the identity case conversion (proved below against the
engine). -/
inductive Wire : Ty → PyVal → PyVal → Prop where
  | int : ∀ n, Wire .int (.int n) (.int n)
  | float : ∀ q, Wire .float (.float q) (.float q)
  | str : ∀ s, Wire .str (.str s) (.str s)
  | bool : ∀ b, Wire .bool (.bool b) (.bool b)
  | noneV : Wire .NoneType .none .none
  | char : ∀ s, Wire .char (.char s) (.str s)
  | date : ∀ y m d, Wire .date (.date y m d) (.str (dateIso y m d))
  | datetime : ∀ y mo d h mi s us tz,
      Wire .datetime (.datetime y mo d h mi s us tz)
        (.str (datetimeIso y mo d h mi s us tz))
  | time : ∀ h mi s us tz,
      Wire .time (.time h mi s us tz) (.str (timeIso h mi s us tz))
  | uuid : ∀ h : String, Wire .UUID (.uuid h) (.str ⟨uuidDashes h.data⟩)
  | list : ∀ a xs js, xs.length = js.length →
      (∀ p ∈ xs.zip js, Wire a p.1 p.2) → Wire (.List a) (.list xs) (.list js)
  | dict : ∀ a kvs jkvs, kvs.length = jkvs.length →
      (∀ p ∈ kvs.zip jkvs, p.2.1 = p.1.1) →
      (∀ p ∈ kvs.zip jkvs, Wire a p.1.2 p.2.2) →
      Wire (.Dict .str a) (.dict kvs) (.dict jkvs)
  | set : ∀ a xs js, xs.length = js.length →
      (∀ p ∈ xs.zip js, Wire a p.1 p.2) → Wire (.Set a) (.set xs) (.list js)
  | optNone : ∀ a, Wire (.Union [a, .NoneType]) .none .none
  | optSome : ∀ a v j, v ≠ .none → Wire a v j → Wire (.Union [a, .NoneType]) v j
  | record : ∀ cls fields vfs jkvs, (vfs.map fun e => (e.1, e.2.1)) = fields →
      vfs.length = jkvs.length →
      (∀ p ∈ vfs.zip jkvs, p.2.1 = p.1.1) →
      (∀ p ∈ vfs.zip jkvs, Wire p.1.2.1 p.1.2.2 p.2.2) →
      Wire (.dataclass cls fields) (.record cls vfs) (.dict jkvs)
  | ucaseSome : ∀ cls cases nm u pv j, Wire u pv j →
      Wire (.taggedUnion cls cases) (.ucase cls nm (some u) pv) (.dict [(nm, j)])
  | ucaseNone : ∀ cls cases nm,
      Wire (.taggedUnion cls cases) (.ucase cls nm Option.none .none)
        (.dict [(nm, .none)])

/-! ## Basic list helpers -/

theorem list_eq_of_zip {α : Type} : ∀ (as bs : List α), as.length = bs.length →
    (∀ p ∈ as.zip bs, p.1 = p.2) → as = bs := by
  intro as
  induction as with
  | nil =>
    intro bs h _
    cases bs with
    | nil => rfl
    | cons b bs => simp at h
  | cons a as ih =>
    intro bs h hall
    cases bs with
    | nil => simp at h
    | cons b bs =>
      have h1 : a = b := hall (a, b) (by simp [List.zip_cons_cons])
      have h2 : as = bs := by
        refine ih bs (by simpa using h) ?_
        intro p hp
        exact hall p (by simp [List.zip_cons_cons, hp])
      rw [h1, h2]

theorem mem_zip_same {α : Type} : ∀ (l : List α) (p : α × α), p ∈ l.zip l →
    p.1 = p.2 ∧ p.1 ∈ l := by
  intro l
  induction l with
  | nil =>
    intro p hp
    simp at hp
  | cons a as ih =>
    intro p hp
    simp only [List.zip_cons_cons, List.mem_cons] at hp
    rcases hp with h | h
    · subst h; simp
    · rcases ih p h with ⟨h1, h2⟩
      exact ⟨h1, by simp [h2]⟩

theorem forall_zip_iff_get {α β : Type} {R : α → β → Prop} :
    ∀ (xs : List α) (ys : List β),
      (∀ p ∈ xs.zip ys, R p.1 p.2) ↔
        ∀ (i : Nat) (h1 : i < xs.length) (h2 : i < ys.length),
          R (xs.get ⟨i, h1⟩) (ys.get ⟨i, h2⟩) := by
  intro xs
  induction xs with
  | nil =>
    intro ys
    constructor
    · intro _ i h1 h2
      simp at h1
    · intro _ p hp
      simp at hp
  | cons x xs ih =>
    intro ys
    cases ys with
    | nil =>
      constructor
      · intro _ i h1 h2
        simp at h2
      · intro _ p hp
        simp at hp
    | cons y ys =>
      constructor
      · intro h i h1 h2
        cases i with
        | zero => exact h (x, y) (by simp [List.zip_cons_cons])
        | succ i =>
          exact (ih ys).mp
            (fun p hp => h p (by simp [List.zip_cons_cons]; right; exact hp)) i
            (by simpa using h1) (by simpa using h2)
      · intro h p hp
        simp only [List.zip_cons_cons, List.mem_cons] at hp
        rcases hp with h0 | h0
        · subst h0
          exact h 0 (by simp) (by simp)
        · exact (ih ys).mpr (fun i h1 h2 => h (i+1) (by simpa using h1)
            (by simpa using h2)) p h0

theorem find?_of_nodup_keys {β : Type} :
    ∀ (l : List (String × β)) (e : String × β), (l.map Prod.fst).Nodup →
      e ∈ l → l.find? (fun x => x.1 == e.1) = some e := by
  intro l
  induction l with
  | nil =>
    intro e _ he
    simp at he
  | cons a l ih =>
    intro e hnd he
    rw [List.map_cons, List.nodup_cons] at hnd
    rcases List.mem_cons.mp he with h | h
    · subst h
      simp [List.find?]
    · have hne : (a.1 == e.1) = false := by
        refine beq_eq_false_iff_ne.mpr ?_
        intro hcontra
        exact hnd.1 (hcontra ▸ List.mem_map_of_mem Prod.fst h)
      rw [List.find?]
      rw [hne]
      exact ih e hnd.2 h

/-! ## Structural type equality: soundness and reflexivity -/

set_option maxHeartbeats 1000000 in
theorem tyBeqF_sound : ∀ f a b, tyBeqF f a b = true → a = b := by
  intro f
  induction f with
  | zero =>
    intro a b h
    exact Bool.noConfusion h
  | succ f ih =>
    intro a b h
    cases a <;> cases b <;> first
      | rfl
      | exact Bool.noConfusion h
      | skip
    case List.List a1 a2 =>
      replace h : tyBeqF f a1 a2 = true := h
      rw [ih a1 a2 h]
    case Dict.Dict k1 v1 k2 v2 =>
      replace h : (tyBeqF f k1 k2 && tyBeqF f v1 v2) = true := h
      rw [Bool.and_eq_true] at h
      rw [ih k1 k2 h.1, ih v1 v2 h.2]
    case Set.Set a1 a2 =>
      replace h : tyBeqF f a1 a2 = true := h
      rw [ih a1 a2 h]
    case Tuple.Tuple as1 as2 =>
      replace h : (as1.length == as2.length
          && (as1.zip as2).all fun p => tyBeqF f p.1 p.2) = true := h
      rw [Bool.and_eq_true, List.all_eq_true] at h
      rw [list_eq_of_zip as1 as2 (by simpa using h.1)
        fun p hp => ih p.1 p.2 (by simpa using h.2 p hp)]
    case Union.Union as1 as2 =>
      replace h : (as1.length == as2.length
          && (as1.zip as2).all fun p => tyBeqF f p.1 p.2) = true := h
      rw [Bool.and_eq_true, List.all_eq_true] at h
      rw [list_eq_of_zip as1 as2 (by simpa using h.1)
        fun p hp => ih p.1 p.2 (by simpa using h.2 p hp)]
    case dataclass.dataclass c1 fs1 c2 fs2 =>
      replace h : (c1 == c2 && (fs1.length == fs2.length &&
          (fs1.zip fs2).all fun p => p.1.1 == p.2.1 && tyBeqF f p.1.2 p.2.2))
          = true := h
      rw [Bool.and_eq_true, Bool.and_eq_true, List.all_eq_true] at h
      have hc : c1 = c2 := by simpa using h.1
      refine hc ▸ congrArg _ ?_
      refine list_eq_of_zip fs1 fs2 (by simpa using h.2.1) fun p hp => ?_
      have h3 := h.2.2 p hp
      rw [Bool.and_eq_true] at h3
      have hname : p.1.1 = p.2.1 := by simpa using h3.1
      have hty : p.1.2 = p.2.2 := ih _ _ h3.2
      calc p.1 = (p.1.1, p.1.2) := rfl
        _ = (p.2.1, p.2.2) := by rw [hname, hty]
        _ = p.2 := rfl
    case taggedUnion.taggedUnion c1 cs1 c2 cs2 =>
      replace h : (c1 == c2 && (cs1.length == cs2.length &&
          (cs1.zip cs2).all fun p => p.1.1 == p.2.1 &&
            match p.1.2, p.2.2 with
            | Option.none, Option.none => true
            | Option.some x, Option.some y => tyBeqF f x y
            | _, _ => false)) = true := h
      rw [Bool.and_eq_true, Bool.and_eq_true, List.all_eq_true] at h
      have hc : c1 = c2 := by simpa using h.1
      refine hc ▸ congrArg _ ?_
      refine list_eq_of_zip cs1 cs2 (by simpa using h.2.1) fun p hp => ?_
      have h3 := h.2.2 p hp
      rw [Bool.and_eq_true] at h3
      have hname : p.1.1 = p.2.1 := by simpa using h3.1
      have hty : p.1.2 = p.2.2 := by
        have h32 := h3.2
        revert h32
        rcases p.1.2 with _ | x <;> rcases p.2.2 with _ | y <;> intro h32
        · rfl
        · exact Bool.noConfusion h32
        · exact Bool.noConfusion h32
        · rw [ih x y h32]
      calc p.1 = (p.1.1, p.1.2) := rfl
        _ = (p.2.1, p.2.2) := by rw [hname, hty]
        _ = p.2 := rfl

theorem ty_sizeOf_pos : ∀ a : Ty, 0 < sizeOf a := by
  intro a
  cases a <;> simp

set_option maxHeartbeats 1000000 in
theorem tyBeqF_refl : ∀ f a, sizeOf a ≤ f → tyBeqF f a a = true := by
  intro f
  induction f with
  | zero =>
    intro a ha
    exact absurd (Nat.lt_of_lt_of_le (ty_sizeOf_pos a) ha) (by omega)
  | succ f ih =>
    intro a ha
    cases a <;> try rfl
    case List a1 =>
      show tyBeqF f a1 a1 = true
      exact ih a1 (by simp at ha; omega)
    case Dict k1 v1 =>
      show (tyBeqF f k1 k1 && tyBeqF f v1 v1) = true
      simp at ha
      rw [ih k1 (by omega), ih v1 (by omega)]
      rfl
    case Set a1 =>
      show tyBeqF f a1 a1 = true
      exact ih a1 (by simp at ha; omega)
    case Tuple as1 =>
      show (as1.length == as1.length
        && (as1.zip as1).all fun p => tyBeqF f p.1 p.2) = true
      simp only [beq_self_eq_true, Bool.true_and, List.all_eq_true]
      intro p hp
      rcases mem_zip_same as1 p hp with ⟨hp1, hp2⟩
      have hs : sizeOf p.1 < sizeOf as1 := List.sizeOf_lt_of_mem hp2
      simp at ha
      rw [← hp1]
      exact ih p.1 (by omega)
    case Union as1 =>
      show (as1.length == as1.length
        && (as1.zip as1).all fun p => tyBeqF f p.1 p.2) = true
      simp only [beq_self_eq_true, Bool.true_and, List.all_eq_true]
      intro p hp
      rcases mem_zip_same as1 p hp with ⟨hp1, hp2⟩
      have hs : sizeOf p.1 < sizeOf as1 := List.sizeOf_lt_of_mem hp2
      simp at ha
      rw [← hp1]
      exact ih p.1 (by omega)
    case dataclass c1 fs1 =>
      show (c1 == c1 && (fs1.length == fs1.length &&
        (fs1.zip fs1).all fun p => p.1.1 == p.2.1 && tyBeqF f p.1.2 p.2.2)) = true
      simp only [beq_self_eq_true, Bool.true_and, List.all_eq_true]
      intro p hp
      rcases mem_zip_same fs1 p hp with ⟨hp1, hp2⟩
      obtain ⟨p1, p2⟩ := p
      obtain ⟨n, t⟩ := p1
      simp only at hp1 hp2
      rw [← hp1]
      simp only [beq_self_eq_true, Bool.true_and]
      show tyBeqF f t t = true
      have hs : sizeOf (n, t) < sizeOf fs1 := List.sizeOf_lt_of_mem hp2
      simp at hs ha
      exact ih t (by omega)
    case taggedUnion c1 cs1 =>
      show (c1 == c1 && (cs1.length == cs1.length &&
        (cs1.zip cs1).all fun p => p.1.1 == p.2.1 &&
          match p.1.2, p.2.2 with
          | Option.none, Option.none => true
          | Option.some x, Option.some y => tyBeqF f x y
          | _, _ => false)) = true
      simp only [beq_self_eq_true, Bool.true_and, List.all_eq_true]
      intro p hp
      rcases mem_zip_same cs1 p hp with ⟨hp1, hp2⟩
      obtain ⟨p1, p2⟩ := p
      obtain ⟨n, mt⟩ := p1
      simp only at hp1 hp2
      rw [← hp1]
      simp only [beq_self_eq_true, Bool.true_and]
      have hs : sizeOf (n, mt) < sizeOf cs1 := List.sizeOf_lt_of_mem hp2
      rcases mt with _ | x
      · rfl
      · show tyBeqF f x x = true
        simp at hs ha
        exact ih x (by omega)

theorem tyBeqF_iff (f : Nat) (a b : Ty) (hf : sizeOf a ≤ f) :
    tyBeqF f a b = true ↔ a = b := by
  constructor
  · exact tyBeqF_sound f a b
  · intro h; subst h; exact tyBeqF_refl f a hf

/-- A passing `check_type`: the runtime class matches and the comparison
fuel covers the expected class. -/
theorem check_type_ok (f : Nat) (t : Ty) (v : PyVal) (h : rtypeTy v = t)
    (hf : sizeOf t ≤ f + 1) : check_type f t v = .ok () := by
  unfold check_type
  rw [h]
  simp [tyBeqF_refl (f+1) t hf]

/-- A failing `check_type`: a runtime class mismatch is detected at every
fuel (`tyBeqF` is sound unconditionally). -/
theorem check_type_ne (f : Nat) (t : Ty) (v : PyVal) (h : rtypeTy v ≠ t) :
    check_type f t v = .error (.typeMismatch [t] (rtypeTy v)) := by
  unfold check_type
  cases htb : tyBeqF (f+1) (rtypeTy v) t with
  | true => exact absurd (tyBeqF_sound _ _ _ htb) h
  | false => rfl

/-! ## Decimal rendering and scanning lemmas -/

theorem digitChar_isDigit (n : Nat) (h : n ≤ 9) : (digitChar n).isDigit = true := by
  interval_cases n <;> decide

theorem digitVal_digitChar (n : Nat) (h : n ≤ 9) : digitVal (digitChar n) = n := by
  interval_cases n <;> decide

theorem readNat_append_single (l : List Char) (c : Char) :
    readNatChars (l ++ [c]) = 10 * readNatChars l + digitVal c := by
  unfold readNatChars
  rw [List.foldl_append]
  simp [Nat.mul_comm]

theorem readNat_replicate_zero : ∀ (k : Nat) (ds : List Char),
    readNatChars (List.replicate k '0' ++ ds) = readNatChars ds := by
  intro k
  induction k with
  | zero => intro ds; rfl
  | succ k ih =>
    intro ds
    show readNatChars ('0' :: (List.replicate k '0' ++ ds)) = _
    unfold readNatChars at ih ⊢
    simpa using ih ds

theorem natCharsF_all_digits : ∀ f n, (natCharsF f n).all Char.isDigit = true := by
  intro f
  induction f with
  | zero => intro n; rfl
  | succ f ih =>
    intro n
    unfold natCharsF
    by_cases h : n < 10
    · simp [h, digitChar_isDigit n (by omega)]
    · simp only [h, if_false, List.all_append]
      rw [ih (n / 10)]
      simp [digitChar_isDigit (n % 10) (by omega)]

theorem readNat_natCharsF : ∀ f n, n < 10 ^ f →
    readNatChars (natCharsF f n) = n := by
  intro f
  induction f with
  | zero =>
    intro n h
    simp at h
    simp [h, natCharsF, readNatChars]
  | succ f ih =>
    intro n h
    unfold natCharsF
    by_cases h10 : n < 10
    · simp [h10, readNatChars, digitVal_digitChar n (by omega)]
    · simp only [h10, if_false]
      rw [readNat_append_single, ih (n / 10) ?_, digitVal_digitChar (n % 10) (by omega)]
      · omega
      · rw [Nat.div_lt_iff_lt_mul (by norm_num)]
        calc n < 10 ^ (f + 1) := h
          _ = 10 ^ f * 10 := by ring

theorem natCharsF_length : ∀ f n k, n < 10 ^ k → 1 ≤ k →
    (natCharsF f n).length ≤ k := by
  intro f
  induction f with
  | zero => intro n k _ _; simp [natCharsF]
  | succ f ih =>
    intro n k hn hk
    unfold natCharsF
    by_cases h10 : n < 10
    · simp [h10]; omega
    · simp only [h10, if_false, List.length_append]
      have hk2 : 2 ≤ k := by
        by_contra hlt
        have : k = 1 := by omega
        subst this
        simp at hn
        omega
      have := ih (n / 10) (k - 1) ?_ (by omega)
      · simp only [List.length_cons, List.length_nil]
        omega
      · rw [Nat.div_lt_iff_lt_mul (by norm_num)]
        calc n < 10 ^ k := hn
          _ = 10 ^ (k - 1) * 10 := by
            rw [← Nat.pow_succ]
            congr 1
            omega

theorem natCharsF_ne_nil : ∀ f n, 0 < f → natCharsF f n ≠ [] := by
  intro f n hf
  cases f with
  | zero => omega
  | succ f =>
    unfold natCharsF
    by_cases h10 : n < 10 <;> simp [h10]

theorem natChars_all_digits (n : Nat) : (natChars n).all Char.isDigit = true :=
  natCharsF_all_digits (n+1) n

theorem readNat_natChars (n : Nat) : readNatChars (natChars n) = n := by
  refine readNat_natCharsF (n+1) n ?_
  calc n < 10 ^ n := Nat.lt_pow_self (by norm_num) n
    _ ≤ 10 ^ (n + 1) := Nat.pow_le_pow_right (by norm_num) (by omega)

theorem natChars_length (n k : Nat) (hn : n < 10 ^ k) (hk : 1 ≤ k) :
    (natChars n).length ≤ k :=
  natCharsF_length (n+1) n k hn hk

theorem padNum_all_digits (w n : Nat) : (padNum w n).all Char.isDigit = true := by
  unfold padNum
  rw [List.all_append]
  have h0 : (List.replicate (w - (natChars n).length) '0').all Char.isDigit = true := by
    rw [List.all_eq_true]
    intro c hc
    rw [List.eq_of_mem_replicate hc]
    decide
  rw [h0, natChars_all_digits]
  rfl

theorem padNum_length (w n : Nat) (hn : n < 10 ^ w) (hw : 1 ≤ w) :
    (padNum w n).length = w := by
  unfold padNum
  have := natChars_length n w hn hw
  simp only [List.length_append, List.length_replicate]
  omega

theorem readNat_padNum (w n : Nat) : readNatChars (padNum w n) = n := by
  unfold padNum
  rw [readNat_replicate_zero, readNat_natChars]

theorem list_len2 (l : List Char) (h : l.length = 2) : ∃ a b, l = [a, b] := by
  match l, h with
  | [a, b], _ => exact ⟨a, b, rfl⟩

theorem list_len4 (l : List Char) (h : l.length = 4) :
    ∃ a b c d, l = [a, b, c, d] := by
  match l, h with
  | [a, b, c, d], _ => exact ⟨a, b, c, d, rfl⟩

theorem digits2_exact (l rest : List Char) (hl : l.length = 2)
    (hd : l.all Char.isDigit = true) :
    digits2 (l ++ rest) = some (readNatChars l, rest) := by
  rcases list_len2 l hl with ⟨a, b, rfl⟩
  simp only [List.all_cons, List.all_nil, Bool.and_eq_true] at hd
  show digits2 (a :: b :: rest) = _
  simp [digits2, hd.1, hd.2.1, readNatChars, List.foldl]

theorem digits12_two (l rest : List Char) (hl : l.length = 2)
    (hd : l.all Char.isDigit = true) :
    digits12 (l ++ rest) = some (readNatChars l, rest) := by
  rcases list_len2 l hl with ⟨a, b, rfl⟩
  simp only [List.all_cons, List.all_nil, Bool.and_eq_true] at hd
  show digits12 (a :: b :: rest) = _
  simp [digits12, hd.1, hd.2.1, readNatChars, List.foldl]

theorem digits4_exact (l rest : List Char) (hl : l.length = 4)
    (hd : l.all Char.isDigit = true) :
    digits4 (l ++ rest) = some (readNatChars l, rest) := by
  rcases list_len4 l hl with ⟨a, b, c, d, rfl⟩
  simp only [List.all_cons, List.all_nil, Bool.and_eq_true] at hd
  show digits4 (a :: b :: c :: d :: rest) = _
  simp [digits4, hd.1, hd.2.1, hd.2.2.1, hd.2.2.2.1, readNatChars, List.foldl]

theorem digits4_pad (y : Nat) (rest : List Char) (h : y ≤ 9999) :
    digits4 (padNum 4 y ++ rest) = some (y, rest) := by
  rw [digits4_exact _ rest (padNum_length 4 y (by omega) (by omega))
    (padNum_all_digits 4 y), readNat_padNum]

theorem digits12_pad (m : Nat) (rest : List Char) (h : m ≤ 99) :
    digits12 (padNum 2 m ++ rest) = some (m, rest) := by
  rw [digits12_two _ rest (padNum_length 2 m (by omega) (by omega))
    (padNum_all_digits 2 m), readNat_padNum]

theorem digits2_pad (m : Nat) (rest : List Char) (h : m ≤ 99) :
    digits2 (padNum 2 m ++ rest) = some (m, rest) := by
  rw [digits2_exact _ rest (padNum_length 2 m (by omega) (by omega))
    (padNum_all_digits 2 m), readNat_padNum]

theorem takeDigitsUpTo_exact : ∀ (k : Nat) (l rest : List Char),
    l.length = k → l.all Char.isDigit = true →
    (∀ c, rest.head? = some c → c.isDigit = false) →
    takeDigitsUpTo k (l ++ rest) = (l, rest) := by
  intro k
  induction k with
  | zero =>
    intro l rest hl _ hrest
    rw [List.length_eq_zero.mp hl]
    rfl
  | succ k ih =>
    intro l rest hl hd hrest
    cases l with
    | nil => simp at hl
    | cons c l =>
      simp only [List.all_cons, Bool.and_eq_true] at hd
      show takeDigitsUpTo (k+1) (c :: (l ++ rest)) = _
      unfold takeDigitsUpTo
      rw [hd.1]
      simp only [if_true]
      rw [ih l rest (by simpa using hl) hd.2 hrest]

theorem fracMicro_pad (us : Nat) (rest : List Char) (h : us ≤ 999999)
    (hrest : ∀ c, rest.head? = some c → c.isDigit = false) :
    fracMicro (padNum 6 us ++ rest) = some (us, rest) := by
  unfold fracMicro
  rw [takeDigitsUpTo_exact 6 (padNum 6 us) rest
    (padNum_length 6 us (by omega) (by omega)) (padNum_all_digits 6 us) hrest]
  simp only [List.isEmpty_iff]
  have hne : padNum 6 us ≠ [] := by
    have := padNum_length 6 us (by omega) (by omega)
    intro hcon
    rw [hcon] at this
    simp at this
  simp only [hne, if_false]
  rw [readNat_padNum, padNum_length 6 us (by omega) (by omega)]
  simp

/-! ## Temporal format round-trip lemmas -/

theorem expectChar_cons (c : Char) (l : List Char) :
    expectChar c (c :: l) = some l := by
  simp [expectChar]

theorem daysInMonth_le (y m : Nat) : daysInMonth y m ≤ 31 := by
  unfold daysInMonth
  split <;> try split
  all_goals omega

theorem parseYmd_fmt (y m d : Nat) (rest : List Char) (h2 : y ≤ 9999)
    (h1 : 1 ≤ y) (h3 : 1 ≤ m) (h4 : m ≤ 12) (h5 : 1 ≤ d)
    (h6 : d ≤ daysInMonth y m) :
    parseYmd (fmtYmd y m d ++ rest) = some ((y, m, d), rest) := by
  have hdm : daysInMonth y m ≤ 31 := daysInMonth_le y m
  have hshape : fmtYmd y m d ++ rest
      = padNum 4 y ++ ('-' :: (padNum 2 m ++ ('-' :: (padNum 2 d ++ rest)))) := by
    simp [fmtYmd]
  rw [hshape]
  unfold parseYmd
  rw [digits4_pad y _ h2]
  simp only [Option.bind_eq_bind, Option.some_bind]
  rw [expectChar_cons]
  simp only [Option.some_bind]
  rw [digits12_pad m _ (by omega)]
  simp only [Option.some_bind]
  rw [expectChar_cons]
  simp only [Option.some_bind]
  rw [digits12_pad d _ (by omega)]
  simp only [Option.some_bind]
  simp [h1, h3, h4, h5, h6]

theorem parseHms_fmt (h mi s : Nat) (rest : List Char) (hh : h ≤ 23)
    (hmi : mi ≤ 59) (hs : s ≤ 59) :
    parseHms (fmtHms h mi s ++ rest) = some ((h, mi, s), rest) := by
  have hshape : fmtHms h mi s ++ rest
      = padNum 2 h ++ (':' :: (padNum 2 mi ++ (':' :: (padNum 2 s ++ rest)))) := by
    simp [fmtHms]
  rw [hshape]
  unfold parseHms
  rw [digits12_pad h _ (by omega)]
  simp only [Option.bind_eq_bind, Option.some_bind]
  rw [expectChar_cons]
  simp only [Option.some_bind]
  rw [digits12_pad mi _ (by omega)]
  simp only [Option.some_bind]
  rw [expectChar_cons]
  simp only [Option.some_bind]
  rw [digits12_pad s _ (by omega)]
  simp only [Option.some_bind]
  simp [hh, hmi, hs]

theorem dropColon_cons (l : List Char) : dropColon (':' :: l) = l := rfl

theorem parseOffset_sign (c : Char) (l : List Char) (hc : c = '+' ∨ c = '-') :
    parseOffset (c :: l) = (do
      let (hh, r) ← digits2 l
      let (mm, r) ← digits2 (dropColon r)
      if mm ≤ 59 ∧ hh * 60 + mm < 1440 then
        some ((if c == '-' then -((hh * 60 + mm : Nat) : Int)
          else ((hh * 60 + mm : Nat) : Int)), r)
      else Option.none) := by
  rcases hc with h | h <;> subst h <;> rfl

theorem parseOffset_fmt (off : Int) (rest : List Char)
    (hoff : off.natAbs ≤ 1439) :
    parseOffset (fmtOffset (some off) ++ rest) = some (off, rest) := by
  have hdiv : off.natAbs / 60 ≤ 23 := by omega
  have hmod : off.natAbs % 60 ≤ 59 := by omega
  by_cases hneg : off < 0
  · have hshape : fmtOffset (some off) ++ rest
        = '-' :: (padNum 2 (off.natAbs / 60)
          ++ (':' :: (padNum 2 (off.natAbs % 60) ++ rest))) := by
      simp [fmtOffset, hneg]
    rw [hshape, parseOffset_sign '-' _ (Or.inr rfl)]
    rw [digits2_pad _ _ (by omega)]
    simp only [Option.bind_eq_bind, Option.some_bind]
    rw [dropColon_cons, digits2_pad _ _ (by omega)]
    simp only [Option.some_bind]
    have hlt : off.natAbs / 60 * 60 + off.natAbs % 60 < 1440 := by omega
    have habs : off.natAbs / 60 * 60 + off.natAbs % 60 = off.natAbs := by omega
    rw [if_pos ⟨hmod, hlt⟩]
    simp only [habs]
    have hcast : -((off.natAbs : Int)) = off := by omega
    simp [hcast, abs_of_neg hneg]
  · have hshape : fmtOffset (some off) ++ rest
        = '+' :: (padNum 2 (off.natAbs / 60)
          ++ (':' :: (padNum 2 (off.natAbs % 60) ++ rest))) := by
      simp [fmtOffset, hneg]
    rw [hshape, parseOffset_sign '+' _ (Or.inl rfl)]
    rw [digits2_pad _ _ (by omega)]
    simp only [Option.bind_eq_bind, Option.some_bind]
    rw [dropColon_cons, digits2_pad _ _ (by omega)]
    simp only [Option.some_bind]
    have hlt : off.natAbs / 60 * 60 + off.natAbs % 60 < 1440 := by omega
    have habs : off.natAbs / 60 * 60 + off.natAbs % 60 = off.natAbs := by omega
    rw [if_pos ⟨hmod, hlt⟩]
    simp only [habs]
    have hcast : ((off.natAbs : Int)) = off := by omega
    simp [hcast, abs_of_nonneg (not_lt.mp hneg)]

theorem parseDateStr_fmt (y m d : Nat) (h2 : y ≤ 9999) (h1 : 1 ≤ y)
    (h3 : 1 ≤ m) (h4 : m ≤ 12) (h5 : 1 ≤ d) (h6 : d ≤ daysInMonth y m) :
    parseDateStr (dateIso y m d).data = some (y, m, d) := by
  have hp := parseYmd_fmt y m d [] h2 h1 h3 h4 h5 h6
  rw [List.append_nil] at hp
  show parseDateStr (fmtYmd y m d) = _
  unfold parseDateStr
  rw [hp]
  rfl

theorem parseTimeStr_fmt (h mi s : Nat) (hh : h ≤ 23) (hmi : mi ≤ 59)
    (hs : s ≤ 59) :
    parseTimeStr (timeIso h mi s 0 Option.none).data = some (h, mi, s) := by
  have hp := parseHms_fmt h mi s [] hh hmi hs
  rw [List.append_nil] at hp
  show parseTimeStr (fmtHms h mi s ++ fmtFrac 0 ++ fmtOffset Option.none) = _
  have h1 : fmtFrac 0 = [] := rfl
  have h2 : fmtOffset Option.none = [] := rfl
  rw [h1, h2, List.append_nil, List.append_nil]
  unfold parseTimeStr
  rw [hp]
  rfl

theorem parseOffset_dot (l : List Char) : parseOffset ('.' :: l) = Option.none := rfl

theorem datetimeIso_data (y mo d h mi s us : Nat) (tz : Option Int) :
    (datetimeIso y mo d h mi s us tz).data
      = fmtYmd y mo d ++ 'T' :: (fmtHms h mi s ++ fmtFrac us ++ fmtOffset tz) := rfl

theorem parseDatetimeNoFrac_fmt (y mo d h mi s : Nat) (off : Int)
    (h2 : y ≤ 9999) (h1 : 1 ≤ y) (h3 : 1 ≤ mo) (h4 : mo ≤ 12) (h5 : 1 ≤ d)
    (h6 : d ≤ daysInMonth y mo) (hh : h ≤ 23) (hmi : mi ≤ 59) (hs : s ≤ 59)
    (hoff : off.natAbs ≤ 1439) :
    parseDatetimeNoFrac (datetimeIso y mo d h mi s 0 (some off)).data
      = some ((y, mo, d), (h, mi, s), off) := by
  rw [datetimeIso_data]
  have hfrac : fmtFrac 0 = [] := rfl
  rw [hfrac, List.append_nil]
  unfold parseDatetimeNoFrac
  rw [parseYmd_fmt y mo d _ h2 h1 h3 h4 h5 h6]
  simp only [Option.bind_eq_bind, Option.some_bind]
  rw [expectChar_cons]
  simp only [Option.some_bind]
  rw [parseHms_fmt h mi s _ hh hmi hs]
  simp only [Option.some_bind]
  have hp := parseOffset_fmt off [] hoff
  rw [List.append_nil] at hp
  rw [hp]
  rfl

theorem parseDatetimeNoFrac_frac_fails (y mo d h mi s us : Nat) (off : Int)
    (h2 : y ≤ 9999) (h1 : 1 ≤ y) (h3 : 1 ≤ mo) (h4 : mo ≤ 12) (h5 : 1 ≤ d)
    (h6 : d ≤ daysInMonth y mo) (hh : h ≤ 23) (hmi : mi ≤ 59) (hs : s ≤ 59)
    (hus : 1 ≤ us) :
    parseDatetimeNoFrac (datetimeIso y mo d h mi s us (some off)).data
      = Option.none := by
  rw [datetimeIso_data]
  have hfrac : fmtFrac us = '.' :: padNum 6 us := by
    unfold fmtFrac
    have : (us == 0) = false := by simpa using by omega
    rw [this]
    rfl
  rw [hfrac]
  unfold parseDatetimeNoFrac
  have hshape : fmtYmd y mo d ++ 'T' ::
      (fmtHms h mi s ++ ('.' :: padNum 6 us) ++ fmtOffset (some off))
      = fmtYmd y mo d ++ 'T' ::
      (fmtHms h mi s ++ ('.' :: (padNum 6 us ++ fmtOffset (some off)))) := by
    simp
  rw [hshape]
  rw [parseYmd_fmt y mo d _ h2 h1 h3 h4 h5 h6]
  simp only [Option.bind_eq_bind, Option.some_bind]
  rw [expectChar_cons]
  simp only [Option.some_bind]
  rw [parseHms_fmt h mi s _ hh hmi hs]
  simp only [Option.some_bind]
  rw [parseOffset_dot]
  rfl

theorem fmtOffset_head_not_digit (off : Int) :
    ∀ c, (fmtOffset (some off)).head? = some c → c.isDigit = false := by
  intro c hc
  unfold fmtOffset at hc
  by_cases hneg : off < 0 <;> simp [hneg] at hc <;> rw [← hc] <;> decide

theorem parseDatetimeFrac_fmt (y mo d h mi s us : Nat) (off : Int)
    (h2 : y ≤ 9999) (h1 : 1 ≤ y) (h3 : 1 ≤ mo) (h4 : mo ≤ 12) (h5 : 1 ≤ d)
    (h6 : d ≤ daysInMonth y mo) (hh : h ≤ 23) (hmi : mi ≤ 59) (hs : s ≤ 59)
    (hus : 1 ≤ us) (hus6 : us ≤ 999999) (hoff : off.natAbs ≤ 1439) :
    parseDatetimeFrac (datetimeIso y mo d h mi s us (some off)).data
      = some ((y, mo, d), (h, mi, s), us, off) := by
  rw [datetimeIso_data]
  have hfrac : fmtFrac us = '.' :: padNum 6 us := by
    unfold fmtFrac
    have : (us == 0) = false := by simpa using by omega
    rw [this]
    rfl
  rw [hfrac]
  have hshape : fmtYmd y mo d ++ 'T' ::
      (fmtHms h mi s ++ ('.' :: padNum 6 us) ++ fmtOffset (some off))
      = fmtYmd y mo d ++ 'T' ::
      (fmtHms h mi s ++ ('.' :: (padNum 6 us ++ fmtOffset (some off)))) := by
    simp
  rw [hshape]
  unfold parseDatetimeFrac
  rw [parseYmd_fmt y mo d _ h2 h1 h3 h4 h5 h6]
  simp only [Option.bind_eq_bind, Option.some_bind]
  rw [expectChar_cons]
  simp only [Option.some_bind]
  rw [parseHms_fmt h mi s _ hh hmi hs]
  simp only [Option.some_bind]
  rw [expectChar_cons]
  simp only [Option.some_bind]
  have hfm := fracMicro_pad us (fmtOffset (some off)) hus6 (fmtOffset_head_not_digit off)
  rw [hfm]
  simp only [Option.some_bind]
  have hp := parseOffset_fmt off [] hoff
  rw [List.append_nil] at hp
  rw [hp]
  rfl

/-! ## UUID round-trip lemmas -/

theorem uuidDashes_filter (cs : List Char) (h32 : cs.length = 32)
    (hnd : (cs.all fun c => c != '-') = true) :
    (uuidDashes cs).filter (fun c => c != '-') = cs := by
  rw [List.all_eq_true] at hnd
  have hpart : ∀ l : List Char, (∀ x ∈ l, x ∈ cs) →
      l.filter (fun c => c != '-') = l := by
    intro l hsub
    exact List.filter_eq_self.mpr fun a ha => hnd a (hsub a ha)
  unfold uuidDashes
  rw [List.filter_append]
  rw [hpart (cs.take 8) (fun x hx => List.mem_of_mem_take hx)]
  rw [show List.filter (fun c => c != '-')
      ('-' :: ((cs.drop 8).take 4 ++ '-' :: ((cs.drop 12).take 4
        ++ '-' :: ((cs.drop 16).take 4 ++ '-' :: (cs.drop 20).take 12))))
      = List.filter (fun c => c != '-')
      ((cs.drop 8).take 4 ++ '-' :: ((cs.drop 12).take 4
        ++ '-' :: ((cs.drop 16).take 4 ++ '-' :: (cs.drop 20).take 12)))
    from by rw [List.filter_cons_of_neg (by decide)]]
  rw [List.filter_append]
  rw [hpart ((cs.drop 8).take 4)
    (fun x hx => List.mem_of_mem_drop (List.mem_of_mem_take hx))]
  rw [show List.filter (fun c => c != '-')
      ('-' :: ((cs.drop 12).take 4
        ++ '-' :: ((cs.drop 16).take 4 ++ '-' :: (cs.drop 20).take 12)))
      = List.filter (fun c => c != '-')
      ((cs.drop 12).take 4
        ++ '-' :: ((cs.drop 16).take 4 ++ '-' :: (cs.drop 20).take 12))
    from by rw [List.filter_cons_of_neg (by decide)]]
  rw [List.filter_append]
  rw [hpart ((cs.drop 12).take 4)
    (fun x hx => List.mem_of_mem_drop (List.mem_of_mem_take hx))]
  rw [show List.filter (fun c => c != '-')
      ('-' :: ((cs.drop 16).take 4 ++ '-' :: (cs.drop 20).take 12))
      = List.filter (fun c => c != '-')
      ((cs.drop 16).take 4 ++ '-' :: (cs.drop 20).take 12)
    from by rw [List.filter_cons_of_neg (by decide)]]
  rw [List.filter_append]
  rw [hpart ((cs.drop 16).take 4)
    (fun x hx => List.mem_of_mem_drop (List.mem_of_mem_take hx))]
  rw [show List.filter (fun c => c != '-') ('-' :: (cs.drop 20).take 12)
      = List.filter (fun c => c != '-') ((cs.drop 20).take 12)
    from by rw [List.filter_cons_of_neg (by decide)]]
  rw [hpart ((cs.drop 20).take 12)
    (fun x hx => List.mem_of_mem_drop (List.mem_of_mem_take hx))]
  have hd20 : (cs.drop 20).take 12 = cs.drop 20 :=
    List.take_of_length_le (by simp [h32])
  rw [hd20]
  have e16 : (cs.drop 16).take 4 ++ cs.drop 20 = cs.drop 16 := by
    have : cs.drop 20 = (cs.drop 16).drop 4 := by rw [List.drop_drop]
    rw [this, List.take_append_drop]
  have e12 : (cs.drop 12).take 4 ++ cs.drop 16 = cs.drop 12 := by
    have : cs.drop 16 = (cs.drop 12).drop 4 := by rw [List.drop_drop]
    rw [this, List.take_append_drop]
  have e8 : (cs.drop 8).take 4 ++ cs.drop 12 = cs.drop 8 := by
    have : cs.drop 12 = (cs.drop 8).drop 4 := by rw [List.drop_drop]
    rw [this, List.take_append_drop]
  rw [e16, e12, e8, List.take_append_drop]

theorem pyUUID_roundtrip (h : String) (h32 : h.length = 32)
    (hhex : h.data.all isHexChar = true)
    (hnd : (h.data.all fun c => c != '-') = true)
    (hlow : h.data.map hexToLower = h.data) :
    pyUUIDOfStr ⟨uuidDashes h.data⟩ = some h := by
  unfold pyUUIDOfStr
  have hdl : h.data.length = 32 := h32
  simp only
  rw [uuidDashes_filter h.data hdl hnd]
  rw [show (h.data.length == 32) = true from by simp [hdl]]
  rw [hhex]
  simp only [Bool.and_self, if_true]
  rw [hlow]

/-! ## Python equality: helpers and equivalence properties -/

theorem pv_sizeOf_pos : ∀ v : PyVal, 0 < sizeOf v := by
  intro v
  cases v <;> simp

theorem mem_zip_swap {α β : Type} : ∀ (xs : List α) (ys : List β) (a : α) (b : β),
    (a, b) ∈ xs.zip ys → (b, a) ∈ ys.zip xs := by
  intro xs
  induction xs with
  | nil =>
    intro ys a b h
    simp at h
  | cons x xs ih =>
    intro ys a b h
    cases ys with
    | nil => simp at h
    | cons y ys =>
      simp only [List.zip_cons_cons, List.mem_cons] at h ⊢
      rcases h with h | h
      · left
        rw [Prod.mk.injEq] at h ⊢
        exact ⟨h.2, h.1⟩
      · right
        exact ih ys a b h

theorem pyEqMem_of_mem : ∀ (ys : List PyVal) (x y : PyVal), y ∈ ys → pyEq x y →
    pyEqMem x ys := by
  intro ys
  induction ys with
  | nil =>
    intro x y h
    simp at h
  | cons z ys ih =>
    intro x y h he
    rcases List.mem_cons.mp h with h | h
    · subst h
      exact .head x y ys he
    · exact .tail x z ys (ih x y h he)

theorem pyEqMem_elim : ∀ (ys : List PyVal) (x : PyVal), pyEqMem x ys →
    ∃ y ∈ ys, pyEq x y := by
  intro ys
  induction ys with
  | nil =>
    intro x h
    cases h
  | cons z ys ih =>
    intro x h
    cases h with
    | head _ _ _ he => exact ⟨z, by simp, he⟩
    | tail _ _ _ hm =>
      rcases ih x hm with ⟨y, hy, he⟩
      exact ⟨y, by simp [hy], he⟩

theorem pyEqIncl_of_forall : ∀ (xs ys : List PyVal),
    (∀ x ∈ xs, pyEqMem x ys) → pyEqIncl xs ys := by
  intro xs
  induction xs with
  | nil => intro ys _; exact .nil ys
  | cons x xs ih =>
    intro ys h
    exact .cons x xs ys (h x (by simp))
      (ih ys fun z hz => h z (by simp [hz]))

theorem pyEqIncl_elim : ∀ (xs ys : List PyVal), pyEqIncl xs ys →
    ∀ x ∈ xs, pyEqMem x ys := by
  intro xs
  induction xs with
  | nil =>
    intro ys _ x hx
    simp at hx
  | cons z xs ih =>
    intro ys h x hx
    cases h with
    | cons _ _ _ hm hincl =>
      rcases List.mem_cons.mp hx with h0 | h0
      · subst h0; exact hm
      · exact ih ys hincl x h0


set_option maxHeartbeats 1000000 in
theorem pyEq_symm_aux : ∀ n a b, sizeOf a + sizeOf b ≤ n → pyEq a b → pyEq b a := by
  intro n
  induction n with
  | zero =>
    intro a b hs _
    exact absurd (Nat.lt_of_lt_of_le
      (Nat.lt_of_lt_of_le (pv_sizeOf_pos a) (by omega)) hs) (by omega)
  | succ n ih =>
    intro a b hs h
    cases h with
    | num a b q h1 h2 => exact .num b a q h2 h1
    | strv a b s h1 h2 => exact .strv b a s h2 h1
    | noneEq => exact .noneEq
    | dateEq y m d => exact .dateEq y m d
    | dtNaive y mo d h mi s us => exact .dtNaive y mo d h mi s us
    | dtAware y1 mo1 d1 h1 mi1 s1 u1 o1 y2 mo2 d2 h2 mi2 s2 u2 o2 heq =>
      exact .dtAware y2 mo2 d2 h2 mi2 s2 u2 o2 y1 mo1 d1 h1 mi1 s1 u1 o1 heq.symm
    | timeEq h mi s us tz => exact .timeEq h mi s us tz
    | uuidEq u => exact .uuidEq u
    | listEq xs ys hlen hall =>
      refine .listEq ys xs hlen.symm fun p hp => ?_
      have hsw : (p.2, p.1) ∈ xs.zip ys := mem_zip_swap ys xs p.1 p.2 (by simpa using hp)
      have hmem := List.of_mem_zip hsw
      have hs1 : sizeOf p.2 < sizeOf (PyVal.list xs) := by
        have := List.sizeOf_lt_of_mem hmem.1
        simp
        omega
      have hs2 : sizeOf p.1 < sizeOf (PyVal.list ys) := by
        have := List.sizeOf_lt_of_mem hmem.2
        simp
        omega
      exact ih p.2 p.1 (by omega) (hall (p.2, p.1) hsw)
    | tupleEq xs ys hlen hall =>
      refine .tupleEq ys xs hlen.symm fun p hp => ?_
      have hsw : (p.2, p.1) ∈ xs.zip ys := mem_zip_swap ys xs p.1 p.2 (by simpa using hp)
      have hmem := List.of_mem_zip hsw
      have hs1 : sizeOf p.2 < sizeOf (PyVal.tuple xs) := by
        have := List.sizeOf_lt_of_mem hmem.1
        simp
        omega
      have hs2 : sizeOf p.1 < sizeOf (PyVal.tuple ys) := by
        have := List.sizeOf_lt_of_mem hmem.2
        simp
        omega
      exact ih p.2 p.1 (by omega) (hall (p.2, p.1) hsw)
    | setEq xs ys h1 h2 => exact .setEq ys xs h2 h1
    | dictEq xs ys hlen hnames hall =>
      refine .dictEq ys xs hlen.symm (fun p hp => ?_) fun p hp => ?_
      · have hsw : (p.2, p.1) ∈ xs.zip ys :=
          mem_zip_swap ys xs p.1 p.2 (by simpa using hp)
        exact (hnames (p.2, p.1) hsw).symm
      · obtain ⟨q1, q2⟩ := p
        obtain ⟨k1, w1⟩ := q1
        obtain ⟨k2, w2⟩ := q2
        have hsw : ((k2, w2), (k1, w1)) ∈ xs.zip ys :=
          mem_zip_swap ys xs (k1, w1) (k2, w2) hp
        have hmem := List.of_mem_zip hsw
        have hs1 : sizeOf (k2, w2) < sizeOf xs := List.sizeOf_lt_of_mem hmem.1
        have hs2 : sizeOf (k1, w1) < sizeOf ys := List.sizeOf_lt_of_mem hmem.2
        have hall1 := hall ((k2, w2), (k1, w1)) hsw
        simp only at hall1 ⊢
        simp at hs1 hs2 hs
        exact ih w2 w1 (by omega) hall1
    | recordEq c fs1 fs2 hlen hnames hall =>
      refine .recordEq c fs2 fs1 hlen.symm (fun p hp => ?_) fun p hp => ?_
      · have hsw : (p.2, p.1) ∈ fs1.zip fs2 :=
          mem_zip_swap fs2 fs1 p.1 p.2 (by simpa using hp)
        exact (hnames (p.2, p.1) hsw).symm
      · obtain ⟨q1, q2⟩ := p
        obtain ⟨k1, t1, w1⟩ := q1
        obtain ⟨k2, t2, w2⟩ := q2
        have hsw : ((k2, t2, w2), (k1, t1, w1)) ∈ fs1.zip fs2 :=
          mem_zip_swap fs2 fs1 (k1, t1, w1) (k2, t2, w2) hp
        have hmem := List.of_mem_zip hsw
        have hs1 : sizeOf (k2, t2, w2) < sizeOf fs1 := List.sizeOf_lt_of_mem hmem.1
        have hs2 : sizeOf (k1, t1, w1) < sizeOf fs2 := List.sizeOf_lt_of_mem hmem.2
        have hall1 := hall ((k2, t2, w2), (k1, t1, w1)) hsw
        simp only at hall1 ⊢
        simp at hs1 hs2 hs
        exact ih w2 w1 (by omega) hall1
    | ucaseEq c nm mt1 mt2 v1 v2 hv =>
      have hs1 : sizeOf v1 < sizeOf (PyVal.ucase c nm mt1 v1) := by simp
      have hs2 : sizeOf v2 < sizeOf (PyVal.ucase c nm mt2 v2) := by simp
      exact .ucaseEq c nm mt2 mt1 v2 v1 (ih v1 v2 (by omega) hv)

theorem pyEq_symm {a b : PyVal} (h : pyEq a b) : pyEq b a :=
  pyEq_symm_aux (sizeOf a + sizeOf b) a b le_rfl h

theorem numOfPy_strOfPy_absurd (b : PyVal) (q : ℚ) (s : String)
    (h1 : numOfPy b = some q) (h2 : strOfPy b = some s) : False := by
  cases b <;> simp [numOfPy, strOfPy] at h1 h2

theorem snd_sizeOf_lt {α β : Type} [SizeOf α] [SizeOf β] (p : α × β) :
    sizeOf p.2 < sizeOf p := by
  obtain ⟨a, b⟩ := p
  simp

theorem trd_sizeOf_lt {α β γ : Type} [SizeOf α] [SizeOf β] [SizeOf γ]
    (p : α × β × γ) : sizeOf p.2.2 < sizeOf p := by
  obtain ⟨a, b, c⟩ := p
  simp
  omega


set_option maxHeartbeats 2000000 in
theorem pyEq_trans_aux : ∀ n a b c, sizeOf a + sizeOf b + sizeOf c ≤ n →
    pyEq a b → pyEq b c → pyEq a c := by
  intro n
  induction n with
  | zero =>
    intro a b c hs _ _
    exact absurd (Nat.lt_of_lt_of_le
      (Nat.lt_of_lt_of_le (pv_sizeOf_pos a) (by omega)) hs) (by omega)
  | succ n ih =>
    intro a b c hs h1 h2
    cases h1 with
    | noneEq => exact h2
    | dateEq y m d => exact h2
    | dtNaive y mo d h mi s us => exact h2
    | timeEq h mi s us tz => exact h2
    | uuidEq u => exact h2
    | num a b q ha hb =>
      cases h2 <;> try (exfalso; simp_all [numOfPy, strOfPy]; done)
      · rename_i q2 hb2 hc
        injection hb.symm.trans hb2 with hq
        exact .num a _ q ha (hq ▸ hc)
      · rename_i s hb2 hc
        exact (numOfPy_strOfPy_absurd b q s hb hb2).elim
    | strv a b s ha hb =>
      cases h2 <;> try (exfalso; simp_all [numOfPy, strOfPy]; done)
      · rename_i q2 hb2 hc
        exact (numOfPy_strOfPy_absurd b q2 s hb2 hb).elim
      · rename_i s2 hb2 hc
        injection hb.symm.trans hb2 with hq
        exact .strv a _ s ha (hq ▸ hc)
    | dtAware y1 mo1 d1 h1v mi1 s1 u1 o1 y2 mo2 d2 h2v mi2 s2 u2 o2 heq =>
      cases h2 <;> try (exfalso; simp_all [numOfPy, strOfPy]; done)
      rename_i y3 mo3 d3 h3v mi3 s3 u3 o3 heq2
      exact .dtAware y1 mo1 d1 h1v mi1 s1 u1 o1 y3 mo3 d3 h3v mi3 s3 u3 o3
        (heq.trans heq2)
    | listEq xs ys hlen hall =>
      cases h2 <;> try (exfalso; simp_all [numOfPy, strOfPy]; done)
      rename_i zs hlen2 hall2
      simp at hs
      refine .listEq xs zs (hlen.trans hlen2) ?_
      rw [forall_zip_iff_get] at hall hall2 ⊢
      intro i hi1 hi3
      have hi2 : i < ys.length := by omega
      have e1 := hall i hi1 hi2
      have e2 := hall2 i hi2 hi3
      have b1 : sizeOf (xs.get ⟨i, hi1⟩) < sizeOf xs :=
        List.sizeOf_lt_of_mem (xs.get_mem i hi1)
      have b2 : sizeOf (ys.get ⟨i, hi2⟩) < sizeOf ys :=
        List.sizeOf_lt_of_mem (ys.get_mem i hi2)
      have b3 : sizeOf (zs.get ⟨i, hi3⟩) < sizeOf zs :=
        List.sizeOf_lt_of_mem (zs.get_mem i hi3)
      exact ih _ _ _ (by omega) e1 e2
    | tupleEq xs ys hlen hall =>
      cases h2 <;> try (exfalso; simp_all [numOfPy, strOfPy]; done)
      rename_i zs hlen2 hall2
      simp at hs
      refine .tupleEq xs zs (hlen.trans hlen2) ?_
      rw [forall_zip_iff_get] at hall hall2 ⊢
      intro i hi1 hi3
      have hi2 : i < ys.length := by omega
      have e1 := hall i hi1 hi2
      have e2 := hall2 i hi2 hi3
      have b1 : sizeOf (xs.get ⟨i, hi1⟩) < sizeOf xs :=
        List.sizeOf_lt_of_mem (xs.get_mem i hi1)
      have b2 : sizeOf (ys.get ⟨i, hi2⟩) < sizeOf ys :=
        List.sizeOf_lt_of_mem (ys.get_mem i hi2)
      have b3 : sizeOf (zs.get ⟨i, hi3⟩) < sizeOf zs :=
        List.sizeOf_lt_of_mem (zs.get_mem i hi3)
      exact ih _ _ _ (by omega) e1 e2
    | setEq xs ys hxy hyx =>
      cases h2 <;> try (exfalso; simp_all [numOfPy, strOfPy]; done)
      rename_i zs hyz hzy
      simp at hs
      refine .setEq xs zs (pyEqIncl_of_forall xs zs fun x hx => ?_)
        (pyEqIncl_of_forall zs xs fun z hz => ?_)
      · rcases pyEqMem_elim ys x (pyEqIncl_elim xs ys hxy x hx) with ⟨y, hy, exy⟩
        rcases pyEqMem_elim zs y (pyEqIncl_elim ys zs hyz y hy) with ⟨z, hz, eyz⟩
        refine pyEqMem_of_mem zs x z hz ?_
        have bx := List.sizeOf_lt_of_mem hx
        have by' := List.sizeOf_lt_of_mem hy
        have bz := List.sizeOf_lt_of_mem hz
        exact ih x y z (by omega) exy eyz
      · rcases pyEqMem_elim ys z (pyEqIncl_elim zs ys hzy z hz) with ⟨y, hy, ezy⟩
        rcases pyEqMem_elim xs y (pyEqIncl_elim ys xs hyx y hy) with ⟨x, hx, eyx⟩
        refine pyEqMem_of_mem xs z x hx ?_
        have bx := List.sizeOf_lt_of_mem hx
        have by' := List.sizeOf_lt_of_mem hy
        have bz := List.sizeOf_lt_of_mem hz
        exact ih z y x (by omega) ezy eyx
    | dictEq xs ys hlen hnames hall =>
      cases h2 <;> try (exfalso; simp_all [numOfPy, strOfPy]; done)
      rename_i zs hlen2 hnames2 hall2
      simp at hs
      refine .dictEq xs zs (hlen.trans hlen2) ?_ ?_
      · refine (@forall_zip_iff_get _ _ (fun a b => a.1 = b.1) xs zs).mpr ?_
        intro i hi1 hi3
        have hi2 : i < ys.length := by omega
        exact ((@forall_zip_iff_get _ _ (fun a b => a.1 = b.1) xs ys).mp
            hnames i hi1 hi2).trans
          ((@forall_zip_iff_get _ _ (fun a b => a.1 = b.1) ys zs).mp
            hnames2 i hi2 hi3)
      · refine (@forall_zip_iff_get _ _ (fun a b => pyEq a.2 b.2) xs zs).mpr ?_
        intro i hi1 hi3
        have hi2 : i < ys.length := by omega
        have e1 := (@forall_zip_iff_get _ _ (fun a b => pyEq a.2 b.2) xs ys).mp
          hall i hi1 hi2
        have e2 := (@forall_zip_iff_get _ _ (fun a b => pyEq a.2 b.2) ys zs).mp
          hall2 i hi2 hi3
        have b1 : sizeOf (xs.get ⟨i, hi1⟩).2 < sizeOf xs :=
          Nat.lt_trans (snd_sizeOf_lt (xs.get ⟨i, hi1⟩))
            (List.sizeOf_lt_of_mem (xs.get_mem i hi1))
        have b2 : sizeOf (ys.get ⟨i, hi2⟩).2 < sizeOf ys :=
          Nat.lt_trans (snd_sizeOf_lt (ys.get ⟨i, hi2⟩))
            (List.sizeOf_lt_of_mem (ys.get_mem i hi2))
        have b3 : sizeOf (zs.get ⟨i, hi3⟩).2 < sizeOf zs :=
          Nat.lt_trans (snd_sizeOf_lt (zs.get ⟨i, hi3⟩))
            (List.sizeOf_lt_of_mem (zs.get_mem i hi3))
        exact ih _ _ _ (by omega) e1 e2
    | recordEq cl fs1 fs2 hlen hnames hall =>
      cases h2 <;> try (exfalso; simp_all [numOfPy, strOfPy]; done)
      rename_i fs3 hlen2 hnames2 hall2
      simp at hs
      refine .recordEq cl fs1 fs3 (hlen.trans hlen2) ?_ ?_
      · refine (@forall_zip_iff_get _ _ (fun a b => a.1 = b.1) fs1 fs3).mpr ?_
        intro i hi1 hi3
        have hi2 : i < fs2.length := by omega
        exact ((@forall_zip_iff_get _ _ (fun a b => a.1 = b.1) fs1 fs2).mp
            hnames i hi1 hi2).trans
          ((@forall_zip_iff_get _ _ (fun a b => a.1 = b.1) fs2 fs3).mp
            hnames2 i hi2 hi3)
      · refine (@forall_zip_iff_get _ _ (fun a b => pyEq a.2.2 b.2.2) fs1 fs3).mpr ?_
        intro i hi1 hi3
        have hi2 : i < fs2.length := by omega
        have e1 := (@forall_zip_iff_get _ _ (fun a b => pyEq a.2.2 b.2.2) fs1 fs2).mp
          hall i hi1 hi2
        have e2 := (@forall_zip_iff_get _ _ (fun a b => pyEq a.2.2 b.2.2) fs2 fs3).mp
          hall2 i hi2 hi3
        have b1 : sizeOf (fs1.get ⟨i, hi1⟩).2.2 < sizeOf fs1 :=
          Nat.lt_trans (trd_sizeOf_lt (fs1.get ⟨i, hi1⟩))
            (List.sizeOf_lt_of_mem (fs1.get_mem i hi1))
        have b2 : sizeOf (fs2.get ⟨i, hi2⟩).2.2 < sizeOf fs2 :=
          Nat.lt_trans (trd_sizeOf_lt (fs2.get ⟨i, hi2⟩))
            (List.sizeOf_lt_of_mem (fs2.get_mem i hi2))
        have b3 : sizeOf (fs3.get ⟨i, hi3⟩).2.2 < sizeOf fs3 :=
          Nat.lt_trans (trd_sizeOf_lt (fs3.get ⟨i, hi3⟩))
            (List.sizeOf_lt_of_mem (fs3.get_mem i hi3))
        exact ih _ _ _ (by omega) e1 e2
    | ucaseEq cl nm mt1 mt2 v1 v2 hv =>
      cases h2 <;> try (exfalso; simp_all [numOfPy, strOfPy]; done)
      rename_i mt3 v3 hv2
      simp at hs
      exact .ucaseEq cl nm mt1 mt3 v1 v3 (ih v1 v2 v3 (by omega) hv hv2)

theorem pyEq_trans {a b c : PyVal} (h1 : pyEq a b) (h2 : pyEq b c) : pyEq a c :=
  pyEq_trans_aux (sizeOf a + sizeOf b + sizeOf c) a b c le_rfl h1 h2

theorem pyEq_of_num {a b : PyVal} {x y : ℚ} (ha : numOfPy a = some x)
    (hb : numOfPy b = some y) (h : x = y) : pyEq a b :=
  .num a b x ha (h ▸ hb)

theorem pyEq_of_str {a b : PyVal} {x y : String} (ha : strOfPy a = some x)
    (hb : strOfPy b = some y) (h : x = y) : pyEq a b :=
  .strv a b x ha (h ▸ hb)

theorem WF_scalar : ∀ (a : Ty) (v : PyVal), ScalarTy a = true → WF a v →
    isScalarVal v = true := by
  intro a v hs h
  cases h <;> simp [ScalarTy] at hs <;> rfl

theorem pyEq_scalar_left : ∀ r x : PyVal, pyEq r x → isScalarVal x = true →
    isScalarVal r = true := by
  intro r x h hx
  cases h with
  | num _ _ q ha hb => cases r <;> simp [numOfPy] at ha <;> rfl
  | strv _ _ s ha hb => cases r <;> simp [strOfPy] at ha <;> rfl
  | noneEq => rfl
  | dateEq y m d => rfl
  | dtNaive y mo d h mi s us => rfl
  | dtAware y1 mo1 d1 h1 mi1 s1 u1 o1 y2 mo2 d2 h2 mi2 s2 u2 o2 heq => rfl
  | timeEq h mi s us tz => rfl
  | uuidEq u => rfl
  | listEq xs ys hlen hall => simp [isScalarVal] at hx
  | tupleEq xs ys hlen hall => simp [isScalarVal] at hx
  | setEq xs ys hxy hyx => simp [isScalarVal] at hx
  | dictEq xs ys hlen hnames hall => simp [isScalarVal] at hx
  | recordEq c fs1 fs2 hlen hnames hall => simp [isScalarVal] at hx
  | ucaseEq c n mt1 mt2 v1 v2 hv => simp [isScalarVal] at hx

set_option maxHeartbeats 1000000 in
theorem pyEqB_sound_scalar : ∀ (f : Nat) (a b : PyVal),
    isScalarVal a = true → pyEqB f a b = true → pyEq a b := by
  intro f a b hs h
  match f with
  | 0 => exact Bool.noConfusion h
  | Nat.succ f =>
    cases a <;> simp [isScalarVal] at hs <;> cases b <;>
      first
      | exact Bool.noConfusion h
      | exact .noneEq
      | exact pyEq_of_num rfl rfl (of_decide_eq_true h)
      | exact pyEq_of_str rfl rfl (eq_of_beq h)
      | skip
    · rename_i y1 m1 d1 y2 m2 d2
      replace h : (y1 == y2 && m1 == m2 && d1 == d2) = true := h
      simp only [Bool.and_eq_true, beq_iff_eq] at h
      obtain ⟨⟨h1, h2⟩, h3⟩ := h
      subst h1
      subst h2
      subst h3
      exact .dateEq _ _ _
    · rename_i y1 mo1 d1 a1 b1 c1 u1 tz1 y2 mo2 d2 a2 b2 c2 u2 tz2
      cases tz1 with
      | none =>
        cases tz2 with
        | none =>
          replace h : (y1 == y2 && mo1 == mo2 && d1 == d2 && a1 == a2
              && b1 == b2 && c1 == c2 && u1 == u2) = true := h
          simp only [Bool.and_eq_true, beq_iff_eq] at h
          obtain ⟨⟨⟨⟨⟨⟨h1, h2⟩, h3⟩, h4⟩, h5⟩, h6⟩, h7⟩ := h
          subst h1
          subst h2
          subst h3
          subst h4
          subst h5
          subst h6
          subst h7
          exact .dtNaive _ _ _ _ _ _ _
        | some o2 => exact Bool.noConfusion h
      | some o1 =>
        cases tz2 with
        | none => exact Bool.noConfusion h
        | some o2 =>
          replace h : decide (dtInstant y1 mo1 d1 a1 b1 c1 u1 o1
              = dtInstant y2 mo2 d2 a2 b2 c2 u2 o2) = true := h
          exact .dtAware _ _ _ _ _ _ _ _ _ _ _ _ _ _ _ _ (of_decide_eq_true h)
    · rename_i a1 b1 c1 u1 z1 a2 b2 c2 u2 z2
      replace h : (a1 == a2 && b1 == b2 && c1 == c2 && u1 == u2
          && z1 == z2) = true := h
      simp only [Bool.and_eq_true, beq_iff_eq] at h
      obtain ⟨⟨⟨⟨h1, h2⟩, h3⟩, h4⟩, h5⟩ := h
      subst h1
      subst h2
      subst h3
      subst h4
      subst h5
      exact .timeEq _ _ _ _ _
    · rename_i s1 s2
      replace h : (s1 == s2) = true := h
      have he := eq_of_beq h
      subst he
      exact .uuidEq _

theorem pyDedupAux_noop : ∀ (f : Nat) (rs seen : List PyVal),
    (∀ r ∈ rs, isScalarVal r = true) →
    (∀ y ∈ seen, isScalarVal y = true) →
    (∀ y ∈ seen, ∀ r ∈ rs, ¬ pyEq y r) →
    rs.Pairwise (fun a b => ¬ pyEq a b) →
    pyDedupAux f seen rs = rs := by
  intro f rs
  induction rs with
  | nil => intro seen _ _ _ _; rfl
  | cons x xs ih =>
    intro seen hrs hsc hsep hp
    have hany : (seen.any fun y => pyEqB f y x) = false := by
      by_contra hne
      rw [Bool.not_eq_false, List.any_eq_true] at hne
      obtain ⟨y, hy, hyx⟩ := hne
      exact hsep y hy x (List.mem_cons_self x xs)
        (pyEqB_sound_scalar f y x (hsc y hy) hyx)
    rw [List.pairwise_cons] at hp
    rw [pyDedupAux, hany]
    simp only [Bool.false_eq_true, if_false]
    refine congrArg (x :: ·) (ih (x :: seen) ?_ ?_ ?_ hp.2)
    · intro r hr
      exact hrs r (List.mem_cons_of_mem x hr)
    · intro y hy
      rcases List.mem_cons.mp hy with rfl | hy2
      · exact hrs y (List.mem_cons_self y xs)
      · exact hsc y hy2
    · intro y hy r hr
      rcases List.mem_cons.mp hy with rfl | hy2
      · exact hp.1 r hr
      · exact hsep y hy2 r (List.mem_cons_of_mem x hr)

theorem pySetOf_noop (f : Nat) (rs : List PyVal)
    (hsc : ∀ r ∈ rs, isScalarVal r = true)
    (hp : rs.Pairwise fun a b => ¬ pyEq a b) : pySetOf f rs = .set rs := by
  unfold pySetOf
  rw [pyDedupAux_noop f rs [] hsc (by intro y hy; cases hy)
    (by intro y hy hr; cases hy) hp]

/-! ## Engine step lemmas

For every type-descriptor shape exactly one rule of the built-in chain can
fire; the rules before it return `None` ("not my type"), and the rules
after it are reached only when the matching rule itself returns `None`,
which it never does, so that continuation collapses to the
`Unsupported type` error. -/

theorem runRules_skip (r : Ty → PyVal → Except Err (Option PyVal))
    (rest : List (Ty → PyVal → Except Err (Option PyVal))) (t : Ty) (v : PyVal)
    (h : r t v = .ok Option.none) :
    runRules (r :: rest) t v = runRules rest t v := by
  rw [runRules, h]

theorem decoderF_step_int (conv : Option (String → String)) (f : Nat)
    (jv : PyVal) :
    decoderF json_decoders conv (f+1) (.int) jv =
      (match decode_primitive ⟨f, decoderF json_decoders conv f,
          to_json_case_of conv⟩ (.int) jv with
      | .ok (Option.some x) => .ok x
      | .ok Option.none => .error (.unsupportedType (.int))
      | .error e => .error e) := by
  rw [decoderF]
  simp only [json_decoders, List.map_cons, List.map_nil]
  rw [runRules]
  split <;> (rename_i heq; rw [heq])
  all_goals rfl

theorem decoderF_step_Decimal (conv : Option (String → String)) (f : Nat)
    (jv : PyVal) :
    decoderF json_decoders conv (f+1) (.Decimal) jv =
      (match decode_primitive ⟨f, decoderF json_decoders conv f,
          to_json_case_of conv⟩ (.Decimal) jv with
      | .ok (Option.some x) => .ok x
      | .ok Option.none => .error (.unsupportedType (.Decimal))
      | .error e => .error e) := by
  rw [decoderF]
  simp only [json_decoders, List.map_cons, List.map_nil]
  rw [runRules]
  split <;> (rename_i heq; rw [heq])
  all_goals rfl

theorem decoderF_step_str (conv : Option (String → String)) (f : Nat)
    (jv : PyVal) :
    decoderF json_decoders conv (f+1) (.str) jv =
      (match decode_primitive ⟨f, decoderF json_decoders conv f,
          to_json_case_of conv⟩ (.str) jv with
      | .ok (Option.some x) => .ok x
      | .ok Option.none => .error (.unsupportedType (.str))
      | .error e => .error e) := by
  rw [decoderF]
  simp only [json_decoders, List.map_cons, List.map_nil]
  rw [runRules]
  split <;> (rename_i heq; rw [heq])
  all_goals rfl

theorem decoderF_step_bool (conv : Option (String → String)) (f : Nat)
    (jv : PyVal) :
    decoderF json_decoders conv (f+1) (.bool) jv =
      (match decode_primitive ⟨f, decoderF json_decoders conv f,
          to_json_case_of conv⟩ (.bool) jv with
      | .ok (Option.some x) => .ok x
      | .ok Option.none => .error (.unsupportedType (.bool))
      | .error e => .error e) := by
  rw [decoderF]
  simp only [json_decoders, List.map_cons, List.map_nil]
  rw [runRules]
  split <;> (rename_i heq; rw [heq])
  all_goals rfl

theorem decoderF_step_NoneType (conv : Option (String → String)) (f : Nat)
    (jv : PyVal) :
    decoderF json_decoders conv (f+1) (.NoneType) jv =
      (match decode_primitive ⟨f, decoderF json_decoders conv f,
          to_json_case_of conv⟩ (.NoneType) jv with
      | .ok (Option.some x) => .ok x
      | .ok Option.none => .error (.unsupportedType (.NoneType))
      | .error e => .error e) := by
  rw [decoderF]
  simp only [json_decoders, List.map_cons, List.map_nil]
  rw [runRules]
  split <;> (rename_i heq; rw [heq])
  all_goals rfl

theorem decoderF_step_char (conv : Option (String → String)) (f : Nat)
    (jv : PyVal) :
    decoderF json_decoders conv (f+1) (.char) jv =
      (match decode_char ⟨f, decoderF json_decoders conv f,
          to_json_case_of conv⟩ (.char) jv with
      | .ok (Option.some x) => .ok x
      | .ok Option.none => .error (.unsupportedType (.char))
      | .error e => .error e) := by
  rw [decoderF]
  simp only [json_decoders, List.map_cons, List.map_nil]
  rw [runRules_skip, runRules]
  split <;> (rename_i heq; rw [heq])
  all_goals rfl

theorem decoderF_step_float (conv : Option (String → String)) (f : Nat)
    (jv : PyVal) :
    decoderF json_decoders conv (f+1) (.float) jv =
      (match decode_float ⟨f, decoderF json_decoders conv f,
          to_json_case_of conv⟩ (.float) jv with
      | .ok (Option.some x) => .ok x
      | .ok Option.none => .error (.unsupportedType (.float))
      | .error e => .error e) := by
  rw [decoderF]
  simp only [json_decoders, List.map_cons, List.map_nil]
  rw [runRules_skip, runRules_skip, runRules]
  split <;> (rename_i heq; rw [heq])
  all_goals rfl

theorem decoderF_step_date (conv : Option (String → String)) (f : Nat)
    (jv : PyVal) :
    decoderF json_decoders conv (f+1) (.date) jv =
      (match decode_date ⟨f, decoderF json_decoders conv f,
          to_json_case_of conv⟩ (.date) jv with
      | .ok (Option.some x) => .ok x
      | .ok Option.none => .error (.unsupportedType (.date))
      | .error e => .error e) := by
  rw [decoderF]
  simp only [json_decoders, List.map_cons, List.map_nil]
  rw [runRules_skip, runRules_skip, runRules_skip, runRules]
  split <;> (rename_i heq; rw [heq])
  all_goals rfl

theorem decoderF_step_datetime (conv : Option (String → String)) (f : Nat)
    (jv : PyVal) :
    decoderF json_decoders conv (f+1) (.datetime) jv =
      (match decode_datetime ⟨f, decoderF json_decoders conv f,
          to_json_case_of conv⟩ (.datetime) jv with
      | .ok (Option.some x) => .ok x
      | .ok Option.none => .error (.unsupportedType (.datetime))
      | .error e => .error e) := by
  rw [decoderF]
  simp only [json_decoders, List.map_cons, List.map_nil]
  rw [runRules_skip, runRules_skip, runRules_skip, runRules_skip, runRules]
  split <;> (rename_i heq; rw [heq])
  all_goals rfl

theorem decoderF_step_time (conv : Option (String → String)) (f : Nat)
    (jv : PyVal) :
    decoderF json_decoders conv (f+1) (.time) jv =
      (match decode_time ⟨f, decoderF json_decoders conv f,
          to_json_case_of conv⟩ (.time) jv with
      | .ok (Option.some x) => .ok x
      | .ok Option.none => .error (.unsupportedType (.time))
      | .error e => .error e) := by
  rw [decoderF]
  simp only [json_decoders, List.map_cons, List.map_nil]
  rw [runRules_skip, runRules_skip, runRules_skip, runRules_skip,
    runRules_skip, runRules]
  split <;> (rename_i heq; rw [heq])
  all_goals rfl

theorem decoderF_step_UUID (conv : Option (String → String)) (f : Nat)
    (jv : PyVal) :
    decoderF json_decoders conv (f+1) (.UUID) jv =
      (match decode_uuid ⟨f, decoderF json_decoders conv f,
          to_json_case_of conv⟩ (.UUID) jv with
      | .ok (Option.some x) => .ok x
      | .ok Option.none => .error (.unsupportedType (.UUID))
      | .error e => .error e) := by
  rw [decoderF]
  simp only [json_decoders, List.map_cons, List.map_nil]
  rw [runRules_skip, runRules_skip, runRules_skip, runRules_skip,
    runRules_skip, runRules_skip, runRules]
  split <;> (rename_i heq; rw [heq])
  all_goals rfl

theorem decoderF_step_List (conv : Option (String → String)) (f : Nat)
    (a : Ty) (jv : PyVal) :
    decoderF json_decoders conv (f+1) (.List a) jv =
      (match decode_generic_list ⟨f, decoderF json_decoders conv f,
          to_json_case_of conv⟩ (.List a) jv with
      | .ok (Option.some x) => .ok x
      | .ok Option.none => .error (.unsupportedType (.List a))
      | .error e => .error e) := by
  rw [decoderF]
  simp only [json_decoders, List.map_cons, List.map_nil]
  rw [runRules_skip, runRules_skip, runRules_skip, runRules_skip,
    runRules_skip, runRules_skip, runRules_skip, runRules]
  split <;> (rename_i heq; rw [heq])
  all_goals rfl

theorem decoderF_step_Dict (conv : Option (String → String)) (f : Nat)
    (k a : Ty) (jv : PyVal) :
    decoderF json_decoders conv (f+1) (.Dict k a) jv =
      (match decode_generic_dict ⟨f, decoderF json_decoders conv f,
          to_json_case_of conv⟩ (.Dict k a) jv with
      | .ok (Option.some x) => .ok x
      | .ok Option.none => .error (.unsupportedType (.Dict k a))
      | .error e => .error e) := by
  rw [decoderF]
  simp only [json_decoders, List.map_cons, List.map_nil]
  rw [runRules_skip, runRules_skip, runRules_skip, runRules_skip,
    runRules_skip, runRules_skip, runRules_skip, runRules_skip, runRules]
  split <;> (rename_i heq; rw [heq])
  all_goals rfl

theorem decoderF_step_Tuple (conv : Option (String → String)) (f : Nat)
    (ts : List Ty) (jv : PyVal) :
    decoderF json_decoders conv (f+1) (.Tuple ts) jv =
      (match decode_generic_tuple ⟨f, decoderF json_decoders conv f,
          to_json_case_of conv⟩ (.Tuple ts) jv with
      | .ok (Option.some x) => .ok x
      | .ok Option.none => .error (.unsupportedType (.Tuple ts))
      | .error e => .error e) := by
  rw [decoderF]
  simp only [json_decoders, List.map_cons, List.map_nil]
  rw [runRules_skip, runRules_skip, runRules_skip, runRules_skip,
    runRules_skip, runRules_skip, runRules_skip, runRules_skip,
    runRules_skip, runRules]
  split <;> (rename_i heq; rw [heq])
  all_goals rfl

theorem decoderF_step_Set (conv : Option (String → String)) (f : Nat)
    (a : Ty) (jv : PyVal) :
    decoderF json_decoders conv (f+1) (.Set a) jv =
      (match decode_generic_set ⟨f, decoderF json_decoders conv f,
          to_json_case_of conv⟩ (.Set a) jv with
      | .ok (Option.some x) => .ok x
      | .ok Option.none => .error (.unsupportedType (.Set a))
      | .error e => .error e) := by
  rw [decoderF]
  simp only [json_decoders, List.map_cons, List.map_nil]
  rw [runRules_skip, runRules_skip, runRules_skip, runRules_skip,
    runRules_skip, runRules_skip, runRules_skip, runRules_skip,
    runRules_skip, runRules_skip, runRules]
  split <;> (rename_i heq; rw [heq])
  all_goals rfl

theorem decoderF_step_Union (conv : Option (String → String)) (f : Nat)
    (l : List Ty) (jv : PyVal) :
    decoderF json_decoders conv (f+1) (.Union l) jv =
      (match decode_union ⟨f, decoderF json_decoders conv f,
          to_json_case_of conv⟩ (.Union l) jv with
      | .ok (Option.some x) => .ok x
      | .ok Option.none => .error (.unsupportedType (.Union l))
      | .error e => .error e) := by
  rw [decoderF]
  simp only [json_decoders, List.map_cons, List.map_nil]
  rw [runRules_skip, runRules_skip, runRules_skip, runRules_skip,
    runRules_skip, runRules_skip, runRules_skip, runRules_skip,
    runRules_skip, runRules_skip, runRules_skip, runRules]
  split <;> (rename_i heq; rw [heq])
  all_goals rfl

theorem decoderF_step_dataclass (conv : Option (String → String)) (f : Nat)
    (cls : String) (fields : List (String × Ty)) (jv : PyVal) :
    decoderF json_decoders conv (f+1) (.dataclass cls fields) jv =
      (match decode_dataclass ⟨f, decoderF json_decoders conv f,
          to_json_case_of conv⟩ (.dataclass cls fields) jv with
      | .ok (Option.some x) => .ok x
      | .ok Option.none => .error (.unsupportedType (.dataclass cls fields))
      | .error e => .error e) := by
  rw [decoderF]
  simp only [json_decoders, List.map_cons, List.map_nil]
  rw [runRules_skip, runRules_skip, runRules_skip, runRules_skip,
    runRules_skip, runRules_skip, runRules_skip, runRules_skip,
    runRules_skip, runRules_skip, runRules_skip, runRules_skip, runRules]
  split <;> (rename_i heq; rw [heq])
  all_goals rfl

theorem decoderF_step_taggedUnion (conv : Option (String → String)) (f : Nat)
    (cls : String) (cases : List (String × Option Ty)) (jv : PyVal) :
    decoderF json_decoders conv (f+1) (.taggedUnion cls cases) jv =
      (match decode_tagged_union ⟨f, decoderF json_decoders conv f,
          to_json_case_of conv⟩ (.taggedUnion cls cases) jv with
      | .ok (Option.some x) => .ok x
      | .ok Option.none => .error (.unsupportedType (.taggedUnion cls cases))
      | .error e => .error e) := by
  rw [decoderF]
  simp only [json_decoders, List.map_cons, List.map_nil]
  rw [runRules_skip, runRules_skip, runRules_skip, runRules_skip,
    runRules_skip, runRules_skip, runRules_skip, runRules_skip,
    runRules_skip, runRules_skip, runRules_skip, runRules_skip,
    runRules_skip, runRules]
  split <;> (rename_i heq; rw [heq])
  all_goals rfl

theorem decoderF_step_Any (conv : Option (String → String)) (f : Nat)
    (jv : PyVal) :
    decoderF json_decoders conv (f+1) (.Any) jv =
      (match decode_any ⟨f, decoderF json_decoders conv f,
          to_json_case_of conv⟩ (.Any) jv with
      | .ok (Option.some x) => .ok x
      | .ok Option.none => .error (.unsupportedType (.Any))
      | .error e => .error e) := by
  rw [decoderF]
  simp only [json_decoders, List.map_cons, List.map_nil]
  rw [runRules_skip, runRules_skip, runRules_skip, runRules_skip,
    runRules_skip, runRules_skip, runRules_skip, runRules_skip,
    runRules_skip, runRules_skip, runRules_skip, runRules_skip,
    runRules_skip, runRules_skip, runRules]
  split <;> (rename_i heq; rw [heq])
  all_goals rfl

theorem encoderF_step_int (conv : Option (String → String)) (f : Nat)
    (v : PyVal) :
    encoderF json_encoders conv (f+1) v (some (.int)) =
      (match encode_primitive ⟨f, encoderF json_encoders conv f,
          to_json_case_of conv⟩ (.int) v with
      | .ok (Option.some x) => .ok x
      | .ok Option.none => .error (.unsupportedType (.int))
      | .error e => .error e) := by
  rw [encoderF]
  simp only [json_encoders, List.map_cons, List.map_nil]
  rw [runRules]
  split <;> (rename_i heq; rw [heq])
  all_goals rfl

theorem encoderF_step_float (conv : Option (String → String)) (f : Nat)
    (v : PyVal) :
    encoderF json_encoders conv (f+1) v (some (.float)) =
      (match encode_primitive ⟨f, encoderF json_encoders conv f,
          to_json_case_of conv⟩ (.float) v with
      | .ok (Option.some x) => .ok x
      | .ok Option.none => .error (.unsupportedType (.float))
      | .error e => .error e) := by
  rw [encoderF]
  simp only [json_encoders, List.map_cons, List.map_nil]
  rw [runRules]
  split <;> (rename_i heq; rw [heq])
  all_goals rfl

theorem encoderF_step_str (conv : Option (String → String)) (f : Nat)
    (v : PyVal) :
    encoderF json_encoders conv (f+1) v (some (.str)) =
      (match encode_primitive ⟨f, encoderF json_encoders conv f,
          to_json_case_of conv⟩ (.str) v with
      | .ok (Option.some x) => .ok x
      | .ok Option.none => .error (.unsupportedType (.str))
      | .error e => .error e) := by
  rw [encoderF]
  simp only [json_encoders, List.map_cons, List.map_nil]
  rw [runRules]
  split <;> (rename_i heq; rw [heq])
  all_goals rfl

theorem encoderF_step_bool (conv : Option (String → String)) (f : Nat)
    (v : PyVal) :
    encoderF json_encoders conv (f+1) v (some (.bool)) =
      (match encode_primitive ⟨f, encoderF json_encoders conv f,
          to_json_case_of conv⟩ (.bool) v with
      | .ok (Option.some x) => .ok x
      | .ok Option.none => .error (.unsupportedType (.bool))
      | .error e => .error e) := by
  rw [encoderF]
  simp only [json_encoders, List.map_cons, List.map_nil]
  rw [runRules]
  split <;> (rename_i heq; rw [heq])
  all_goals rfl

theorem encoderF_step_NoneType (conv : Option (String → String)) (f : Nat)
    (v : PyVal) :
    encoderF json_encoders conv (f+1) v (some (.NoneType)) =
      (match encode_primitive ⟨f, encoderF json_encoders conv f,
          to_json_case_of conv⟩ (.NoneType) v with
      | .ok (Option.some x) => .ok x
      | .ok Option.none => .error (.unsupportedType (.NoneType))
      | .error e => .error e) := by
  rw [encoderF]
  simp only [json_encoders, List.map_cons, List.map_nil]
  rw [runRules]
  split <;> (rename_i heq; rw [heq])
  all_goals rfl

theorem encoderF_step_char (conv : Option (String → String)) (f : Nat)
    (v : PyVal) :
    encoderF json_encoders conv (f+1) v (some (.char)) =
      (match encode_char ⟨f, encoderF json_encoders conv f,
          to_json_case_of conv⟩ (.char) v with
      | .ok (Option.some x) => .ok x
      | .ok Option.none => .error (.unsupportedType (.char))
      | .error e => .error e) := by
  rw [encoderF]
  simp only [json_encoders, List.map_cons, List.map_nil]
  rw [runRules_skip, runRules]
  split <;> (rename_i heq; rw [heq])
  all_goals rfl

theorem encoderF_step_Decimal (conv : Option (String → String)) (f : Nat)
    (v : PyVal) :
    encoderF json_encoders conv (f+1) v (some (.Decimal)) =
      (match encode_decimal ⟨f, encoderF json_encoders conv f,
          to_json_case_of conv⟩ (.Decimal) v with
      | .ok (Option.some x) => .ok x
      | .ok Option.none => .error (.unsupportedType (.Decimal))
      | .error e => .error e) := by
  rw [encoderF]
  simp only [json_encoders, List.map_cons, List.map_nil]
  rw [runRules_skip, runRules_skip, runRules]
  split <;> (rename_i heq; rw [heq])
  all_goals rfl

theorem encoderF_step_date (conv : Option (String → String)) (f : Nat)
    (v : PyVal) :
    encoderF json_encoders conv (f+1) v (some (.date)) =
      (match encode_date ⟨f, encoderF json_encoders conv f,
          to_json_case_of conv⟩ (.date) v with
      | .ok (Option.some x) => .ok x
      | .ok Option.none => .error (.unsupportedType (.date))
      | .error e => .error e) := by
  rw [encoderF]
  simp only [json_encoders, List.map_cons, List.map_nil]
  rw [runRules_skip, runRules_skip, runRules_skip, runRules]
  split <;> (rename_i heq; rw [heq])
  all_goals rfl

theorem encoderF_step_datetime (conv : Option (String → String)) (f : Nat)
    (v : PyVal) :
    encoderF json_encoders conv (f+1) v (some (.datetime)) =
      (match encode_datetime ⟨f, encoderF json_encoders conv f,
          to_json_case_of conv⟩ (.datetime) v with
      | .ok (Option.some x) => .ok x
      | .ok Option.none => .error (.unsupportedType (.datetime))
      | .error e => .error e) := by
  rw [encoderF]
  simp only [json_encoders, List.map_cons, List.map_nil]
  rw [runRules_skip, runRules_skip, runRules_skip, runRules_skip, runRules]
  split <;> (rename_i heq; rw [heq])
  all_goals rfl

theorem encoderF_step_time (conv : Option (String → String)) (f : Nat)
    (v : PyVal) :
    encoderF json_encoders conv (f+1) v (some (.time)) =
      (match encode_time ⟨f, encoderF json_encoders conv f,
          to_json_case_of conv⟩ (.time) v with
      | .ok (Option.some x) => .ok x
      | .ok Option.none => .error (.unsupportedType (.time))
      | .error e => .error e) := by
  rw [encoderF]
  simp only [json_encoders, List.map_cons, List.map_nil]
  rw [runRules_skip, runRules_skip, runRules_skip, runRules_skip,
    runRules_skip, runRules]
  split <;> (rename_i heq; rw [heq])
  all_goals rfl

theorem encoderF_step_UUID (conv : Option (String → String)) (f : Nat)
    (v : PyVal) :
    encoderF json_encoders conv (f+1) v (some (.UUID)) =
      (match encode_uuid ⟨f, encoderF json_encoders conv f,
          to_json_case_of conv⟩ (.UUID) v with
      | .ok (Option.some x) => .ok x
      | .ok Option.none => .error (.unsupportedType (.UUID))
      | .error e => .error e) := by
  rw [encoderF]
  simp only [json_encoders, List.map_cons, List.map_nil]
  rw [runRules_skip, runRules_skip, runRules_skip, runRules_skip,
    runRules_skip, runRules_skip, runRules]
  split <;> (rename_i heq; rw [heq])
  all_goals rfl

theorem encoderF_step_List (conv : Option (String → String)) (f : Nat)
    (a : Ty) (v : PyVal) :
    encoderF json_encoders conv (f+1) v (some (.List a)) =
      (match encode_generic_list ⟨f, encoderF json_encoders conv f,
          to_json_case_of conv⟩ (.List a) v with
      | .ok (Option.some x) => .ok x
      | .ok Option.none => .error (.unsupportedType (.List a))
      | .error e => .error e) := by
  rw [encoderF]
  simp only [json_encoders, List.map_cons, List.map_nil]
  rw [runRules_skip, runRules_skip, runRules_skip, runRules_skip,
    runRules_skip, runRules_skip, runRules_skip, runRules]
  split <;> (rename_i heq; rw [heq])
  all_goals rfl

theorem encoderF_step_Dict (conv : Option (String → String)) (f : Nat)
    (k a : Ty) (v : PyVal) :
    encoderF json_encoders conv (f+1) v (some (.Dict k a)) =
      (match encode_generic_dict ⟨f, encoderF json_encoders conv f,
          to_json_case_of conv⟩ (.Dict k a) v with
      | .ok (Option.some x) => .ok x
      | .ok Option.none => .error (.unsupportedType (.Dict k a))
      | .error e => .error e) := by
  rw [encoderF]
  simp only [json_encoders, List.map_cons, List.map_nil]
  rw [runRules_skip, runRules_skip, runRules_skip, runRules_skip,
    runRules_skip, runRules_skip, runRules_skip, runRules_skip, runRules]
  split <;> (rename_i heq; rw [heq])
  all_goals rfl

theorem encoderF_step_Tuple (conv : Option (String → String)) (f : Nat)
    (ts : List Ty) (v : PyVal) :
    encoderF json_encoders conv (f+1) v (some (.Tuple ts)) =
      (match encode_generic_tuple ⟨f, encoderF json_encoders conv f,
          to_json_case_of conv⟩ (.Tuple ts) v with
      | .ok (Option.some x) => .ok x
      | .ok Option.none => .error (.unsupportedType (.Tuple ts))
      | .error e => .error e) := by
  rw [encoderF]
  simp only [json_encoders, List.map_cons, List.map_nil]
  rw [runRules_skip, runRules_skip, runRules_skip, runRules_skip,
    runRules_skip, runRules_skip, runRules_skip, runRules_skip,
    runRules_skip, runRules]
  split <;> (rename_i heq; rw [heq])
  all_goals rfl

theorem encoderF_step_Set (conv : Option (String → String)) (f : Nat)
    (a : Ty) (v : PyVal) :
    encoderF json_encoders conv (f+1) v (some (.Set a)) =
      (match encode_generic_set ⟨f, encoderF json_encoders conv f,
          to_json_case_of conv⟩ (.Set a) v with
      | .ok (Option.some x) => .ok x
      | .ok Option.none => .error (.unsupportedType (.Set a))
      | .error e => .error e) := by
  rw [encoderF]
  simp only [json_encoders, List.map_cons, List.map_nil]
  rw [runRules_skip, runRules_skip, runRules_skip, runRules_skip,
    runRules_skip, runRules_skip, runRules_skip, runRules_skip,
    runRules_skip, runRules_skip, runRules]
  split <;> (rename_i heq; rw [heq])
  all_goals rfl

theorem encoderF_step_Union (conv : Option (String → String)) (f : Nat)
    (l : List Ty) (v : PyVal) :
    encoderF json_encoders conv (f+1) v (some (.Union l)) =
      (match encode_union ⟨f, encoderF json_encoders conv f,
          to_json_case_of conv⟩ (.Union l) v with
      | .ok (Option.some x) => .ok x
      | .ok Option.none => .error (.unsupportedType (.Union l))
      | .error e => .error e) := by
  rw [encoderF]
  simp only [json_encoders, List.map_cons, List.map_nil]
  rw [runRules_skip, runRules_skip, runRules_skip, runRules_skip,
    runRules_skip, runRules_skip, runRules_skip, runRules_skip,
    runRules_skip, runRules_skip, runRules_skip, runRules]
  split <;> (rename_i heq; rw [heq])
  all_goals rfl

theorem encoderF_step_dataclass (conv : Option (String → String)) (f : Nat)
    (cls : String) (fields : List (String × Ty)) (v : PyVal) :
    encoderF json_encoders conv (f+1) v (some (.dataclass cls fields)) =
      (match encode_dataclass ⟨f, encoderF json_encoders conv f,
          to_json_case_of conv⟩ (.dataclass cls fields) v with
      | .ok (Option.some x) => .ok x
      | .ok Option.none => .error (.unsupportedType (.dataclass cls fields))
      | .error e => .error e) := by
  rw [encoderF]
  simp only [json_encoders, List.map_cons, List.map_nil]
  rw [runRules_skip, runRules_skip, runRules_skip, runRules_skip,
    runRules_skip, runRules_skip, runRules_skip, runRules_skip,
    runRules_skip, runRules_skip, runRules_skip, runRules_skip, runRules]
  split <;> (rename_i heq; rw [heq])
  all_goals rfl

theorem encoderF_step_taggedUnion (conv : Option (String → String)) (f : Nat)
    (cls : String) (cases : List (String × Option Ty)) (v : PyVal) :
    encoderF json_encoders conv (f+1) v (some (.taggedUnion cls cases)) =
      (match encode_tagged_union ⟨f, encoderF json_encoders conv f,
          to_json_case_of conv⟩ (.taggedUnion cls cases) v with
      | .ok (Option.some x) => .ok x
      | .ok Option.none => .error (.unsupportedType (.taggedUnion cls cases))
      | .error e => .error e) := by
  rw [encoderF]
  simp only [json_encoders, List.map_cons, List.map_nil]
  rw [runRules_skip, runRules_skip, runRules_skip, runRules_skip,
    runRules_skip, runRules_skip, runRules_skip, runRules_skip,
    runRules_skip, runRules_skip, runRules_skip, runRules_skip,
    runRules_skip, runRules]
  split <;> (rename_i heq; rw [heq])
  all_goals rfl

theorem encoderF_step_Any (conv : Option (String → String)) (f : Nat)
    (v : PyVal) :
    encoderF json_encoders conv (f+1) v (some (.Any)) =
      (match encode_any ⟨f, encoderF json_encoders conv f,
          to_json_case_of conv⟩ (.Any) v with
      | .ok (Option.some x) => .ok x
      | .ok Option.none => .error (.unsupportedType (.Any))
      | .error e => .error e) := by
  rw [encoderF]
  simp only [json_encoders, List.map_cons, List.map_nil]
  rw [runRules_skip, runRules_skip, runRules_skip, runRules_skip,
    runRules_skip, runRules_skip, runRules_skip, runRules_skip,
    runRules_skip, runRules_skip, runRules_skip, runRules_skip,
    runRules_skip, runRules_skip, runRules]
  split <;> (rename_i heq; rw [heq])
  all_goals rfl

theorem encoderF_step_list (conv : Option (String → String)) (f : Nat)
    (v : PyVal) :
    encoderF json_encoders conv (f+1) v (some (.list)) =
      (match encode_list ⟨f, encoderF json_encoders conv f,
          to_json_case_of conv⟩ (.list) v with
      | .ok (Option.some x) => .ok x
      | .ok Option.none => .error (.unsupportedType (.list))
      | .error e => .error e) := by
  rw [encoderF]
  simp only [json_encoders, List.map_cons, List.map_nil]
  rw [runRules_skip, runRules_skip, runRules_skip, runRules_skip,
    runRules_skip, runRules_skip, runRules_skip, runRules_skip,
    runRules_skip, runRules_skip, runRules_skip, runRules_skip,
    runRules_skip, runRules_skip, runRules_skip, runRules]
  split <;> (rename_i heq; rw [heq])
  all_goals rfl

theorem encoderF_step_dict (conv : Option (String → String)) (f : Nat)
    (v : PyVal) :
    encoderF json_encoders conv (f+1) v (some (.dict)) =
      (match encode_dict ⟨f, encoderF json_encoders conv f,
          to_json_case_of conv⟩ (.dict) v with
      | .ok (Option.some x) => .ok x
      | .ok Option.none => .error (.unsupportedType (.dict))
      | .error e => .error e) := by
  rw [encoderF]
  simp only [json_encoders, List.map_cons, List.map_nil]
  rw [runRules_skip, runRules_skip, runRules_skip, runRules_skip,
    runRules_skip, runRules_skip, runRules_skip, runRules_skip,
    runRules_skip, runRules_skip, runRules_skip, runRules_skip,
    runRules_skip, runRules_skip, runRules_skip, runRules_skip, runRules]
  split <;> (rename_i heq; rw [heq])
  all_goals rfl

theorem encoderF_step_tuple (conv : Option (String → String)) (f : Nat)
    (v : PyVal) :
    encoderF json_encoders conv (f+1) v (some (.tuple)) =
      (match encode_tuple ⟨f, encoderF json_encoders conv f,
          to_json_case_of conv⟩ (.tuple) v with
      | .ok (Option.some x) => .ok x
      | .ok Option.none => .error (.unsupportedType (.tuple))
      | .error e => .error e) := by
  rw [encoderF]
  simp only [json_encoders, List.map_cons, List.map_nil]
  rw [runRules_skip, runRules_skip, runRules_skip, runRules_skip,
    runRules_skip, runRules_skip, runRules_skip, runRules_skip,
    runRules_skip, runRules_skip, runRules_skip, runRules_skip,
    runRules_skip, runRules_skip, runRules_skip, runRules_skip,
    runRules_skip, runRules]
  split <;> (rename_i heq; rw [heq])
  all_goals rfl

theorem encoderF_step_set (conv : Option (String → String)) (f : Nat)
    (v : PyVal) :
    encoderF json_encoders conv (f+1) v (some (.set)) =
      (match encode_set ⟨f, encoderF json_encoders conv f,
          to_json_case_of conv⟩ (.set) v with
      | .ok (Option.some x) => .ok x
      | .ok Option.none => .error (.unsupportedType (.set))
      | .error e => .error e) := by
  rw [encoderF]
  simp only [json_encoders, List.map_cons, List.map_nil]
  rw [runRules_skip, runRules_skip, runRules_skip, runRules_skip,
    runRules_skip, runRules_skip, runRules_skip, runRules_skip,
    runRules_skip, runRules_skip, runRules_skip, runRules_skip,
    runRules_skip, runRules_skip, runRules_skip, runRules_skip,
    runRules_skip, runRules_skip, runRules]
  split <;> (rename_i heq; rw [heq])
  all_goals rfl

/-- An absent declared type falls back to the value's runtime class
(`typ/encoding.py` line 382). -/
theorem encoderF_noTy (encoders : List EncodeFunc)
    (conv : Option (String → String)) (f : Nat) (v : PyVal) :
    encoderF encoders conv (f+1) v Option.none =
      encoderF encoders conv (f+1) v (some (rtypeTy v)) := rfl

/-! ## Traversal helpers -/

theorem mapM_ok_of_forall {α β : Type} (g : α → Except Err β) :
    ∀ xs : List α, (∀ x ∈ xs, ∃ y, g x = .ok y) →
    ∃ ys, xs.mapM g = .ok ys ∧ xs.length = ys.length ∧
      ∀ p ∈ xs.zip ys, g p.1 = .ok p.2 := by
  intro xs
  induction xs with
  | nil =>
    intro _
    exact ⟨[], rfl, rfl, by simp⟩
  | cons x xs ih =>
    intro h
    obtain ⟨y, hy⟩ := h x (List.mem_cons_self x xs)
    obtain ⟨ys, hys, hlen, hall⟩ :=
      ih fun a ha => h a (List.mem_cons_of_mem x ha)
    refine ⟨y :: ys, ?_, by simp [hlen], ?_⟩
    · rw [List.mapM_cons, hy, hys]
      rfl
    · intro p hp
      rw [List.zip_cons_cons, List.mem_cons] at hp
      rcases hp with rfl | hp2
      · exact hy
      · exact hall p hp2

theorem mapM_error_src {α β : Type} (g : α → Except Err β) :
    ∀ (xs : List α) (e : Err), xs.mapM g = .error e →
    ∃ x ∈ xs, g x = .error e := by
  intro xs
  induction xs with
  | nil =>
    intro e h
    exact absurd h (by rw [List.mapM_nil]; exact fun hc => Except.noConfusion hc)
  | cons x xs ih =>
    intro e h
    rw [List.mapM_cons] at h
    cases hgx : g x with
    | error e2 =>
      rw [hgx] at h
      replace h : (Except.error e2 : Except Err (List β)) = .error e := h
      injection h with he
      exact ⟨x, List.mem_cons_self x xs, he ▸ hgx⟩
    | ok y =>
      rw [hgx] at h
      cases hrest : xs.mapM g with
      | error e2 =>
        rw [hrest] at h
        replace h : (Except.error e2 : Except Err (List β)) = .error e := h
        injection h with he
        obtain ⟨a, ha, hae⟩ := ih e2 hrest
        exact ⟨a, List.mem_cons_of_mem x ha, he ▸ hae⟩
      | ok ys =>
        rw [hrest] at h
        exact absurd h (fun hc => Except.noConfusion hc)

/-! ## Optional handling: `None`/`null` rejection by the non-None alternative -/

theorem WF_not_none : ∀ (a : Ty) (v : PyVal), optInner a = true → WF a v →
    v ≠ .none := by
  intro a v ha h
  cases h <;> simp [optInner] at ha ⊢

theorem enc_none_reject (f : Nat) (a : Ty) (ha : optInner a = true) :
    ∃ e, encoderF json_encoders Option.none (f+1) .none (some a) = .error e ∧
      e.isJsonError = true := by
  cases a <;> simp [optInner] at ha <;> exact ⟨_, rfl, rfl⟩

theorem dec_null_reject (f : Nat) (a : Ty) (ha : optInner a = true) :
    ∃ e, decoderF json_decoders Option.none (f+1) a .none = .error e ∧
      e.isJsonError = true := by
  cases a <;> simp [optInner] at ha <;> exact ⟨_, rfl, rfl⟩

theorem dec_null_reject_all (f : Nat) (a : Ty) (ha : nullRejecting a = true) :
    ∃ e, decoderF json_decoders Option.none (f+1) a .none = .error e ∧
      e.isJsonError = true := by
  cases a <;> simp [nullRejecting] at ha <;> exact ⟨_, rfl, rfl⟩

/-! ## Pointwise facts transported along a traversal -/

theorem zip_prop_of_mapM {α β : Type} (g : α → Except Err β) (P : α → β → Prop)
    (xs : List α) (ys : List β) (hall : ∀ p ∈ xs.zip ys, g p.1 = .ok p.2)
    (hex : ∀ x ∈ xs, ∃ y, g x = .ok y ∧ P x y) :
    ∀ p ∈ xs.zip ys, P p.1 p.2 := by
  intro p hp
  obtain ⟨y, hy, hP⟩ := hex p.1 (List.of_mem_zip hp).1
  have heq := (hall p hp).symm.trans hy
  injection heq with h2
  rw [h2]
  exact hP

theorem dictGet_nodup (kvs : List (String × PyVal)) (k : String) (w : PyVal)
    (hnd : (kvs.map Prod.fst).Nodup) (hm : (k, w) ∈ kvs) : dictGet kvs k = w := by
  unfold dictGet
  have h2 : kvs.find? (fun kv => kv.1 == k) = some (k, w) :=
    find?_of_nodup_keys kvs (k, w) hnd hm
  rw [h2]

theorem pairwise_not_pyEq_transport : ∀ (rs xs : List PyVal),
    rs.length = xs.length → (∀ p ∈ rs.zip xs, pyEq p.1 p.2) →
    xs.Pairwise (fun a b => ¬ pyEq a b) →
    rs.Pairwise (fun a b => ¬ pyEq a b) := by
  intro rs
  induction rs with
  | nil => exact fun xs _ _ _ => List.Pairwise.nil
  | cons r rs ih =>
    intro xs hlen hall hp
    cases xs with
    | nil => simp at hlen
    | cons x xs =>
      rw [List.zip_cons_cons] at hall
      have h1 : pyEq r x := hall (r, x) (List.mem_cons_self _ _)
      have hrest : ∀ p ∈ rs.zip xs, pyEq p.1 p.2 :=
        fun p hp' => hall p (List.mem_cons_of_mem _ hp')
      rw [List.pairwise_cons] at hp ⊢
      constructor
      · intro b hb hrb
        obtain ⟨⟨i, hilt⟩, hbi⟩ := List.mem_iff_get.mp hb
        have hix : i < xs.length := by
          simp at hlen
          omega
        have hpy := (forall_zip_iff_get rs xs).mp hrest i hilt hix
        have hyx : xs.get ⟨i, hix⟩ ∈ xs := xs.get_mem i hix
        have hxb : ¬ pyEq x (xs.get ⟨i, hix⟩) := hp.1 _ hyx
        rw [hbi] at hpy
        exact hxb (pyEq_trans (pyEq_symm h1) (pyEq_trans hrb hpy))
      · exact ih xs (by simp at hlen ⊢; omega) hrest hp.2

theorem union_alts_after_error (enc : EncSelf) (T : Ty) (v : PyVal) (a : Ty)
    (rest : List Ty) (e : Err) (he : enc.encode v (some a) = .error e)
    (hej : e.isJsonError = true) :
    encode_union_alts enc T v (a :: rest) = encode_union_alts enc T v rest := by
  rw [encode_union_alts, he]
  show (if e.isJsonError = true then encode_union_alts enc T v rest
    else Except.error e) = encode_union_alts enc T v rest
  rw [hej]
  rfl

theorem union_alts_ok (enc : EncSelf) (T : Ty) (v : PyVal) (a : Ty)
    (rest : List Ty) (j : PyVal) (hj : enc.encode v (some a) = .ok j) :
    encode_union_alts enc T v (a :: rest) = .ok (some j) := by
  rw [encode_union_alts, hj]
  rfl

theorem dec_union_alts_after_error (dec : DecSelf) (T : Ty) (jv : PyVal)
    (a : Ty) (rest : List Ty) (e : Err) (he : dec.decode a jv = .error e)
    (hej : e.isJsonError = true) :
    decode_union_alts dec T jv (a :: rest) = decode_union_alts dec T jv rest := by
  rw [decode_union_alts, he]
  show (if e.isJsonError = true then decode_union_alts dec T jv rest
    else Except.error e) = decode_union_alts dec T jv rest
  rw [hej]
  rfl

theorem dec_union_alts_ok (dec : DecSelf) (T : Ty) (jv : PyVal) (a : Ty)
    (rest : List Ty) (r : PyVal) (hr : dec.decode a jv = .ok r) :
    decode_union_alts dec T jv (a :: rest) = .ok (some r) := by
  rw [decode_union_alts, hr]
  rfl

theorem forall_zip_map_left {α α2 β : Type} (m : α → α2) (P : α2 → β → Prop) :
    ∀ (xs : List α) (ys : List β),
      (∀ p ∈ (xs.map m).zip ys, P p.1 p.2) →
      ∀ q ∈ xs.zip ys, P (m q.1) q.2 := by
  intro xs
  induction xs with
  | nil =>
    intro ys _ q hq
    simp at hq
  | cons x xs ih =>
    intro ys h q hq
    cases ys with
    | nil => simp at hq
    | cons y ys =>
      rw [List.map_cons, List.zip_cons_cons] at h
      rw [List.zip_cons_cons, List.mem_cons] at hq
      rcases hq with rfl | hq2
      · exact h (m x, y) (List.mem_cons_self _ _)
      · exact ih ys (fun p hp => h p (List.mem_cons_of_mem _ hp)) q hq2

set_option maxHeartbeats 4000000 in
theorem enc_total : ∀ (f : Nat) (t : Ty) (v : PyVal), SafeTy t → WF t v →
    sizeOf t + sizeOf v ≤ f →
    ∃ j, Wire t v j ∧
      encoderF json_encoders Option.none f v (some t) = .ok j := by
  intro f
  induction f with
  | zero =>
    intro t v _ _ hs
    have h1 := ty_sizeOf_pos t
    have h2 := pv_sizeOf_pos v
    omega
  | succ f ih =>
    intro t v hst hwf hs
    cases hst with
    | int =>
      cases hwf with
      | int n => exact ⟨_, .int n, rfl⟩
    | float =>
      cases hwf with
      | float q => exact ⟨_, .float q, rfl⟩
    | str =>
      cases hwf with
      | str s => exact ⟨_, .str s, rfl⟩
    | bool =>
      cases hwf with
      | bool b => exact ⟨_, .bool b, rfl⟩
    | NoneType =>
      cases hwf with
      | noneV => exact ⟨_, .noneV, rfl⟩
    | char =>
      cases hwf with
      | char s hlen => exact ⟨_, .char s, rfl⟩
    | date =>
      cases hwf with
      | date y m d h1 h2 h3 h4 h5 h6 => exact ⟨_, .date y m d, rfl⟩
    | datetime =>
      cases hwf with
      | datetime y mo d h mi s us off hy1 hy2 hm1 hm2 hd1 hd2 hh hmi hsec hus hoff =>
        exact ⟨_, .datetime y mo d h mi s us (some off), rfl⟩
    | time =>
      cases hwf with
      | time h mi s hh hmi hsec =>
        exact ⟨_, .time h mi s 0 Option.none, rfl⟩
    | UUID =>
      cases hwf with
      | uuid u h32 hhex hnd hlow => exact ⟨_, .uuid u, rfl⟩
    | List a hsta =>
      cases hwf with
      | list _ xs hx =>
        simp at hs
        have hex : ∀ x ∈ xs, ∃ y,
            encoderF json_encoders Option.none f x (some a) = .ok y ∧
              Wire a x y := by
          intro x hx2
          have hb := List.sizeOf_lt_of_mem hx2
          obtain ⟨j, hw, hj⟩ := ih a x hsta (hx x hx2) (by omega)
          exact ⟨j, hj, hw⟩
        obtain ⟨js, hmap, hlen, hall⟩ := mapM_ok_of_forall
          (fun x => encoderF json_encoders Option.none f x (some a)) xs
          (fun x hx2 => ((hex x hx2).imp fun y hy => hy.1))
        have hwires : ∀ p ∈ xs.zip js, Wire a p.1 p.2 :=
          zip_prop_of_mapM _ _ xs js hall hex
        refine ⟨.list js, .list a xs js hlen hwires, ?_⟩
        rw [encoderF_step_List]
        have hrule : encode_generic_list ⟨f, encoderF json_encoders Option.none f,
            to_json_case_of Option.none⟩ (.List a) (.list xs)
            = .ok (some (.list js)) := by
          show Except.bind (xs.mapM fun item =>
              encoderF json_encoders Option.none f item (some a))
            (fun ys => Except.ok (some (PyVal.list ys)))
            = Except.ok (some (PyVal.list js))
          rw [hmap]
          rfl
        rw [hrule]
    | Dict a hsta =>
      cases hwf with
      | dict _ kvs hkv =>
        simp at hs
        have hex : ∀ kv ∈ kvs, ∃ y,
            (do
              let w ← encoderF json_encoders Option.none f kv.2 (some a)
              pure (kv.1, w) : Except Err (String × PyVal)) = .ok y ∧
              (y.1 = kv.1 ∧ Wire a kv.2 y.2) := by
          intro kv hkv2
          have hb := List.sizeOf_lt_of_mem hkv2
          have hb2 := snd_sizeOf_lt kv
          obtain ⟨j, hw, hj⟩ := ih a kv.2 hsta (hkv kv hkv2) (by omega)
          refine ⟨(kv.1, j), ?_, rfl, hw⟩
          rw [hj]
          rfl
        obtain ⟨js, hmap, hlen, hall⟩ := mapM_ok_of_forall
          (fun kv => do
            let w ← encoderF json_encoders Option.none f kv.2 (some a)
            pure (kv.1, w)) kvs
          (fun kv hkv2 => ((hex kv hkv2).imp fun y hy => hy.1))
        have hprops : ∀ p ∈ kvs.zip js, p.2.1 = p.1.1 ∧ Wire a p.1.2 p.2.2 :=
          zip_prop_of_mapM _ _ kvs js hall hex
        refine ⟨.dict js, .dict a kvs js hlen
          (fun p hp => (hprops p hp).1) (fun p hp => (hprops p hp).2), ?_⟩
        rw [encoderF_step_Dict]
        have hrule : encode_generic_dict ⟨f, encoderF json_encoders Option.none f,
            to_json_case_of Option.none⟩ (.Dict .str a) (.dict kvs)
            = .ok (some (.dict js)) := by
          show Except.bind (kvs.mapM fun kv => do
              let w ← encoderF json_encoders Option.none f kv.2 (some a)
              pure (kv.1, w))
            (fun ys => Except.ok (some (PyVal.dict ys)))
            = Except.ok (some (PyVal.dict js))
          rw [hmap]
          rfl
        rw [hrule]
    | Set a hsta hsc =>
      cases hwf with
      | set _ xs hx hpw =>
        simp at hs
        have hex : ∀ x ∈ xs, ∃ y,
            encoderF json_encoders Option.none f x (some a) = .ok y ∧
              Wire a x y := by
          intro x hx2
          have hb := List.sizeOf_lt_of_mem hx2
          obtain ⟨j, hw, hj⟩ := ih a x hsta (hx x hx2) (by omega)
          exact ⟨j, hj, hw⟩
        obtain ⟨js, hmap, hlen, hall⟩ := mapM_ok_of_forall
          (fun x => encoderF json_encoders Option.none f x (some a)) xs
          (fun x hx2 => ((hex x hx2).imp fun y hy => hy.1))
        have hwires : ∀ p ∈ xs.zip js, Wire a p.1 p.2 :=
          zip_prop_of_mapM _ _ xs js hall hex
        refine ⟨.list js, .set a xs js hlen hwires, ?_⟩
        rw [encoderF_step_Set]
        have hrule : encode_generic_set ⟨f, encoderF json_encoders Option.none f,
            to_json_case_of Option.none⟩ (.Set a) (.set xs)
            = .ok (some (.list js)) := by
          show Except.bind (xs.mapM fun item =>
              encoderF json_encoders Option.none f item (some a))
            (fun ys => Except.ok (some (PyVal.list ys)))
            = Except.ok (some (PyVal.list js))
          rw [hmap]
          rfl
        rw [hrule]
    | opt a hsta hoi =>
      cases hwf with
      | optNone _ =>
        simp at hs
        obtain ⟨f2, rfl⟩ : ∃ f2, f = f2+1 := ⟨f-1, by omega⟩
        obtain ⟨e, he, hej⟩ := enc_none_reject f2 a hoi
        refine ⟨.none, .optNone a, ?_⟩
        rw [encoderF_step_Union]
        have halts : encode_union_alts ⟨f2+1,
            encoderF json_encoders Option.none (f2+1),
            to_json_case_of Option.none⟩ (.Union [a, .NoneType]) .none
            [a, .NoneType] = .ok (some .none) := by
          rw [union_alts_after_error _ _ _ _ _ e he hej]
          rfl
        have hrule : encode_union ⟨f2+1,
            encoderF json_encoders Option.none (f2+1),
            to_json_case_of Option.none⟩ (.Union [a, .NoneType]) .none
            = .ok (some .none) := by
          rw [show encode_union ⟨f2+1,
              encoderF json_encoders Option.none (f2+1),
              to_json_case_of Option.none⟩ (.Union [a, .NoneType]) .none
              = encode_union_alts ⟨f2+1,
              encoderF json_encoders Option.none (f2+1),
              to_json_case_of Option.none⟩ (.Union [a, .NoneType]) .none
              [a, .NoneType] from rfl, halts]
        rw [hrule]
      | optSome _ _ hwv =>
        have hnn := WF_not_none a v hoi hwv
        simp at hs
        obtain ⟨j, hw, hj⟩ := ih a v hsta hwv (by omega)
        refine ⟨j, .optSome a v j hnn hw, ?_⟩
        rw [encoderF_step_Union]
        have hrule : encode_union ⟨f, encoderF json_encoders Option.none f,
            to_json_case_of Option.none⟩ (.Union [a, .NoneType]) v
            = .ok (some j) := by
          show encode_union_alts ⟨f, encoderF json_encoders Option.none f,
              to_json_case_of Option.none⟩ (.Union [a, .NoneType]) v
              [a, .NoneType] = Except.ok (some j)
          exact union_alts_ok _ _ _ _ _ j hj
        rw [hrule]
    | taggedUnion cls cases0 hcT hcS hndc =>
      cases hwf with
      | ucase _ _ nm mt pv hmem hmtnone hmtsome =>
        cases mt with
        | none =>
          have hpv := hmtnone rfl
          subst hpv
          simp at hs
          obtain ⟨f2, rfl⟩ : ∃ f2, f = f2+1 := ⟨f-1, by omega⟩
          exact ⟨.dict [(nm, .none)], .ucaseNone cls cases0 nm, rfl⟩
        | some u =>
          have hwu := hmtsome u rfl
          have hstu := hcT (nm, some u) hmem u rfl
          have hb1 := List.sizeOf_lt_of_mem hmem
          simp at hs hb1
          obtain ⟨j, hwj, hj⟩ := ih u pv hstu hwu (by omega)
          refine ⟨.dict [(nm, j)], .ucaseSome cls cases0 nm u pv j hwj, ?_⟩
          rw [encoderF_step_taggedUnion]
          have hrule : encode_tagged_union ⟨f,
              encoderF json_encoders Option.none f,
              to_json_case_of Option.none⟩ (.taggedUnion cls cases0)
              (.ucase cls nm (some u) pv) = .ok (some (.dict [(nm, j)])) := by
            show Except.bind (encoderF json_encoders Option.none f pv (some u))
              (fun w => Except.ok (some (PyVal.dict [(nm, w)])))
              = Except.ok (some (PyVal.dict [(nm, j)]))
            rw [hj]
            rfl
          rw [hrule]
    | dataclass cls fields hflds hnd =>
      cases hwf with
      | record _ _ vfs hmapf hvf =>
        simp at hs
        have hkeys : vfs.map Prod.fst = fields.map Prod.fst := by
          rw [← hmapf, List.map_map]
          rfl
        have hndv : (vfs.map Prod.fst).Nodup := by
          rw [hkeys]
          exact hnd
        have hlenfv : fields.length = vfs.length := by
          rw [← hmapf]
          simp
        have hex : ∀ fld ∈ fields, ∃ y,
            (do
              let x ←
                match vfs.find? fun e => e.1 == fld.1 with
                | Option.some e => pure e.2.2
                | Option.none => throw (.keyError (some fld.1))
              let w ← encoderF json_encoders Option.none f x (some fld.2)
              pure (to_json_case_of Option.none fld.1, w)
              : Except Err (String × PyVal)) = .ok y ∧
            (y.1 = fld.1 ∧ ∀ e2, vfs.find? (fun e => e.1 == fld.1) = some e2 →
              Wire e2.2.1 e2.2.2 y.2) := by
          intro fld hfld
          have hfld2 := hfld
          rw [← hmapf] at hfld2
          obtain ⟨e0, he0, heq⟩ := List.mem_map.mp hfld2
          have hf1 : fld.1 = e0.1 := by rw [← heq]
          have hf2 : fld.2 = e0.2.1 := by rw [← heq]
          have hfind : vfs.find? (fun e => e.1 == fld.1) = some e0 := by
            rw [show (fun e : String × Ty × PyVal => e.1 == fld.1)
                = (fun e => e.1 == e0.1) from by rw [hf1]]
            exact find?_of_nodup_keys vfs e0 hndv he0
          have hwfe : WF fld.2 e0.2.2 := by
            rw [hf2]
            exact hvf e0 he0
          have hb1 := List.sizeOf_lt_of_mem hfld
          have hb2 := snd_sizeOf_lt fld
          have hb3 := List.sizeOf_lt_of_mem he0
          have hb4 := trd_sizeOf_lt e0
          obtain ⟨j, hwj, hj⟩ := ih fld.2 e0.2.2 (hflds fld hfld) hwfe (by omega)
          refine ⟨(fld.1, j), ?_, rfl, ?_⟩
          · rw [hfind]
            show Except.bind
              (encoderF json_encoders Option.none f e0.2.2 (some fld.2))
              (fun w => Except.ok (fld.1, w)) = Except.ok (fld.1, j)
            rw [hj]
            rfl
          · intro e2 he2
            rw [hfind] at he2
            injection he2 with he3
            subst he3
            rw [hf2] at hwj
            exact hwj
        obtain ⟨js, hmap, hlen, hall⟩ := mapM_ok_of_forall
          (fun fld : String × Ty => do
            let x ←
              match vfs.find? fun e => e.1 == fld.1 with
              | Option.some e => pure e.2.2
              | Option.none => throw (.keyError (some fld.1))
            let w ← encoderF json_encoders Option.none f x (some fld.2)
            pure (to_json_case_of Option.none fld.1, w)) fields
          (fun fld hfld => ((hex fld hfld).imp fun y hy => hy.1))
        have hprops := zip_prop_of_mapM _ _ fields js hall hex
        have hlen2 : vfs.length = js.length := by
          rw [← hlenfv]
          exact hlen
        rw [← hmapf] at hprops
        have hq := forall_zip_map_left
          (fun e : String × Ty × PyVal => (e.1, e.2.1))
          (fun (fld : String × Ty) (y : String × PyVal) => y.1 = fld.1 ∧
            ∀ e2, vfs.find? (fun e => e.1 == fld.1) = some e2 →
              Wire e2.2.1 e2.2.2 y.2)
          vfs js hprops
        refine ⟨.dict js, .record cls fields vfs js hmapf hlen2
          (fun p hp => (hq p hp).1)
          (fun p hp => (hq p hp).2 p.1
            (find?_of_nodup_keys vfs p.1 hndv (List.of_mem_zip hp).1)), ?_⟩
        rw [encoderF_step_dataclass]
        have hct : check_type f (.dataclass cls fields) (.record cls vfs)
            = .ok () :=
          check_type_ok f _ _ (by simp [rtypeTy, hmapf]) (by simp; omega)
        have hrule : encode_dataclass ⟨f, encoderF json_encoders Option.none f,
            to_json_case_of Option.none⟩ (.dataclass cls fields)
            (.record cls vfs) = .ok (some (.dict js)) := by
          show Except.bind
            (check_type f (.dataclass cls fields) (.record cls vfs))
            (fun x => Except.bind (fields.mapM (fun fld : String × Ty => do
              let x ←
                match vfs.find? fun e => e.1 == fld.1 with
                | Option.some e => pure e.2.2
                | Option.none => throw (.keyError (some fld.1))
              let w ← encoderF json_encoders Option.none f x (some fld.2)
              pure (to_json_case_of Option.none fld.1, w)))
              (fun ys => Except.ok (some (PyVal.dict ys))))
            = Except.ok (some (PyVal.dict js))
          rw [hct, hmap]
          rfl
        rw [hrule]

theorem mapM_ok_pointwise {α β γ : Type} (g : α → Except Err β) :
    ∀ (js : List α) (xs : List γ) (R : β → γ → Prop), js.length = xs.length →
    (∀ i (h1 : i < js.length) (h2 : i < xs.length),
      ∃ y, g (js.get ⟨i, h1⟩) = .ok y ∧ R y (xs.get ⟨i, h2⟩)) →
    ∃ rs, js.mapM g = .ok rs ∧ rs.length = xs.length ∧
      ∀ i (h1 : i < rs.length) (h2 : i < xs.length),
        R (rs.get ⟨i, h1⟩) (xs.get ⟨i, h2⟩) := by
  intro js
  induction js with
  | nil =>
    intro xs R hlen h
    cases xs with
    | nil => exact ⟨[], rfl, rfl, fun i h1 h2 => absurd h1 (by simp)⟩
    | cons x xs2 => simp at hlen
  | cons a as ih =>
    intro xs R hlen h
    cases xs with
    | nil => simp at hlen
    | cons x xs2 =>
      obtain ⟨y, hy, hR⟩ := h 0 (by simp) (by simp)
      have hy2 : g a = .ok y := hy
      have ht : ∀ i (h1 : i < as.length) (h2 : i < xs2.length),
          ∃ y2, g (as.get ⟨i, h1⟩) = .ok y2 ∧ R y2 (xs2.get ⟨i, h2⟩) := by
        intro i h1 h2
        have hr := h (i+1) (by simpa using Nat.succ_lt_succ h1)
          (by simpa using Nat.succ_lt_succ h2)
        simpa using hr
      obtain ⟨rs, hmap, hlen2, hall⟩ := ih xs2 R (by simpa using hlen) ht
      refine ⟨y :: rs, ?_, by simp [hlen2], ?_⟩
      · rw [List.mapM_cons, hy2, hmap]
        rfl
      · intro i h1 h2
        cases i with
        | zero =>
          have hR2 : R y x := hR
          simpa using hR2
        | succ i2 =>
          have hr := hall i2 (by simpa using h1) (by simpa using h2)
          simpa using hr

set_option maxHeartbeats 4000000 in
theorem dec_total : ∀ (f : Nat) (t : Ty) (v j : PyVal), SafeTy t → WF t v →
    Wire t v j → sizeOf t + sizeOf v ≤ f →
    ∃ r, decoderF json_decoders Option.none f t j = .ok r ∧ pyEq r v ∧
      (SimplePayload t = true → pyIsinstance r t = .ok true) := by
  intro f
  induction f with
  | zero =>
    intro t v j _ _ _ hs
    have h1 := ty_sizeOf_pos t
    have h2 := pv_sizeOf_pos v
    omega
  | succ f ih =>
    intro t v j hst hwf hw hs
    cases hst with
    | int =>
      cases hwf with
      | int n =>
        cases hw with
        | int _ => exact ⟨.int n, rfl, .num _ _ (n : ℚ) rfl rfl, fun _ => rfl⟩
    | float =>
      cases hwf with
      | float q =>
        cases hw with
        | float _ => exact ⟨.float q, rfl, .num _ _ q rfl rfl, fun _ => rfl⟩
    | str =>
      cases hwf with
      | str s =>
        cases hw with
        | str _ => exact ⟨.str s, rfl, .strv _ _ s rfl rfl, fun _ => rfl⟩
    | bool =>
      cases hwf with
      | bool b =>
        cases hw with
        | bool _ => exact ⟨.bool b, rfl,
            .num _ _ (if b then 1 else 0) rfl rfl, fun _ => rfl⟩
    | NoneType =>
      cases hwf with
      | noneV =>
        cases hw with
        | noneV => exact ⟨.none, rfl, .noneEq, fun _ => rfl⟩
    | char =>
      cases hwf with
      | char s hlen1 =>
        cases hw with
        | char _ =>
          refine ⟨.str s, ?_, .strv _ _ s rfl rfl, fun hS => Bool.noConfusion hS⟩
          rw [decoderF_step_char]
          have hrule : decode_char ⟨f, decoderF json_decoders Option.none f,
              to_json_case_of Option.none⟩ .char (.str s)
              = .ok (some (.str s)) := by
            show (if (s.length != 1) = true then Except.error (Err.charLen s)
              else Except.ok (some (PyVal.str s))) = Except.ok (some (PyVal.str s))
            rw [hlen1]
            rfl
          rw [hrule]
    | date =>
      cases hwf with
      | date y m d hy1 hy2 hm1 hm2 hd1 hd2 =>
        cases hw with
        | date _ _ _ =>
          refine ⟨.date y m d, ?_, .dateEq y m d, fun _ => rfl⟩
          rw [decoderF_step_date]
          have hrule : decode_date ⟨f, decoderF json_decoders Option.none f,
              to_json_case_of Option.none⟩ .date (.str (dateIso y m d))
              = .ok (some (.date y m d)) := by
            show (match parseDateStr (dateIso y m d).data with
              | Option.some (y2, m2, d2) => Except.ok (some (PyVal.date y2 m2 d2))
              | Option.none => Except.error (Err.valueError "strptime"))
              = Except.ok (some (PyVal.date y m d))
            rw [parseDateStr_fmt y m d hy2 hy1 hm1 hm2 hd1 hd2]
          rw [hrule]
    | time =>
      cases hwf with
      | time h mi s hh hmi hsec =>
        cases hw with
        | time _ _ _ _ _ =>
          refine ⟨.time h mi s 0 Option.none, ?_,
            .timeEq h mi s 0 Option.none, fun _ => rfl⟩
          rw [decoderF_step_time]
          have hrule : decode_time ⟨f, decoderF json_decoders Option.none f,
              to_json_case_of Option.none⟩ .time
              (.str (timeIso h mi s 0 Option.none))
              = .ok (some (.time h mi s 0 Option.none)) := by
            show (match parseTimeStr (timeIso h mi s 0 Option.none).data with
              | Option.some (h2, mi2, s2) =>
                  Except.ok (some (PyVal.time h2 mi2 s2 0 Option.none))
              | Option.none => Except.error (Err.valueError "strptime"))
              = Except.ok (some (PyVal.time h mi s 0 Option.none))
            rw [parseTimeStr_fmt h mi s hh hmi hsec]
          rw [hrule]
    | UUID =>
      cases hwf with
      | uuid u h32 hhex hnd2 hlow =>
        cases hw with
        | uuid _ =>
          refine ⟨.uuid u, ?_, .uuidEq u, fun _ => rfl⟩
          rw [decoderF_step_UUID]
          have hrule : decode_uuid ⟨f, decoderF json_decoders Option.none f,
              to_json_case_of Option.none⟩ .UUID (.str ⟨uuidDashes u.data⟩)
              = .ok (some (.uuid u)) := by
            show (match pyUUIDOfStr ⟨uuidDashes u.data⟩ with
              | Option.some h2 => Except.ok (some (PyVal.uuid h2))
              | Option.none => Except.error (Err.valueError "UUID"))
              = Except.ok (some (PyVal.uuid u))
            rw [pyUUID_roundtrip u h32 hhex hnd2 hlow]
          rw [hrule]
    | datetime =>
      cases hwf with
      | datetime y mo d h mi s us off hy1 hy2 hm1 hm2 hd1 hd2 hh hmi hsec hus hoff =>
        cases hw with
        | datetime _ _ _ _ _ _ _ _ =>
          refine ⟨.datetime y mo d h mi s us (some off), ?_,
            .dtAware y mo d h mi s us off y mo d h mi s us off rfl,
            fun _ => rfl⟩
          rw [decoderF_step_datetime]
          have hrule : decode_datetime ⟨f, decoderF json_decoders Option.none f,
              to_json_case_of Option.none⟩ .datetime
              (.str (datetimeIso y mo d h mi s us (some off)))
              = .ok (some (.datetime y mo d h mi s us (some off))) := by
            show (match parseDatetimeNoFrac
                (datetimeIso y mo d h mi s us (some off)).data with
              | Option.some ((y2, mo2, d2), (h2, mi2, s2), off2) =>
                  Except.ok (some (PyVal.datetime y2 mo2 d2 h2 mi2 s2 0 (some off2)))
              | Option.none =>
                (match parseDatetimeFrac
                    (datetimeIso y mo d h mi s us (some off)).data with
                | Option.some ((y2, mo2, d2), (h2, mi2, s2), us2, off2) =>
                    Except.ok (some
                      (PyVal.datetime y2 mo2 d2 h2 mi2 s2 us2 (some off2)))
                | Option.none =>
                    Except.error (Err.badDatetime
                      (datetimeIso y mo d h mi s us (some off)))))
              = Except.ok (some (PyVal.datetime y mo d h mi s us (some off)))
            rcases Nat.eq_zero_or_pos us with rfl | hus1
            · rw [parseDatetimeNoFrac_fmt y mo d h mi s off
                hy2 hy1 hm1 hm2 hd1 hd2 hh hmi hsec hoff]
            · rw [parseDatetimeNoFrac_frac_fails y mo d h mi s us off
                hy2 hy1 hm1 hm2 hd1 hd2 hh hmi hsec hus1]
              rw [parseDatetimeFrac_fmt y mo d h mi s us off
                hy2 hy1 hm1 hm2 hd1 hd2 hh hmi hsec hus1 hus hoff]
          rw [hrule]
    | List a hsta =>
      cases hwf with
      | list _ xs hx =>
        cases hw with
        | list _ _ js hlenw hwires =>
          simp at hs
          have hidx : ∀ i (h1 : i < js.length) (h2 : i < xs.length),
              ∃ y, decoderF json_decoders Option.none f a (js.get ⟨i, h1⟩)
                = .ok y ∧ pyEq y (xs.get ⟨i, h2⟩) := by
            intro i h1 h2
            have hwi := (forall_zip_iff_get xs js).mp hwires i h2 h1
            have hxm := xs.get_mem i h2
            have hb := List.sizeOf_lt_of_mem hxm
            obtain ⟨r, hr, hpy, _⟩ := ih a (xs.get ⟨i, h2⟩) (js.get ⟨i, h1⟩)
              hsta (hx _ hxm) hwi (by omega)
            exact ⟨r, hr, hpy⟩
          obtain ⟨rs, hmap, hlen2, hall⟩ := mapM_ok_pointwise
            (fun item => decoderF json_decoders Option.none f a item) js xs _
            (by omega) hidx
          refine ⟨.list rs, ?_, .listEq rs xs (by omega)
            ((forall_zip_iff_get rs xs).mpr hall),
            fun hS => Bool.noConfusion hS⟩
          rw [decoderF_step_List]
          have hrule : decode_generic_list ⟨f,
              decoderF json_decoders Option.none f,
              to_json_case_of Option.none⟩ (.List a) (.list js)
              = .ok (some (.list rs)) := by
            show Except.bind (js.mapM fun item =>
                decoderF json_decoders Option.none f a item)
              (fun ys => Except.ok (some (PyVal.list ys)))
              = Except.ok (some (PyVal.list rs))
            rw [hmap]
            rfl
          rw [hrule]
    | Dict a hsta =>
      cases hwf with
      | dict _ kvs hkv =>
        cases hw with
        | dict _ _ jkvs hlenw hkeysw hwires =>
          simp at hs
          have hidx : ∀ i (h1 : i < jkvs.length) (h2 : i < kvs.length),
              ∃ y, (do
                  let w ← decoderF json_decoders Option.none f a
                    (jkvs.get ⟨i, h1⟩).2
                  pure ((jkvs.get ⟨i, h1⟩).1, w)
                  : Except Err (String × PyVal)) = .ok y ∧
                (y.1 = (kvs.get ⟨i, h2⟩).1 ∧ pyEq y.2 (kvs.get ⟨i, h2⟩).2) := by
            intro i h1 h2
            have hwi := (@forall_zip_iff_get _ _
              (fun (p : String × PyVal) (q : String × PyVal) =>
                Wire a p.2 q.2) kvs jkvs).mp hwires i h2 h1
            have hki := (@forall_zip_iff_get _ _
              (fun (p : String × PyVal) (q : String × PyVal) =>
                q.1 = p.1) kvs jkvs).mp hkeysw i h2 h1
            have hxm := kvs.get_mem i h2
            have hb := List.sizeOf_lt_of_mem hxm
            have hb2 := snd_sizeOf_lt (kvs.get ⟨i, h2⟩)
            obtain ⟨r, hr, hpy, _⟩ := ih a (kvs.get ⟨i, h2⟩).2
              (jkvs.get ⟨i, h1⟩).2 hsta (hkv _ hxm) hwi (by omega)
            refine ⟨((jkvs.get ⟨i, h1⟩).1, r), ?_, hki, hpy⟩
            rw [hr]
            rfl
          obtain ⟨rs, hmap, hlen2, hall⟩ := mapM_ok_pointwise
            (fun kv : String × PyVal => do
              let w ← decoderF json_decoders Option.none f a kv.2
              pure (kv.1, w)) jkvs kvs
            (fun (y kv : String × PyVal) => y.1 = kv.1 ∧ pyEq y.2 kv.2)
            (by omega) hidx
          refine ⟨.dict rs, ?_, .dictEq rs kvs (by omega)
            ((@forall_zip_iff_get _ _
              (fun (p q : String × PyVal) => p.1 = q.1) rs kvs).mpr
              (fun i h1 h2 => (hall i h1 h2).1))
            ((@forall_zip_iff_get _ _
              (fun (p q : String × PyVal) => pyEq p.2 q.2) rs kvs).mpr
              (fun i h1 h2 => (hall i h1 h2).2)),
            fun hS => Bool.noConfusion hS⟩
          rw [decoderF_step_Dict]
          have hrule : decode_generic_dict ⟨f,
              decoderF json_decoders Option.none f,
              to_json_case_of Option.none⟩ (.Dict .str a) (.dict jkvs)
              = .ok (some (.dict rs)) := by
            show Except.bind (jkvs.mapM fun kv => do
                let w ← decoderF json_decoders Option.none f a kv.2
                pure (kv.1, w))
              (fun ys => Except.ok (some (PyVal.dict ys)))
              = Except.ok (some (PyVal.dict rs))
            rw [hmap]
            rfl
          rw [hrule]
    | Set a hsta hsc =>
      cases hwf with
      | set _ xs hx hpw =>
        cases hw with
        | set _ _ js hlenw hwires =>
          simp at hs
          have hidx : ∀ i (h1 : i < js.length) (h2 : i < xs.length),
              ∃ y, decoderF json_decoders Option.none f a (js.get ⟨i, h1⟩)
                = .ok y ∧ pyEq y (xs.get ⟨i, h2⟩) := by
            intro i h1 h2
            have hwi := (forall_zip_iff_get xs js).mp hwires i h2 h1
            have hxm := xs.get_mem i h2
            have hb := List.sizeOf_lt_of_mem hxm
            obtain ⟨r, hr, hpy, _⟩ := ih a (xs.get ⟨i, h2⟩) (js.get ⟨i, h1⟩)
              hsta (hx _ hxm) hwi (by omega)
            exact ⟨r, hr, hpy⟩
          obtain ⟨rs, hmap, hlen2, hall⟩ := mapM_ok_pointwise
            (fun item => decoderF json_decoders Option.none f a item) js xs _
            (by omega) hidx
          have hallz : ∀ p ∈ rs.zip xs, pyEq p.1 p.2 :=
            (forall_zip_iff_get rs xs).mpr hall
          have hscal : ∀ r ∈ rs, isScalarVal r = true := by
            intro r hr
            obtain ⟨⟨i, hilt⟩, hri⟩ := List.mem_iff_get.mp hr
            have h2 : i < xs.length := by omega
            have hpy := hall i hilt h2
            have hxs := WF_scalar a (xs.get ⟨i, h2⟩) hsc
              (hx _ (xs.get_mem i h2))
            rw [← hri]
            exact pyEq_scalar_left _ _ hpy hxs
          have hpw2 : rs.Pairwise (fun a b => ¬ pyEq a b) :=
            pairwise_not_pyEq_transport rs xs (by omega) hallz hpw
          have hincl1 : pyEqIncl rs xs := by
            refine pyEqIncl_of_forall rs xs fun r hr => ?_
            obtain ⟨⟨i, hilt⟩, hri⟩ := List.mem_iff_get.mp hr
            have h2 : i < xs.length := by omega
            refine pyEqMem_of_mem xs r (xs.get ⟨i, h2⟩) (xs.get_mem i h2) ?_
            rw [← hri]
            exact hall i hilt h2
          have hincl2 : pyEqIncl xs rs := by
            refine pyEqIncl_of_forall xs rs fun x hx2 => ?_
            obtain ⟨⟨i, hilt⟩, hxi⟩ := List.mem_iff_get.mp hx2
            have h1 : i < rs.length := by omega
            refine pyEqMem_of_mem rs x (rs.get ⟨i, h1⟩) (rs.get_mem i h1) ?_
            rw [← hxi]
            exact pyEq_symm (hall i h1 hilt)
          refine ⟨.set rs, ?_, .setEq rs xs hincl1 hincl2,
            fun hS => Bool.noConfusion hS⟩
          rw [decoderF_step_Set]
          have hrule : decode_generic_set ⟨f,
              decoderF json_decoders Option.none f,
              to_json_case_of Option.none⟩ (.Set a) (.list js)
              = .ok (some (.set rs)) := by
            show Except.bind (js.mapM fun item =>
                decoderF json_decoders Option.none f a item)
              (fun ys => Except.ok (some (pySetOf f ys)))
              = Except.ok (some (PyVal.set rs))
            rw [hmap]
            show Except.ok (some (pySetOf f rs)) = _
            rw [pySetOf_noop f rs hscal hpw2]
          rw [hrule]
    | opt a hsta hoi =>
      cases hw with
      | optNone _ =>
        simp at hs
        obtain ⟨f2, rfl⟩ : ∃ f2, f = f2+1 := ⟨f-1, by omega⟩
        obtain ⟨e, he, hej⟩ := dec_null_reject f2 a hoi
        refine ⟨.none, ?_, .noneEq, fun hS => Bool.noConfusion hS⟩
        rw [decoderF_step_Union]
        have hrule : decode_union ⟨f2+1,
            decoderF json_decoders Option.none (f2+1),
            to_json_case_of Option.none⟩ (.Union [a, .NoneType]) .none
            = .ok (some .none) := by
          show decode_union_alts ⟨f2+1,
              decoderF json_decoders Option.none (f2+1),
              to_json_case_of Option.none⟩ (.Union [a, .NoneType]) .none
              [a, .NoneType] = Except.ok (some PyVal.none)
          rw [dec_union_alts_after_error _ _ _ _ _ e he hej]
          rfl
        rw [hrule]
      | optSome _ _ _ hnn hwa =>
        have hwfa : WF a v := by
          cases hwf with
          | optNone _ => exact absurd rfl hnn
          | optSome _ _ h2 => exact h2
        simp at hs
        obtain ⟨r, hr, hpy, _⟩ := ih a v j hsta hwfa hwa (by omega)
        refine ⟨r, ?_, hpy, fun hS => Bool.noConfusion hS⟩
        rw [decoderF_step_Union]
        have hrule : decode_union ⟨f, decoderF json_decoders Option.none f,
            to_json_case_of Option.none⟩ (.Union [a, .NoneType]) j
            = .ok (some r) := by
          show decode_union_alts ⟨f, decoderF json_decoders Option.none f,
              to_json_case_of Option.none⟩ (.Union [a, .NoneType]) j
              [a, .NoneType] = Except.ok (some r)
          exact dec_union_alts_ok _ _ _ _ _ r hr
        rw [hrule]
    | dataclass cls fields hflds hnd =>
      cases hwf with
      | record _ _ vfs hmapf hvf =>
        subst hmapf
        cases hw with
        | record _ _ _ jkvs hmapf2 hlenw hkeysw hwires =>
          simp at hs
          have hjkeys : jkvs.map Prod.fst = vfs.map Prod.fst := by
            refine List.ext_get (by simp; omega) ?_
            intro i h1 h2
            simp only [List.get_eq_getElem, List.getElem_map]
            have := (@forall_zip_iff_get _ _
              (fun (p : String × Ty × PyVal) (q : String × PyVal) =>
                q.1 = p.1) vfs jkvs).mp hkeysw i (by simp at h2; exact h2)
              (by simp at h1; exact h1)
            simpa using this
          have hndj : (jkvs.map Prod.fst).Nodup := by
            rw [hjkeys]
            have : (vfs.map (fun e => (e.1, e.2.1))).map Prod.fst
                = vfs.map Prod.fst := by
              rw [List.map_map]
              rfl
            rw [← this]
            exact hnd
          have hidx : ∀ i (h1 : i < (vfs.map (fun e : String × Ty × PyVal =>
              (e.1, e.2.1))).length) (h2 : i < vfs.length),
              ∃ y, (do
                  let w ← decoderF json_decoders Option.none f
                    ((vfs.map (fun e : String × Ty × PyVal =>
                      (e.1, e.2.1))).get ⟨i, h1⟩).2
                    (dictGet jkvs (to_json_case_of Option.none
                      ((vfs.map (fun e : String × Ty × PyVal =>
                        (e.1, e.2.1))).get ⟨i, h1⟩).1))
                  pure (((vfs.map (fun e : String × Ty × PyVal =>
                      (e.1, e.2.1))).get ⟨i, h1⟩).1,
                    ((vfs.map (fun e : String × Ty × PyVal =>
                      (e.1, e.2.1))).get ⟨i, h1⟩).2, w)
                  : Except Err (String × Ty × PyVal)) = .ok y ∧
                (y.1 = (vfs.get ⟨i, h2⟩).1 ∧
                  y.2.1 = (vfs.get ⟨i, h2⟩).2.1 ∧
                  pyEq y.2.2 (vfs.get ⟨i, h2⟩).2.2) := by
            intro i h1 h2
            have hget : (vfs.map (fun e : String × Ty × PyVal =>
                (e.1, e.2.1))).get ⟨i, h1⟩
                = ((vfs.get ⟨i, h2⟩).1, (vfs.get ⟨i, h2⟩).2.1) := by
              simp only [List.get_eq_getElem, List.getElem_map]
            have hjl : i < jkvs.length := by omega
            have hkey : (jkvs.get ⟨i, hjl⟩).1 = (vfs.get ⟨i, h2⟩).1 :=
              (@forall_zip_iff_get _ _
                (fun (p : String × Ty × PyVal) (q : String × PyVal) =>
                  q.1 = p.1) vfs jkvs).mp hkeysw i h2 hjl
            have hdg : dictGet jkvs (vfs.get ⟨i, h2⟩).1
                = (jkvs.get ⟨i, hjl⟩).2 := by
              refine dictGet_nodup jkvs _ _ hndj ?_
              have : jkvs.get ⟨i, hjl⟩
                  = ((vfs.get ⟨i, h2⟩).1, (jkvs.get ⟨i, hjl⟩).2) := by
                rw [Prod.ext_iff]
                exact ⟨hkey, rfl⟩
              rw [← this]
              exact jkvs.get_mem i hjl
            have hwi : Wire (vfs.get ⟨i, h2⟩).2.1 (vfs.get ⟨i, h2⟩).2.2
                (jkvs.get ⟨i, hjl⟩).2 :=
              (@forall_zip_iff_get _ _
                (fun (p : String × Ty × PyVal) (q : String × PyVal) =>
                  Wire p.2.1 p.2.2 q.2) vfs jkvs).mp hwires i h2 hjl
            have hsta2 : SafeTy (vfs.get ⟨i, h2⟩).2.1 := by
              have := hflds ((vfs.get ⟨i, h2⟩).1, (vfs.get ⟨i, h2⟩).2.1) ?_
              · exact this
              · rw [← hget]
                exact List.get_mem _ i h1
            have hwf2 : WF (vfs.get ⟨i, h2⟩).2.1 (vfs.get ⟨i, h2⟩).2.2 :=
              hvf _ (vfs.get_mem i h2)
            have hb1 := List.sizeOf_lt_of_mem (vfs.get_mem i h2)
            have hb23 : sizeOf (vfs.get ⟨i, h2⟩).2.1
                + sizeOf (vfs.get ⟨i, h2⟩).2.2 < sizeOf (vfs.get ⟨i, h2⟩) := by
              obtain ⟨q1, q2, q3⟩ := vfs.get ⟨i, h2⟩
              simp
              omega
            obtain ⟨r, hr, hpy, _⟩ := ih (vfs.get ⟨i, h2⟩).2.1
              (vfs.get ⟨i, h2⟩).2.2 (jkvs.get ⟨i, hjl⟩).2 hsta2 hwf2 hwi
              (by omega)
            refine ⟨((vfs.get ⟨i, h2⟩).1, (vfs.get ⟨i, h2⟩).2.1, r),
              ?_, rfl, rfl, hpy⟩
            rw [hget]
            show Except.bind (decoderF json_decoders Option.none f
                (vfs.get ⟨i, h2⟩).2.1
                (dictGet jkvs (vfs.get ⟨i, h2⟩).1))
              (fun w => Except.ok ((vfs.get ⟨i, h2⟩).1,
                (vfs.get ⟨i, h2⟩).2.1, w))
              = Except.ok ((vfs.get ⟨i, h2⟩).1, (vfs.get ⟨i, h2⟩).2.1, r)
            rw [hdg, hr]
            rfl
          obtain ⟨rs, hmap, hlen2, hall⟩ := mapM_ok_pointwise
            (fun fld : String × Ty => do
              let w ← decoderF json_decoders Option.none f fld.2
                (dictGet jkvs (to_json_case_of Option.none fld.1))
              pure (fld.1, fld.2, w))
            (vfs.map (fun e : String × Ty × PyVal => (e.1, e.2.1))) vfs
            (fun (y e : String × Ty × PyVal) => y.1 = e.1 ∧ y.2.1 = e.2.1 ∧
              pyEq y.2.2 e.2.2)
            (by simp) hidx
          refine ⟨.record cls rs, ?_, .recordEq cls rs vfs (by omega)
            ((@forall_zip_iff_get _ _
              (fun (p q : String × Ty × PyVal) => p.1 = q.1) rs vfs).mpr
              (fun i h1 h2 => (hall i h1 h2).1))
            ((@forall_zip_iff_get _ _
              (fun (p q : String × Ty × PyVal) => pyEq p.2.2 q.2.2) rs vfs).mpr
              (fun i h1 h2 => (hall i h1 h2).2.2)),
            fun _ => by simp [pyIsinstance]⟩
          rw [decoderF_step_dataclass]
          have hrule : decode_dataclass ⟨f,
              decoderF json_decoders Option.none f,
              to_json_case_of Option.none⟩
              (.dataclass cls (vfs.map (fun e : String × Ty × PyVal =>
                (e.1, e.2.1)))) (.dict jkvs)
              = .ok (some (.record cls rs)) := by
            show Except.bind ((vfs.map (fun e : String × Ty × PyVal =>
                (e.1, e.2.1))).mapM (fun fld : String × Ty => do
                let w ← decoderF json_decoders Option.none f fld.2
                  (dictGet jkvs (to_json_case_of Option.none fld.1))
                pure (fld.1, fld.2, w)))
              (fun ys => Except.ok (some (PyVal.record cls ys)))
              = Except.ok (some (PyVal.record cls rs))
            rw [hmap]
            rfl
          rw [hrule]
    | taggedUnion cls cases0 hcT hcS hndc =>
      cases hwf with
      | ucase _ _ nm mt pv hmem hmtnone hmtsome =>
        cases hw with
        | ucaseSome _ _ _ u _ jp hwp =>
          have hwu := hmtsome u rfl
          have hstu := hcT (nm, some u) hmem u rfl
          have hSP := hcS (nm, some u) hmem u rfl
          have hb1 := List.sizeOf_lt_of_mem hmem
          simp at hs hb1
          have hfind : cases0.find? (fun m => m.1 == nm) = some (nm, some u) :=
            find?_of_nodup_keys cases0 (nm, some u) hndc hmem
          obtain ⟨r, hr, hpy, hiso⟩ := ih u pv jp hstu hwu hwp (by omega)
          refine ⟨.ucase cls nm (some u) r, ?_,
            .ucaseEq cls nm (some u) (some u) r pv hpy,
            fun _ => by simp [pyIsinstance]⟩
          rw [decoderF_step_taggedUnion]
          have hrule : decode_tagged_union ⟨f,
              decoderF json_decoders Option.none f,
              to_json_case_of Option.none⟩ (.taggedUnion cls cases0)
              (.dict [(nm, jp)])
              = .ok (some (.ucase cls nm (some u) r)) := by
            show (match cases0.find? (fun m => m.1 == nm) with
              | Option.none => Except.error (Err.keyError Option.none)
              | Option.some m =>
                match m.2 with
                | Option.none => Except.ok (some
                    (PyVal.ucase cls m.1 Option.none PyVal.none))
                | Option.some member_type =>
                  Except.bind (decoderF json_decoders Option.none f
                      member_type jp)
                    (fun w =>
                      match pyIsinstance w member_type with
                      | .error e => Except.error e
                      | .ok true => Except.ok (some
                          (PyVal.ucase cls m.1 (some member_type) w))
                      | .ok false => Except.error Err.assertionError))
              = Except.ok (some (PyVal.ucase cls nm (some u) r))
            rw [hfind]
            show Except.bind (decoderF json_decoders Option.none f u jp)
              (fun w =>
                match pyIsinstance w u with
                | .error e => Except.error e
                | .ok true => Except.ok (some (PyVal.ucase cls nm (some u) w))
                | .ok false => Except.error Err.assertionError)
              = Except.ok (some (PyVal.ucase cls nm (some u) r))
            rw [hr]
            show (match pyIsinstance r u with
              | .error e => Except.error e
              | .ok true => Except.ok (some (PyVal.ucase cls nm (some u) r))
              | .ok false => Except.error Err.assertionError)
              = Except.ok (some (PyVal.ucase cls nm (some u) r))
            rw [hiso hSP]
          rw [hrule]
        | ucaseNone _ _ _ =>
          have hfind : cases0.find? (fun m => m.1 == nm)
              = some (nm, Option.none) :=
            find?_of_nodup_keys cases0 (nm, Option.none) hndc hmem
          refine ⟨.ucase cls nm Option.none .none, ?_,
            .ucaseEq cls nm Option.none Option.none .none .none .noneEq,
            fun _ => by simp [pyIsinstance]⟩
          rw [decoderF_step_taggedUnion]
          have hrule : decode_tagged_union ⟨f,
              decoderF json_decoders Option.none f,
              to_json_case_of Option.none⟩ (.taggedUnion cls cases0)
              (.dict [(nm, .none)])
              = .ok (some (.ucase cls nm Option.none .none)) := by
            show (match cases0.find? (fun m => m.1 == nm) with
              | Option.none => Except.error (Err.keyError Option.none)
              | Option.some m =>
                match m.2 with
                | Option.none => Except.ok (some
                    (PyVal.ucase cls m.1 Option.none PyVal.none))
                | Option.some member_type =>
                  Except.bind (decoderF json_decoders Option.none f
                      member_type PyVal.none)
                    (fun w =>
                      match pyIsinstance w member_type with
                      | .error e => Except.error e
                      | .ok true => Except.ok (some
                          (PyVal.ucase cls m.1 (some member_type) w))
                      | .ok false => Except.error Err.assertionError))
              = Except.ok (some (PyVal.ucase cls nm Option.none PyVal.none))
            rw [hfind]
          rw [hrule]

/-! ## The spec's wire-format shapes hold for the formatted outputs -/

theorem specDateShapeB_fmt (y m d : Nat) (hy : y ≤ 9999) (hm : m ≤ 99)
    (hd : d ≤ 99) : specDateShapeB (fmtYmd y m d) = true := by
  obtain ⟨y1, y2, y3, y4, hy4⟩ := list_len4 (padNum 4 y)
    (padNum_length 4 y (by omega) (by omega))
  obtain ⟨m1, m2, hm2⟩ := list_len2 (padNum 2 m)
    (padNum_length 2 m (by omega) (by omega))
  obtain ⟨d1, d2, hd2⟩ := list_len2 (padNum 2 d)
    (padNum_length 2 d (by omega) (by omega))
  have hyd := padNum_all_digits 4 y
  have hmd := padNum_all_digits 2 m
  have hdd := padNum_all_digits 2 d
  rw [hy4] at hyd
  rw [hm2] at hmd
  rw [hd2] at hdd
  simp at hyd hmd hdd
  unfold fmtYmd
  rw [hy4, hm2, hd2]
  simp [specDateShapeB, hyd.1, hyd.2.1, hyd.2.2.1, hyd.2.2.2, hmd.1, hmd.2,
    hdd.1, hdd.2]

theorem specHmsShapeB_fmt (h mi s : Nat) (hh : h ≤ 99) (hmi : mi ≤ 99)
    (hs : s ≤ 99) : specHmsShapeB (fmtHms h mi s) = true := by
  obtain ⟨h1, h2, hh2⟩ := list_len2 (padNum 2 h)
    (padNum_length 2 h (by omega) (by omega))
  obtain ⟨m1, m2, hm2⟩ := list_len2 (padNum 2 mi)
    (padNum_length 2 mi (by omega) (by omega))
  obtain ⟨s1, s2, hs2⟩ := list_len2 (padNum 2 s)
    (padNum_length 2 s (by omega) (by omega))
  have hhd := padNum_all_digits 2 h
  have hmd := padNum_all_digits 2 mi
  have hsd := padNum_all_digits 2 s
  rw [hh2] at hhd
  rw [hm2] at hmd
  rw [hs2] at hsd
  simp at hhd hmd hsd
  unfold fmtHms
  rw [hh2, hm2, hs2]
  simp [specHmsShapeB, hhd.1, hhd.2, hmd.1, hmd.2, hsd.1, hsd.2]

theorem specOffsetSuffixB_append (pre : List Char) (off : Int)
    (hoff : off.natAbs ≤ 1439) :
    specOffsetSuffixB (pre ++ fmtOffset (some off)) = true := by
  obtain ⟨h1, h2, hh2⟩ := list_len2 (padNum 2 (off.natAbs / 60))
    (padNum_length 2 _ (by omega) (by omega))
  obtain ⟨m1, m2, hm2⟩ := list_len2 (padNum 2 (off.natAbs % 60))
    (padNum_length 2 _ (by omega) (by omega))
  have hhd := padNum_all_digits 2 (off.natAbs / 60)
  have hmd := padNum_all_digits 2 (off.natAbs % 60)
  rw [hh2] at hhd
  rw [hm2] at hmd
  simp at hhd hmd
  rw [show fmtOffset (some off) = (if off < 0 then '-' else '+') ::
    (padNum 2 (off.natAbs / 60) ++ ':' :: padNum 2 (off.natAbs % 60)) from rfl]
  rw [hh2, hm2]
  by_cases hlt : off < 0 <;>
    simp [hlt, specOffsetSuffixB, List.reverse_append, hhd.1, hhd.2,
      hmd.1, hmd.2]

theorem dataclass_missing_optional (f : Nat) (cls nm : String) (a : Ty)
    (hoi : nullRejecting a = true) :
    decode (f+3) (.dataclass cls [(nm, .Union [a, .NoneType])]) (.dict [])
      Option.none json_decoders
      = .ok (.record cls [(nm, .Union [a, .NoneType], .none)]) := by
  have hu : decoderF json_decoders Option.none (f+2) (.Union [a, .NoneType])
      PyVal.none = .ok .none := by
    rw [decoderF_step_Union]
    have hrule : decode_union ⟨f+1, decoderF json_decoders Option.none (f+1),
        to_json_case_of Option.none⟩ (.Union [a, .NoneType]) PyVal.none
        = .ok (some .none) := by
      show decode_union_alts ⟨f+1, decoderF json_decoders Option.none (f+1),
          to_json_case_of Option.none⟩ (.Union [a, .NoneType]) PyVal.none
          [a, .NoneType] = Except.ok (some PyVal.none)
      obtain ⟨e, he, hej⟩ := dec_null_reject_all f a hoi
      rw [dec_union_alts_after_error _ _ _ _ _ e he hej]
      exact dec_union_alts_ok _ _ _ _ _ _ rfl
    rw [hrule]
  have hd : decoderF json_decoders Option.none (f+3)
      (.dataclass cls [(nm, .Union [a, .NoneType])]) (.dict [])
      = .ok (.record cls [(nm, .Union [a, .NoneType], .none)]) := by
    rw [decoderF_step_dataclass]
    have hmap : [(nm, Ty.Union [a, .NoneType])].mapM
        (fun fld : String × Ty => do
          let w ← decoderF json_decoders Option.none (f+2) fld.2
            (dictGet [] (to_json_case_of Option.none fld.1))
          pure (fld.1, fld.2, w))
        = .ok [(nm, Ty.Union [a, .NoneType], PyVal.none)] := by
      simp only [List.mapM_cons, List.mapM_nil]
      show Except.bind (Except.bind (decoderF json_decoders Option.none (f+2)
          (.Union [a, .NoneType]) PyVal.none)
        (fun w => Except.ok (nm, Ty.Union [a, .NoneType], w)))
        (fun y => Except.ok [y])
        = Except.ok [(nm, Ty.Union [a, .NoneType], PyVal.none)]
      rw [hu]
      rfl
    have hrule : decode_dataclass ⟨f+2,
        decoderF json_decoders Option.none (f+2),
        to_json_case_of Option.none⟩
        (.dataclass cls [(nm, .Union [a, .NoneType])]) (.dict [])
        = .ok (some (.record cls [(nm, .Union [a, .NoneType], .none)])) := by
      show Except.bind ([(nm, Ty.Union [a, .NoneType])].mapM
          (fun fld : String × Ty => do
            let w ← decoderF json_decoders Option.none (f+2) fld.2
              (dictGet [] (to_json_case_of Option.none fld.1))
            pure (fld.1, fld.2, w)))
        (fun ys => Except.ok (some (PyVal.record cls ys)))
        = Except.ok (some (PyVal.record cls [(nm, .Union [a, .NoneType], .none)]))
      rw [hmap]
      rfl
    rw [hrule]
  unfold decode
  rw [hd]

theorem dataclass_missing_required (f : Nat) (cls nm : String) (a : Ty)
    (hoi : nullRejecting a = true) :
    ∃ e, decode (f+2) (.dataclass cls [(nm, a)]) (.dict [])
      Option.none json_decoders = .error (.wrapDecoding e) ∧
      e.isJsonError = true := by
  obtain ⟨e, he, hej⟩ := dec_null_reject_all f a hoi
  refine ⟨e, ?_, hej⟩
  have hd : decoderF json_decoders Option.none (f+2)
      (.dataclass cls [(nm, a)]) (.dict []) = .error e := by
    rw [decoderF_step_dataclass]
    have hmap : [(nm, a)].mapM (fun fld : String × Ty => do
          let w ← decoderF json_decoders Option.none (f+1) fld.2
            (dictGet [] (to_json_case_of Option.none fld.1))
          pure (fld.1, fld.2, w))
        = (.error e : Except Err (List (String × Ty × PyVal))) := by
      simp only [List.mapM_cons, List.mapM_nil]
      show Except.bind (Except.bind (decoderF json_decoders Option.none (f+1)
          a PyVal.none) (fun w => Except.ok (nm, a, w)))
        (fun y => Except.ok [y])
        = Except.error e
      rw [he]
      rfl
    have hrule : decode_dataclass ⟨f+1,
        decoderF json_decoders Option.none (f+1),
        to_json_case_of Option.none⟩ (.dataclass cls [(nm, a)]) (.dict [])
        = .error e := by
      show Except.bind ([(nm, a)].mapM (fun fld : String × Ty => do
          let w ← decoderF json_decoders Option.none (f+1) fld.2
            (dictGet [] (to_json_case_of Option.none fld.1))
          pure (fld.1, fld.2, w)))
        (fun ys => Except.ok (some (PyVal.record cls ys)))
        = Except.error e
      rw [hmap]
      rfl
    rw [hrule]
  unfold decode
  rw [hd]

theorem dictGet_append_none : ∀ (kvs : List (String × PyVal)) (nm k : String),
    dictGet (kvs ++ [(nm, PyVal.none)]) k = dictGet kvs k := by
  intro kvs nm k
  unfold dictGet
  rw [List.find?_append]
  cases h : kvs.find? (fun kv => kv.1 == k) with
  | some kv => simp
  | none =>
    simp [List.find?]
    by_cases hnk : (nm == k) = true <;> simp [hnk]

theorem runRules_prefix_ok : ∀ (extras rest :
    List (Ty → PyVal → Except Err (Option PyVal))) (t : Ty) (v : PyVal)
    (x : PyVal), runRules extras t v = .ok x →
    runRules (extras ++ rest) t v = .ok x := by
  intro extras
  induction extras with
  | nil =>
    intro rest t v x h
    exact absurd h (fun hc => Except.noConfusion hc)
  | cons r es ih =>
    intro rest t v x h
    rw [List.cons_append]
    rw [runRules] at h ⊢
    cases hr : r t v with
    | error e =>
      rw [hr] at h
      replace h : (Except.error e : Except Err PyVal) = .ok x := h
      exact absurd h (fun hc => Except.noConfusion hc)
    | ok o =>
      cases o with
      | some y =>
        rw [hr] at h
        replace h : (Except.ok y : Except Err PyVal) = .ok x := h
        exact h
      | none =>
        rw [hr] at h
        replace h : runRules es t v = .ok x := h
        exact ih rest t v x h

/-! ## The claims -/

/-- C1 (counterexample): the original round-trip claim fails outside the
amended universe.  `Decimal`: `encode_decimal` writes `float(value)` and
`decode_primitive` then rejects the `float` against the declared
`Decimal` class.  `float("nan")`: both directions succeed (the value is
a `float` instance, so `check_type` passes and `float(nan)` is `nan`),
but `nan == nan` is false, so the round trip does not return an equal
value.  A timezone-aware `time`: `isoformat()` appends the `±HH:MM`
suffix, which the `"%H:%M:%S"` `strptime` of `decode_time` cannot read
back. -/
theorem thm_C1_counterexample :
    (encode 10 (.dec (3/2 : ℚ)) (some .Decimal) Option.none json_encoders
      = .ok (.float (3/2 : ℚ)) ∧
    ∀ r, decode 10 .Decimal (.float (3/2 : ℚ)) Option.none json_decoders
      ≠ .ok r) ∧
    (encode 10 .floatNan (some .float) Option.none json_encoders
      = .ok .floatNan ∧
    decode 10 .float .floatNan Option.none json_decoders = .ok .floatNan ∧
    ¬ pyEq .floatNan .floatNan) ∧
    (encode 10 (.time 10 30 0 0 (some 0)) (some .time) Option.none
      json_encoders = .ok (.str (timeIso 10 30 0 0 (some 0))) ∧
    decode 10 .time (.str (timeIso 10 30 0 0 (some 0))) Option.none
      json_decoders = .error (.wrapDecoding (.valueError "strptime"))) := by
  refine ⟨⟨rfl, fun r h => ?_⟩, ⟨rfl, rfl, fun h => ?_⟩, rfl, rfl⟩
  · have he : decode 10 .Decimal (.float (3/2 : ℚ)) Option.none json_decoders
        = .error (.wrapDecoding (.typeMismatch [.Decimal] .float)) := rfl
    rw [he] at h
    exact Except.noConfusion h
  · cases h <;> simp_all [numOfPy, strOfPy]

/-- C1 (amended): over the round-trip universe `SafeTy` (the claim's list
without `Decimal`, `Tuple`, ambiguous unions, unhashable set elements and
the tagged-union payloads whose reconstruction assertion fails) and
well-formed instances `WF` (finite floats — `nan` compares unequal to
itself — and naive microsecond-free times, since an aware time's offset
suffix cannot be parsed back), the core entry points running the
built-in chains round-trip up to Python `==`. -/
theorem thm_C1 (t : Ty) (v : PyVal) (hst : SafeTy t) (hwf : WF t v) :
    ∃ j r,
      encode (sizeOf t + sizeOf v) v (some t) Option.none json_encoders
        = .ok j ∧
      decode (sizeOf t + sizeOf v) t j Option.none json_decoders = .ok r ∧
      pyEq r v := by
  obtain ⟨j, hw, hj⟩ := enc_total (sizeOf t + sizeOf v) t v hst hwf le_rfl
  obtain ⟨r, hr, hpy, _⟩ := dec_total (sizeOf t + sizeOf v) t v j hst hwf hw
    le_rfl
  refine ⟨j, r, ?_, ?_, hpy⟩
  · unfold encode
    rw [hj]
  · unfold decode
    rw [hr]

/-- C1 (witness): the amended round trip at a one-field dataclass. -/
theorem thm_C1_witness :
    ∃ j r,
      encode (sizeOf (Ty.dataclass "P" [("x", .int)])
          + sizeOf (PyVal.record "P" [("x", .int, .int 3)]))
        (.record "P" [("x", .int, .int 3)])
        (some (.dataclass "P" [("x", .int)])) Option.none json_encoders
        = .ok j ∧
      decode (sizeOf (Ty.dataclass "P" [("x", .int)])
          + sizeOf (PyVal.record "P" [("x", .int, .int 3)]))
        (.dataclass "P" [("x", .int)]) j Option.none json_decoders = .ok r ∧
      pyEq r (.record "P" [("x", .int, .int 3)]) :=
  thm_C1 (.dataclass "P" [("x", .int)]) (.record "P" [("x", .int, .int 3)])
    (.dataclass "P" [("x", .int)]
      (by
        intro p hp
        simp at hp
        subst hp
        exact .int)
      (by simp))
    (.record "P" [("x", .int)] [("x", .int, .int 3)] rfl
      (by
        intro e he
        simp at he
        subst he
        exact .int 3))

/-- C2: the union rules commit to the first alternative, in declared
order: a successful alternative returns immediately, a typed (`JsonError`)
failure falls through to the next alternative, on both the decode and the
encode side; and `decode(Union[str,int], "3")` returns the string `"3"`. -/
theorem thm_C2 :
    (∀ (dec : DecSelf) (T : Ty) (jv : PyVal) (a : Ty) (rest : List Ty)
      (r : PyVal), dec.decode a jv = .ok r →
        decode_union_alts dec T jv (a :: rest) = .ok (some r)) ∧
    (∀ (dec : DecSelf) (T : Ty) (jv : PyVal) (a : Ty) (rest : List Ty)
      (e : Err), dec.decode a jv = .error e → e.isJsonError = true →
        decode_union_alts dec T jv (a :: rest)
          = decode_union_alts dec T jv rest) ∧
    (∀ (enc : EncSelf) (T : Ty) (v : PyVal) (a : Ty) (rest : List Ty)
      (j : PyVal), enc.encode v (some a) = .ok j →
        encode_union_alts enc T v (a :: rest) = .ok (some j)) ∧
    (∀ (enc : EncSelf) (T : Ty) (v : PyVal) (a : Ty) (rest : List Ty)
      (e : Err), enc.encode v (some a) = .error e → e.isJsonError = true →
        encode_union_alts enc T v (a :: rest)
          = encode_union_alts enc T v rest) ∧
    decode 10 (.Union [.str, .int]) (.str "3") Option.none json_decoders
      = .ok (.str "3") :=
  ⟨fun dec T jv a rest r h => dec_union_alts_ok dec T jv a rest r h,
   fun dec T jv a rest e he hej =>
     dec_union_alts_after_error dec T jv a rest e he hej,
   fun enc T v a rest j h => union_alts_ok enc T v a rest j h,
   fun enc T v a rest e he hej =>
     union_alts_after_error enc T v a rest e he hej,
   rfl⟩

/-- C2 (witness): the first-success rule at a concrete alternative. -/
theorem thm_C2_witness :
    decode_union_alts ⟨5, decoderF json_decoders Option.none 5,
      to_json_case_of Option.none⟩ (.Union [.int]) (.int 3) [.int]
      = .ok (some (.int 3)) :=
  thm_C2.1 _ _ _ _ _ _ rfl

/-- C3: the dispatch loop raises `Unsupported type` exactly when every
rule in the active chain signals not-applicable (provided no rule itself
returns that very error), a rule's error propagates immediately with no
later rule tried, and a produced value returns immediately. -/
theorem thm_C3 :
    (∀ (rules : List (Ty → PyVal → Except Err (Option PyVal))) (t : Ty)
      (v : PyVal), (∀ r ∈ rules, r t v ≠ .error (.unsupportedType t)) →
      (runRules rules t v = .error (.unsupportedType t) ↔
        ∀ r ∈ rules, r t v = .ok Option.none)) ∧
    (∀ (r : Ty → PyVal → Except Err (Option PyVal)) rules (t : Ty)
      (v : PyVal) (e : Err), r t v = .error e →
        runRules (r :: rules) t v = .error e) ∧
    (∀ (r : Ty → PyVal → Except Err (Option PyVal)) rules (t : Ty)
      (v : PyVal) (x : PyVal), r t v = .ok (some x) →
        runRules (r :: rules) t v = .ok x) := by
  refine ⟨?_, ?_, ?_⟩
  · intro rules t v
    induction rules with
    | nil =>
      intro _
      simp [runRules]
    | cons r rest ih =>
      intro hno
      have hno2 : ∀ r2 ∈ rest, r2 t v ≠ .error (.unsupportedType t) :=
        fun r2 h2 => hno r2 (List.mem_cons_of_mem _ h2)
      rw [runRules]
      cases h : r t v with
      | error e =>
        constructor
        · intro hEq
          replace hEq : (Except.error e : Except Err PyVal)
              = .error (.unsupportedType t) := hEq
          injection hEq with he
          exact absurd (he ▸ h) (hno r (List.mem_cons_self _ _))
        · intro hall
          have h2 := hall r (List.mem_cons_self _ _)
          rw [h] at h2
          exact absurd h2 (fun hc => Except.noConfusion hc)
      | ok o =>
        cases o with
        | none =>
          show runRules rest t v = .error (.unsupportedType t) ↔ _
          rw [ih hno2]
          constructor
          · intro hall r2 hr2
            rcases List.mem_cons.mp hr2 with rfl | hmem
            · exact h
            · exact hall r2 hmem
          · intro hall r2 hr2
            exact hall r2 (List.mem_cons_of_mem _ hr2)
        | some x =>
          constructor
          · intro hEq
            replace hEq : (Except.ok x : Except Err PyVal)
                = .error (.unsupportedType t) := hEq
            exact absurd hEq (fun hc => Except.noConfusion hc)
          · intro hall
            have h2 := hall r (List.mem_cons_self _ _)
            rw [h] at h2
            injection h2 with h3
            exact Option.noConfusion h3
  · intro r rules t v e h
    rw [runRules, h]
  · intro r rules t v x h
    rw [runRules, h]

/-- C3 (witness): a one-rule chain that is not applicable raises
`Unsupported type`, and an erroring head rule propagates. -/
theorem thm_C3_witness :
    runRules [decode_primitive ⟨5, decoderF json_decoders Option.none 5,
      to_json_case_of Option.none⟩] .list (.list [])
      = .error (.unsupportedType .list) := by
  exact (thm_C3.1 _ _ _ (by
    intro r hr
    simp at hr
    subst hr
    exact fun hc => Except.noConfusion hc)).mpr (by
    intro r hr
    simp at hr
    subst hr
    rfl)

/-- C4: decoding a tagged union demands a single-key object — two or more
keys raise the library's typed error — a single key matching no declared
case name fails through the `union.members(typ)[None]` `KeyError`, which
the entry point rewraps into the typed `JsonError`, and
`{"number": 3}` decodes to the `number` case carrying `3`. -/
theorem thm_C4 :
    (∀ (f : Nat) (cls : String) (cases : List (String × Option Ty))
      (kv1 kv2 : String × PyVal) (rest : List (String × PyVal)),
      decode (f+1) (.taggedUnion cls cases) (.dict (kv1 :: kv2 :: rest))
        Option.none json_decoders
        = .error (.wrapDecoding (.taggedNotSingle (.taggedUnion cls cases)))) ∧
    (∀ (f : Nat) (cls : String) (cases : List (String × Option Ty))
      (k : String) (w : PyVal),
      cases.find? (fun m => m.1 == k) = Option.none →
      decode (f+1) (.taggedUnion cls cases) (.dict [(k, w)])
        Option.none json_decoders
        = .error (.wrapDecoding (.keyError Option.none))) ∧
    decode 10 (.taggedUnion "IntCustom" [("number", some .int)])
      (.dict [("number", .int 3)]) Option.none json_decoders
      = .ok (.ucase "IntCustom" "number" (some .int) (.int 3)) := by
  refine ⟨fun f cls cases kv1 kv2 rest => rfl, ?_, rfl⟩
  intro f cls cases k w hfind
  have hd : decoderF json_decoders Option.none (f+1) (.taggedUnion cls cases)
      (.dict [(k, w)]) = .error (.keyError Option.none) := by
    rw [decoderF_step_taggedUnion]
    have hrule : decode_tagged_union ⟨f, decoderF json_decoders Option.none f,
        to_json_case_of Option.none⟩ (.taggedUnion cls cases)
        (.dict [(k, w)]) = .error (.keyError Option.none) := by
      show (match cases.find? (fun m => m.1 == k) with
        | Option.none => Except.error (Err.keyError Option.none)
        | Option.some m =>
          match m.2 with
          | Option.none => Except.ok (some
              (PyVal.ucase cls m.1 Option.none PyVal.none))
          | Option.some member_type =>
            Except.bind (decoderF json_decoders Option.none f member_type w)
              (fun w2 =>
                match pyIsinstance w2 member_type with
                | .error e => Except.error e
                | .ok true => Except.ok (some
                    (PyVal.ucase cls m.1 (some member_type) w2))
                | .ok false => Except.error Err.assertionError))
        = Except.error (Err.keyError Option.none)
      rw [hfind]
    rw [hrule]
  unfold decode
  rw [hd]

/-- C4 (witness): a single unknown key fails with the wrapped typed
error. -/
theorem thm_C4_witness :
    decode 6 (.taggedUnion "U" [("a", Option.none)]) (.dict [("b", .int 0)])
      Option.none json_decoders
      = .error (.wrapDecoding (.keyError Option.none)) :=
  thm_C4.2.1 5 "U" [("a", Option.none)] "b" (.int 0) rfl

/-- C5 (counterexample): the original claim says a missing key for any
non-optional field raises; but for a field of declared class `NoneType`
(or `Any`) the defaulting `dict.get` `None` decodes successfully, so the
record decode returns a value instead of failing. -/
theorem thm_C5_counterexample :
    decode 10 (.dataclass "X" [("a", .NoneType)]) (.dict [])
      Option.none json_decoders
      = .ok (.record "X" [("a", .NoneType, .none)]) ∧
    decode 10 (.dataclass "X" [("a", .Any)]) (.dict [])
      Option.none json_decoders
      = .ok (.record "X" [("a", .Any, .none)]) :=
  ⟨rfl, rfl⟩

/-- C5 (amended): for a dataclass field whose declared type is
`Optional[a]` with `a` any null-rejecting type (every supported type
except `NoneType`, `Any` and unions), a missing key decodes to `none`
without error; for a field declared as a bare such `a`, a missing key
fails with the wrapped typed error. -/
theorem thm_C5 :
    (∀ (f : Nat) (cls nm : String) (a : Ty), nullRejecting a = true →
      decode (f+3) (.dataclass cls [(nm, .Union [a, .NoneType])]) (.dict [])
        Option.none json_decoders
        = .ok (.record cls [(nm, .Union [a, .NoneType], .none)])) ∧
    (∀ (f : Nat) (cls nm : String) (a : Ty), nullRejecting a = true →
      ∃ e, decode (f+2) (.dataclass cls [(nm, a)]) (.dict [])
        Option.none json_decoders = .error (.wrapDecoding e) ∧
        e.isJsonError = true) :=
  ⟨fun f cls nm a hoi => dataclass_missing_optional f cls nm a hoi,
   fun f cls nm a hoi => dataclass_missing_required f cls nm a hoi⟩

/-- C5 (witness): the amended behavior at `Optional[int]`, at a bare
`int`, and at a bare `Tuple[]` field (a member of the broadened family
outside both primitives and the round-trip universe). -/
theorem thm_C5_witness :
    decode 3 (.dataclass "X" [("a", .Union [.int, .NoneType])]) (.dict [])
      Option.none json_decoders
      = .ok (.record "X" [("a", .Union [.int, .NoneType], .none)]) ∧
    (∃ e, decode 2 (.dataclass "X" [("a", .int)]) (.dict [])
      Option.none json_decoders = .error (.wrapDecoding e) ∧
      e.isJsonError = true) ∧
    (∃ e, decode 2 (.dataclass "X" [("a", .Tuple [])]) (.dict [])
      Option.none json_decoders = .error (.wrapDecoding e) ∧
      e.isJsonError = true) :=
  ⟨thm_C5.1 0 "X" "a" .int rfl, thm_C5.2 0 "X" "a" .int rfl,
   thm_C5.2 0 "X" "a" (.Tuple []) rfl⟩

/-- C6: encoding a value whose runtime class is not exactly the declared
primitive class raises the typed mismatch — in particular `True` against
declared `int`, although `bool` subclasses `int` in Python. -/
theorem thm_C6 :
    (∀ (f : Nat) (t : Ty) (v : PyVal),
      (t = .int ∨ t = .float ∨ t = .str ∨ t = .bool ∨ t = .NoneType) →
      rtypeTy v ≠ t →
      encode (f+1) v (some t) Option.none json_encoders
        = .error (.wrapEncoding (.typeMismatch [t] (rtypeTy v)))) ∧
    encode 10 (.bool true) (some .int) Option.none json_encoders
      = .error (.wrapEncoding (.typeMismatch [.int] .bool)) := by
  refine ⟨?_, rfl⟩
  intro f t v hmem hne
  have hrule : encode_primitive ⟨f, encoderF json_encoders Option.none f,
      to_json_case_of Option.none⟩ t v
      = .error (.typeMismatch [t] (rtypeTy v)) := by
    rcases hmem with rfl | rfl | rfl | rfl | rfl <;>
    · show Except.bind (check_type f _ v) (fun _ => Except.ok (some v))
        = Except.error (.typeMismatch [_] (rtypeTy v))
      rw [check_type_ne f _ v hne]
      rfl
  rcases hmem with rfl | rfl | rfl | rfl | rfl
  · unfold encode
    rw [encoderF_step_int, hrule]
  · unfold encode
    rw [encoderF_step_float, hrule]
  · unfold encode
    rw [encoderF_step_str, hrule]
  · unfold encode
    rw [encoderF_step_bool, hrule]
  · unfold encode
    rw [encoderF_step_NoneType, hrule]

/-- C6 (witness): a string against declared `int`. -/
theorem thm_C6_witness :
    encode 6 (.str "x") (some .int) Option.none json_encoders
      = .error (.wrapEncoding (.typeMismatch [.int] (rtypeTy (.str "x")))) :=
  thm_C6.1 5 .int (.str "x") (Or.inl rfl) (fun h => Ty.noConfusion h)

/-- C7: `loads`/`dumps` run the caller-supplied rules concatenated in
front of the built-in chain (`typ/json.py`'s own module-level lists), a
successful prefix shadows whatever follows it, and the custom
string-valued `int` rules of the test suite round-trip through the
string form. -/
theorem thm_C7 :
    (∀ (stack : Nat) (typ : Ty) (jv : PyVal) (decoders : List DecodeFunc),
      loads stack typ jv decoders
        = decode stack typ jv Option.none (decoders ++ json_py_decoders)) ∧
    (∀ (stack : Nat) (v : PyVal) (typ : Option Ty)
      (encoders : List EncodeFunc),
      dumps stack v typ encoders
        = encode stack v typ Option.none (encoders ++ json_py_encoders)) ∧
    (∀ (extras rest : List (Ty → PyVal → Except Err (Option PyVal)))
      (t : Ty) (v : PyVal) (x : PyVal), runRules extras t v = .ok x →
        runRules (extras ++ rest) t v = .ok x) ∧
    dumps 10 (.int 5) (some .int) [encode_int_custom] = .ok (.str "5") ∧
    loads 10 .int (.str "5") [decode_int_custom] = .ok (.int 5) :=
  ⟨fun _ _ _ _ => rfl, fun _ _ _ _ => rfl,
   fun extras rest t v x h => runRules_prefix_ok extras rest t v x h,
   rfl, rfl⟩

/-- C7 (witness): a successful extra rule shadows the whole built-in
suffix. -/
theorem thm_C7_witness :
    runRules ([fun _ _ => Except.ok (some (PyVal.int 7))] ++
      (json_decoders.map fun d => d ⟨5, decoderF json_decoders Option.none 5,
        to_json_case_of Option.none⟩)) .int .none = .ok (.int 7) :=
  thm_C7.2.2.1 _ _ _ _ _ rfl

/-- C8 (counterexample): the original claim promises an explicit UTC
offset for every encoded datetime and a bare `"HH:MM:SS"` for every
encoded time; a naive datetime encodes without any offset suffix, a
time with microseconds encodes with a fractional tail, and a
timezone-aware time (even with zero microseconds) encodes with a signed
offset suffix that breaks the bare `"HH:MM:SS"` shape. -/
theorem thm_C8_counterexample :
    encode 10 (.datetime 2020 1 1 0 0 0 0 Option.none) (some .datetime)
      Option.none json_encoders
      = .ok (.str (datetimeIso 2020 1 1 0 0 0 0 Option.none)) ∧
    specOffsetSuffixB (datetimeIso 2020 1 1 0 0 0 0 Option.none).data
      = false ∧
    encode 10 (.time 1 2 3 500000 Option.none) (some .time) Option.none
      json_encoders
      = .ok (.str (timeIso 1 2 3 500000 Option.none)) ∧
    specHmsShapeB (timeIso 1 2 3 500000 Option.none).data = false ∧
    encode 10 (.time 10 30 0 0 (some 60)) (some .time) Option.none
      json_encoders
      = .ok (.str (timeIso 10 30 0 0 (some 60))) ∧
    specHmsShapeB (timeIso 10 30 0 0 (some 60)).data = false :=
  ⟨rfl, rfl, rfl, rfl, rfl, rfl⟩

/-- C8 (amended): dates encode to the `"YYYY-MM-DD"` shape; aware
datetimes encode to an ISO string carrying a signed `HH:MM` offset
suffix; naive microsecond-free times encode to the `"HH:MM:SS"`
shape. -/
theorem thm_C8 :
    (∀ (f y m d : Nat), 1 ≤ y → y ≤ 9999 → 1 ≤ m → m ≤ 12 → 1 ≤ d →
      d ≤ daysInMonth y m →
      encode (f+1) (.date y m d) (some .date) Option.none json_encoders
        = .ok (.str (dateIso y m d)) ∧
      specDateShapeB (dateIso y m d).data = true) ∧
    (∀ (f y mo d h mi s us : Nat) (off : Int), off.natAbs ≤ 1439 →
      encode (f+1) (.datetime y mo d h mi s us (some off)) (some .datetime)
        Option.none json_encoders
        = .ok (.str (datetimeIso y mo d h mi s us (some off))) ∧
      specOffsetSuffixB (datetimeIso y mo d h mi s us (some off)).data
        = true) ∧
    (∀ (f h mi s : Nat), h ≤ 23 → mi ≤ 59 → s ≤ 59 →
      encode (f+1) (.time h mi s 0 Option.none) (some .time) Option.none
        json_encoders
        = .ok (.str (timeIso h mi s 0 Option.none)) ∧
      specHmsShapeB (timeIso h mi s 0 Option.none).data = true) := by
  refine ⟨?_, ?_, ?_⟩
  · intro f y m d h1 h2 h3 h4 h5 h6
    refine ⟨rfl, ?_⟩
    show specDateShapeB (fmtYmd y m d) = true
    have hle := daysInMonth_le y m
    exact specDateShapeB_fmt y m d (by omega) (by omega) (by omega)
  · intro f y mo d h mi s us off hoff
    refine ⟨rfl, ?_⟩
    have hre : (datetimeIso y mo d h mi s us (some off)).data
        = (fmtYmd y mo d ++ 'T' :: (fmtHms h mi s ++ fmtFrac us))
          ++ fmtOffset (some off) := by
      rw [datetimeIso_data]
      simp [List.append_assoc]
    rw [hre]
    exact specOffsetSuffixB_append _ off hoff
  · intro f h mi s hh hmi hs
    refine ⟨rfl, ?_⟩
    show specHmsShapeB (fmtHms h mi s ++ fmtFrac 0 ++ fmtOffset Option.none)
      = true
    rw [show fmtFrac 0 = [] from rfl, show fmtOffset Option.none = [] from rfl,
      List.append_nil, List.append_nil]
    exact specHmsShapeB_fmt h mi s (by omega) (by omega) (by omega)

/-- C8 (witness): the amended shapes at concrete temporal values. -/
theorem thm_C8_witness :
    (encode 1 (.date 2020 1 15) (some .date) Option.none json_encoders
      = .ok (.str (dateIso 2020 1 15)) ∧
      specDateShapeB (dateIso 2020 1 15).data = true) ∧
    (encode 1 (.datetime 2020 1 15 10 30 0 0 (some 60)) (some .datetime)
      Option.none json_encoders
      = .ok (.str (datetimeIso 2020 1 15 10 30 0 0 (some 60))) ∧
      specOffsetSuffixB (datetimeIso 2020 1 15 10 30 0 0 (some 60)).data
        = true) ∧
    (encode 1 (.time 10 30 0 0 Option.none) (some .time) Option.none
      json_encoders
      = .ok (.str (timeIso 10 30 0 0 Option.none)) ∧
      specHmsShapeB (timeIso 10 30 0 0 Option.none).data = true) :=
  ⟨thm_C8.1 0 2020 1 15 (by decide) (by decide) (by decide) (by decide)
      (by decide) (by decide),
   thm_C8.2.1 0 2020 1 15 10 30 0 0 60 (by decide),
   thm_C8.2.2 0 10 30 0 (by decide) (by decide) (by decide)⟩

/-- C9: the top-level entry points either return a value or fail with the
library's rewrapped typed error, for every input and rule chain; an
unparsable date string (`ValueError` inside `strptime`) and an unknown
tagged-union key (`KeyError` inside the member lookup) both surface as
the wrapped typed error. -/
theorem thm_C9 :
    (∀ (stack : Nat) (typ : Ty) (jv : PyVal)
      (cse : Option (String → String)) (decoders : List DecodeFunc),
      (∃ r, decode stack typ jv cse decoders = .ok r) ∨
      (∃ e, decode stack typ jv cse decoders = .error (.wrapDecoding e))) ∧
    (∀ (stack : Nat) (v : PyVal) (typ : Option Ty)
      (cse : Option (String → String)) (encoders : List EncodeFunc),
      (∃ r, encode stack v typ cse encoders = .ok r) ∨
      (∃ e, encode stack v typ cse encoders = .error (.wrapEncoding e))) ∧
    decode 10 .date (.str "nope") Option.none json_decoders
      = .error (.wrapDecoding (.valueError "strptime")) ∧
    decode 10 (.taggedUnion "U" [("a", Option.none)])
      (.dict [("zzz", .int 0)]) Option.none json_decoders
      = .error (.wrapDecoding (.keyError Option.none)) := by
  refine ⟨?_, ?_, rfl, rfl⟩
  · intro stack typ jv cse decoders
    unfold decode
    cases h : decoderF decoders cse stack typ jv with
    | ok r => exact Or.inl ⟨r, rfl⟩
    | error e => exact Or.inr ⟨e, rfl⟩
  · intro stack v typ cse encoders
    unfold encode
    cases h : encoderF encoders cse stack v typ with
    | ok r => exact Or.inl ⟨r, rfl⟩
    | error e => exact Or.inr ⟨e, rfl⟩

/-- C10: for record decoding, an interchange object with a field's key
mapped to `null` is indistinguishable from the object without that key —
`dict.get` defaults the missing key to `None` — so both runs return the
same outcome for every field list, value or failure alike. -/
theorem thm_C10 (f : Nat) (cls : String) (fields : List (String × Ty))
    (jkvs : List (String × PyVal)) (nm : String) :
    decode (f+1) (.dataclass cls fields) (.dict (jkvs ++ [(nm, .none)]))
      Option.none json_decoders
      = decode (f+1) (.dataclass cls fields) (.dict jkvs)
        Option.none json_decoders := by
  unfold decode
  have hjd : decoderF json_decoders Option.none (f+1) (.dataclass cls fields)
      (.dict (jkvs ++ [(nm, .none)]))
      = decoderF json_decoders Option.none (f+1) (.dataclass cls fields)
        (.dict jkvs) := by
    rw [decoderF_step_dataclass, decoderF_step_dataclass]
    have hrule : decode_dataclass ⟨f, decoderF json_decoders Option.none f,
        to_json_case_of Option.none⟩ (.dataclass cls fields)
        (.dict (jkvs ++ [(nm, .none)]))
        = decode_dataclass ⟨f, decoderF json_decoders Option.none f,
          to_json_case_of Option.none⟩ (.dataclass cls fields)
          (.dict jkvs) := by
      show Except.bind (fields.mapM (fun fld : String × Ty => do
          let w ← decoderF json_decoders Option.none f fld.2
            (dictGet (jkvs ++ [(nm, PyVal.none)])
              (to_json_case_of Option.none fld.1))
          pure (fld.1, fld.2, w)))
        (fun ys => Except.ok (some (PyVal.record cls ys)))
        = Except.bind (fields.mapM (fun fld : String × Ty => do
          let w ← decoderF json_decoders Option.none f fld.2
            (dictGet jkvs (to_json_case_of Option.none fld.1))
          pure (fld.1, fld.2, w)))
        (fun ys => Except.ok (some (PyVal.record cls ys)))
      rw [show (fun fld : String × Ty => do
          let w ← decoderF json_decoders Option.none f fld.2
            (dictGet (jkvs ++ [(nm, PyVal.none)])
              (to_json_case_of Option.none fld.1))
          pure (fld.1, fld.2, w)
          : String × Ty → Except Err (String × Ty × PyVal))
        = (fun fld : String × Ty => do
          let w ← decoderF json_decoders Option.none f fld.2
            (dictGet jkvs (to_json_case_of Option.none fld.1))
          pure (fld.1, fld.2, w))
        from funext fun fld => by rw [dictGet_append_none]]
    rw [hrule]
  rw [hjd]
